import Mathlib

/-! The file catalog pages of the storage dashboard

A shallow embedding of `frontend/users/js/files.js` and
`frontend/Admin/js/files.js`: the page state (`allFiles`, `currentPage` and the
values of the `sortBy`, `fileType` and `fileSearch` controls) is a record, and
every function of the page that reads or writes it is a function on that record.
The server's answer to `api.getFiles()` is an argument of the operations that
fetch it. The selection of `frontend/users/js/upload.js` and the submit handler
of the quick upload of `frontend/users/js/dashboard.js` are embedded the same
way, the outcome of each call of `api.uploadFile` being an argument; so are
the submit handler of the upload page and `calculateStoragePercent` of
`frontend/Admin/js/system.js`.

Modelling conventions:

* JavaScript numbers that hold integers (`size`, page numbers, the epoch
  milliseconds of `new Date(upload_date)`) are `Int`.
* `Array.prototype.sort(comparefn)` is the stable sort that ECMAScript 2019
  requires; it is modelled by stable insertion sort on the relation
  `comparefn a b ≤ 0`.
* `String.prototype.localeCompare` is supplied by the host; it is an argument
  `localeCompare : String → String → Int`.
* `toLowerCase` folds the ASCII letters; where a statement is about the
  lower-casing of arbitrary strings, `String.prototype.toLowerCase` is an
  argument `lowerCase : String → String`. `trim` removes the ECMAScript white
  space and line terminator characters.
* The quotients and products under `Math.round` are doubles: IEEE 754
  arithmetic, rounding to the nearest double with a tie going to the even
  significand, is modelled on fractions. The quotient of two lengths under
  `Math.ceil` is taken exactly.
-/

namespace DSS

/-! ## Strings -/

/-- `s.toLowerCase()` on the ASCII range: the letters `A` to `Z` are folded
and every other character is kept. The host folds the cased letters beyond
ASCII as well; where a statement is about the lower-casing of arbitrary names
and terms, the function of the host is an argument `lowerCase`. -/
def toLowerCase (s : String) : String :=
  ⟨s.data.map Char.toLower⟩

/-- The pieces of `s.split(sep)` for a one-character separator, on the
characters of `s`. -/
def splitChars (sep : Char) : List Char → List (List Char)
  | [] => [[]]
  | c :: cs =>
    if c = sep then [] :: splitChars sep cs
    else
      match splitChars sep cs with
      | [] => [[c]]
      | piece :: pieces => (c :: piece) :: pieces

/-- `s.split(sep)` for a one-character separator. -/
def split (s : String) (sep : Char) : List String :=
  (splitChars sep s.data).map String.mk

/-- `arr.pop()` as a value: the last element, `none` (JavaScript `undefined`)
on the empty array. -/
def pop {α : Type} (arr : List α) : Option α :=
  arr.getLast?

/-- The expression `file.original_filename.split(".").pop().toLowerCase()`.
`split` never returns the empty array, so `pop` always finds a string. -/
def extensionOf (original_filename : String) : String :=
  match pop (split original_filename '.') with
  | some piece => toLowerCase piece
  | none => ""

/-- Whether `t` starts the character list `s`. -/
def startsWithChars : List Char → List Char → Bool
  | _, [] => true
  | [], _ :: _ => false
  | c :: cs, d :: ds => c == d && startsWithChars cs ds

/-- Whether `t` occurs in the character list `s` at some position. -/
def includesChars : List Char → List Char → Bool
  | [], t => startsWithChars [] t
  | c :: cs, t => startsWithChars (c :: cs) t || includesChars cs t

/-- `s.includes(t)`. -/
def includes (s t : String) : Bool :=
  includesChars s.data t.data

/-- The characters `trim` strips: ECMAScript WhiteSpace and LineTerminator. -/
def isWhiteSpace (c : Char) : Bool :=
  let n := c.toNat
  n = 0x09 || n = 0x0A || n = 0x0B || n = 0x0C || n = 0x0D || n = 0x20 || n = 0xA0 ||
  n = 0x1680 || (0x2000 ≤ n && n ≤ 0x200A) || n = 0x2028 || n = 0x2029 || n = 0x202F ||
  n = 0x205F || n = 0x3000 || n = 0xFEFF

/-- `s.trim()`. -/
def trim (s : String) : String :=
  ⟨((s.data.dropWhile isWhiteSpace).reverse.dropWhile isWhiteSpace).reverse⟩

/-! ## File records and the page state -/

/-- One element of the array the server returns for `/files`. `upload_date`
is the value of `new Date(file.upload_date)` in epoch milliseconds. -/
structure FileRecord where
  id : Nat
  original_filename : String
  size : Int
  upload_date : Int
  username : String
  deriving DecidableEq, Repr

/-- The result of `api.getFiles()`. -/
structure Response where
  success : Bool
  data : List FileRecord
  deriving DecidableEq, Repr

/-- The globals of the page and the values of its controls.
`resetSearchBtn` is `some originalFiles` while the reset button is in the
document; `originalFiles` is the copy its click handler closes over. -/
structure PageState where
  allFiles : List FileRecord
  currentPage : Int
  sortBy : String
  fileType : String
  fileSearch : String
  resetSearchBtn : Option (List FileRecord)
  shown : List FileRecord
  deriving DecidableEq, Repr

/-- `const filesPerPage = 12` of the user page. -/
def filesPerPage : Nat := 12

/-! ## Sorting -/

/-- `arr.sort(comparefn)`: insertion from the right, an element going in front
of the first later element it does not compare greater than. -/
def sort {α : Type} (comparefn : α → α → Int) (arr : List α) : List α :=
  arr.insertionSort (fun a b => comparefn a b ≤ 0)

/-- The comparator `sortFiles` passes to `sort` for each value of the `sortBy`
control; `none` where the `switch` has no case. -/
def comparefn (localeCompare : String → String → Int) (sortBy : String) :
    Option (FileRecord → FileRecord → Int) :=
  match sortBy with
  | "date-desc" => some (fun a b => b.upload_date - a.upload_date)
  | "date-asc" => some (fun a b => a.upload_date - b.upload_date)
  | "name-asc" => some (fun a b => localeCompare a.original_filename b.original_filename)
  | "name-desc" => some (fun a b => localeCompare b.original_filename a.original_filename)
  | "size-desc" => some (fun a b => b.size - a.size)
  | "size-asc" => some (fun a b => a.size - b.size)
  | _ => none

/-- The function `sortFiles`, on the value of `allFiles`. -/
def sortFiles (localeCompare : String → String → Int) (sortBy : String)
    (allFiles : List FileRecord) : List FileRecord :=
  match comparefn localeCompare sortBy with
  | some cmp => sort cmp allFiles
  | none => allFiles

/-- The six values of the `sortBy` control. -/
def sortKeys : List String :=
  ["date-desc", "date-asc", "name-asc", "name-desc", "size-desc", "size-asc"]

/-- A comparator that `sort` can order by: any two elements are comparable
and the comparison is transitive. -/
structure Consistent {α : Type} (cmp : α → α → Int) : Prop where
  total : ∀ a b, cmp a b ≤ 0 ∨ cmp b a ≤ 0
  trans : ∀ a b c, cmp a b ≤ 0 → cmp b c ≤ 0 → cmp a c ≤ 0

/-- The order each sort key asks for: `a` may stand before `b`. -/
def inOrder (localeCompare : String → String → Int) (sortBy : String)
    (a b : FileRecord) : Prop :=
  match sortBy with
  | "date-desc" => b.upload_date ≤ a.upload_date
  | "date-asc" => a.upload_date ≤ b.upload_date
  | "name-asc" => localeCompare a.original_filename b.original_filename ≤ 0
  | "name-desc" => localeCompare b.original_filename a.original_filename ≤ 0
  | "size-desc" => b.size ≤ a.size
  | "size-asc" => a.size ≤ b.size
  | _ => True

/-- The two records rank equal under the chosen sort key. -/
def sameKey (localeCompare : String → String → Int) (sortBy : String)
    (a b : FileRecord) : Prop :=
  match sortBy with
  | "date-desc" => a.upload_date = b.upload_date
  | "date-asc" => a.upload_date = b.upload_date
  | "name-asc" => localeCompare a.original_filename b.original_filename = 0 ∧
      localeCompare b.original_filename a.original_filename = 0
  | "name-desc" => localeCompare a.original_filename b.original_filename = 0 ∧
      localeCompare b.original_filename a.original_filename = 0
  | "size-desc" => a.size = b.size
  | "size-asc" => a.size = b.size
  | _ => True

instance (localeCompare : String → String → Int) (sortBy : String) (a b : FileRecord) :
    Decidable (sameKey localeCompare sortBy a b) := by
  unfold sameKey; split <;> infer_instance

/-- Comparison of two character lists by code point, the first difference
deciding. -/
def compareChars : List Char → List Char → Int
  | [], [] => 0
  | [], _ :: _ => -1
  | _ :: _, [] => 1
  | a :: as, b :: bs =>
    if a.toNat < b.toNat then -1
    else if b.toNat < a.toNat then 1
    else compareChars as bs

/-- One collation a host may supply as `localeCompare`: by code point. -/
def codePointCompare (a b : String) : Int :=
  compareChars a.data b.data

/-! ## Category filter -/

/-- The extensions of the `"image"` case. -/
def imageTypes : List String := ["jpg", "jpeg", "png", "gif", "svg", "webp"]

/-- The extensions of the `"document"` case. -/
def documentTypes : List String :=
  ["pdf", "doc", "docx", "xls", "xlsx", "ppt", "pptx", "txt"]

/-- The extensions of the `"video"` case. -/
def videoTypes : List String := ["mp4", "avi", "mov", "wmv", "mkv", "webm"]

/-- The extensions of the `"audio"` case. -/
def audioTypes : List String := ["mp3", "wav", "ogg", "flac", "aac"]

/-- The array `commonTypes` of the `"other"` case, as the source lists it. -/
def commonTypes : List String :=
  ["jpg", "jpeg", "png", "gif", "svg", "webp",
   "pdf", "doc", "docx", "xls", "xlsx", "ppt", "pptx", "txt",
   "mp4", "avi", "mov", "wmv", "mkv", "webm",
   "mp3", "wav", "ogg", "flac", "aac"]

/-- The `switch (fileType)` inside the callback of `filterFiles`, on the
extension already computed. -/
def keepsExtension (fileType : String) (extension : String) : Bool :=
  match fileType with
  | "image" => imageTypes.contains extension
  | "document" => documentTypes.contains extension
  | "video" => videoTypes.contains extension
  | "audio" => audioTypes.contains extension
  | "other" => !commonTypes.contains extension
  | _ => true

/-- The function `filterFiles`, on the value of `allFiles`. -/
def filterFiles (fileType : String) (allFiles : List FileRecord) : List FileRecord :=
  if fileType ≠ "all" then
    allFiles.filter (fun file => keepsExtension fileType (extensionOf file.original_filename))
  else allFiles

/-- The five categories the taxonomy distinguishes. -/
def categories : List String := ["image", "document", "video", "audio", "other"]

/-- The category of an extension: the first of the four lists that holds it,
`"other"` when none does. -/
def categoryOf (extension : String) : String :=
  if imageTypes.contains extension then "image"
  else if documentTypes.contains extension then "document"
  else if videoTypes.contains extension then "video"
  else if audioTypes.contains extension then "audio"
  else "other"

/-! ## Pages -/

/-- `arr.slice(start, stop)`, negative indices counting from the end. -/
def slice {α : Type} (arr : List α) (start stop : Int) : List α :=
  let len : Int := arr.length
  let k : Int := if start < 0 then max (len + start) 0 else min start len
  let final : Int := if stop < 0 then max (len + stop) 0 else min stop len
  (arr.drop k.toNat).take (final - k).toNat

/-- `Math.ceil(n / perPage)` for a length `n`. -/
def ceilDiv (n perPage : Nat) : Int :=
  Int.ofNat ((n + perPage - 1) / perPage)

/-- `Math.ceil(allFiles.length / filesPerPage)`, as `changePage` and
`setupPagination` compute it. -/
def totalPages (allFiles : List FileRecord) : Int :=
  ceilDiv allFiles.length filesPerPage

/-- The function `displayFiles`: the page handed to the grid or list view is
recorded in `shown`. -/
def displayFiles (s : PageState) (page : Int) : PageState :=
  let startIndex := (page - 1) * filesPerPage
  let endIndex := startIndex + filesPerPage
  { s with shown := slice s.allFiles startIndex endIndex }

/-- The function `loadFiles`, given the answer of `api.getFiles()`. In the
`else` branch and on an exception only a message is rendered. -/
def loadFiles (localeCompare : String → String → Int) (s : PageState) (r : Response) :
    PageState :=
  if r.success && r.data.length > 0 then
    let s1 := { s with allFiles := r.data }
    let s2 := { s1 with allFiles := sortFiles localeCompare s1.sortBy s1.allFiles }
    let s3 := { s2 with allFiles := filterFiles s2.fileType s2.allFiles }
    displayFiles s3 s3.currentPage
  else { s with shown := [] }

/-- The `change` listener of the `sortBy` control, the control already
holding `value`. -/
def sortByChange (localeCompare : String → String → Int) (s : PageState) (value : String)
    (r : Response) : PageState :=
  loadFiles localeCompare { s with sortBy := value, currentPage := 1 } r

/-- The `change` listener of the `fileType` control, the control already
holding `value`. -/
def fileTypeChange (localeCompare : String → String → Int) (s : PageState) (value : String)
    (r : Response) : PageState :=
  loadFiles localeCompare { s with fileType := value, currentPage := 1 } r

/-- The function `changePage`. -/
def changePage (s : PageState) (page : Int) : PageState :=
  if page < 1 ∨ page > totalPages s.allFiles ∨ page = s.currentPage then s
  else displayFiles { s with currentPage := page } page

/-- The user typing `value` into the `fileSearch` box. -/
def typeSearch (s : PageState) (value : String) : PageState :=
  { s with fileSearch := value }

/-- The function `handleSearch` of the user page, `lowerCase` being the
`String.prototype.toLowerCase` of the host. `r` is the answer of the server in
the branch that reloads. -/
def handleSearchWith (lowerCase : String → String) (localeCompare : String → String → Int)
    (s : PageState) (r : Response) : PageState :=
  let searchTerm := trim (lowerCase s.fileSearch)
  if searchTerm = "" then loadFiles localeCompare s r
  else
    let filteredFiles :=
      s.allFiles.filter (fun file => includes (lowerCase file.original_filename) searchTerm)
    let originalFiles := s.allFiles
    let s1 := displayFiles { s with allFiles := filteredFiles, currentPage := 1 } 1
    if s1.resetSearchBtn.isNone then { s1 with resetSearchBtn := some originalFiles }
    else s1

/-- The function `handleSearch` of the user page, lower-casing by `toLowerCase`. -/
def handleSearch (localeCompare : String → String → Int) (s : PageState) (r : Response) :
    PageState :=
  handleSearchWith toLowerCase localeCompare s r

/-- The `click` listener of the reset button that `handleSearch` adds; without
the button in the document there is nothing to click. -/
def resetSearchClick (localeCompare : String → String → Int) (s : PageState) (r : Response) :
    PageState :=
  match s.resetSearchBtn with
  | none => s
  | some originalFiles =>
    let s1 := loadFiles localeCompare { s with fileSearch := "", allFiles := originalFiles } r
    { s1 with resetSearchBtn := none }

/-- The globals as the script declares them, the controls holding the values
the document gives them. -/
def initialState (sortBy fileType : String) : PageState :=
  { allFiles := [], currentPage := 1, sortBy := sortBy, fileType := fileType,
    fileSearch := "", resetSearchBtn := none, shown := [] }

/-- What can happen on the user page. -/
inductive Action where
  | load (r : Response)
  | sortByChange (value : String) (r : Response)
  | fileTypeChange (value : String) (r : Response)
  | typeSearch (value : String)
  | search (r : Response)
  | resetSearch (r : Response)
  | changePage (page : Int)

/-- The effect of one action on the page state. -/
def step (localeCompare : String → String → Int) (s : PageState) : Action → PageState
  | .load r => loadFiles localeCompare s r
  | .sortByChange value r => sortByChange localeCompare s value r
  | .fileTypeChange value r => fileTypeChange localeCompare s value r
  | .typeSearch value => typeSearch s value
  | .search r => handleSearch localeCompare s r
  | .resetSearch r => resetSearchClick localeCompare s r
  | .changePage page => changePage s page

/-- The state after a sequence of actions. -/
def run (localeCompare : String → String → Int) (s : PageState) (actions : List Action) :
    PageState :=
  actions.foldl (step localeCompare) s

/-- Whether an action fetches the list again without touching `currentPage`:
a load, a click on the reset button, or a search with nothing but white space
in the box. -/
def Action.reloads (s : PageState) : Action → Bool
  | .load _ => true
  | .resetSearch _ => true
  | .search _ => trim (toLowerCase s.fileSearch) = ""
  | _ => false

/-- The page index is one of the pages of the working set (page 1 when the
working set is empty). -/
def pageInRange (s : PageState) : Prop :=
  1 ≤ s.currentPage ∧ s.currentPage ≤ max 1 (totalPages s.allFiles)

instance (s : PageState) : Decidable (pageInRange s) := by
  unfold pageInRange; infer_instance

/-! ## The admin page -/

namespace Admin

/-- `const filesPerPage = 10` of the admin page. -/
def filesPerPage : Nat := 10

/-- The function `displayFiles` of the admin page. -/
def displayFiles (s : PageState) (page : Int) : PageState :=
  let startIndex := (page - 1) * filesPerPage
  let endIndex := startIndex + filesPerPage
  { s with shown := slice s.allFiles startIndex endIndex }

/-- The function `loadFiles` of the admin page, given the answer of
`api.getAllFiles()`: no sort and no filter. -/
def loadFiles (s : PageState) (r : Response) : PageState :=
  if r.success && r.data.length > 0 then
    displayFiles { s with allFiles := r.data } s.currentPage
  else { s with shown := [] }

/-- The function `handleSearch` of the admin page, `lowerCase` being the
`String.prototype.toLowerCase` of the host. -/
def handleSearchWith (lowerCase : String → String) (s : PageState) (r : Response) :
    PageState :=
  let searchTerm := trim (lowerCase s.fileSearch)
  if searchTerm = "" then loadFiles s r
  else
    let filteredFiles :=
      s.allFiles.filter (fun file =>
        includes (lowerCase file.original_filename) searchTerm
          || includes (lowerCase file.username) searchTerm)
    let originalFiles := s.allFiles
    let s0 := { s with allFiles := filteredFiles, currentPage := 1 }
    let s1 := if filteredFiles.length = 0 then { s0 with shown := [] } else displayFiles s0 1
    if s1.resetSearchBtn.isNone then { s1 with resetSearchBtn := some originalFiles }
    else s1

/-- The function `handleSearch` of the admin page, lower-casing by
`toLowerCase`. -/
def handleSearch (s : PageState) (r : Response) : PageState :=
  handleSearchWith toLowerCase s r

end Admin

/-! ## Sample records -/

/-- A record with the given id and filename, its size and date taken from
the numbers given. -/
def sampleFile (id : Nat) (original_filename : String) (size upload_date : Int) :
    FileRecord :=
  { id := id, original_filename := original_filename, size := size,
    upload_date := upload_date, username := "alice" }

/-- Three records with distinct names, sizes and dates. -/
def sampleFiles : List FileRecord :=
  [sampleFile 1 "b.txt" 10 300, sampleFile 2 "a.txt" 30 100, sampleFile 3 "c.txt" 20 200]

/-- Three records, the first and the last of the same size. -/
def sampleTies : List FileRecord :=
  [sampleFile 1 "b.txt" 10 300, sampleFile 2 "a.txt" 5 100, sampleFile 3 "c.txt" 10 200]

/-- `text` contains `term` as a substring, compared case-insensitively, the
case of a letter being the one `toLowerCase` knows. -/
def containsIgnoringCase (text term : String) : Prop :=
  (toLowerCase term).data <:+: (toLowerCase text).data

instance (text term : String) : Decidable (containsIgnoringCase text term) := by
  unfold containsIgnoringCase; infer_instance

/-- The comparison of a search: `text`, lower-cased by the host, contains as a
substring the value of the search box lower-cased by the host and then
trimmed. -/
def matchesSearch (lowerCase : String → String) (text value : String) : Prop :=
  (trim (lowerCase value)).data <:+: (lowerCase text).data

instance (lowerCase : String → String) (text value : String) :
    Decidable (matchesSearch lowerCase text value) := by
  unfold matchesSearch; infer_instance

/-- A page showing `AB.txt` and `b.txt` with `value` in the search box. -/
def searchingState (value : String) : PageState :=
  { allFiles := [sampleFile 1 "AB.txt" 10 300, sampleFile 2 "b.txt" 30 100],
    currentPage := 1, sortBy := "date-desc", fileType := "all", fileSearch := value,
    resetSearchBtn := none, shown := [] }

/-- Thirteen records named `a.txt`, numbered from 0. -/
def thirteenFiles : List FileRecord :=
  (List.range 13).map (fun i => sampleFile i "a.txt" i i)

/-- Two records, one matching the search term `a` and one not. -/
def twoFiles : List FileRecord :=
  [sampleFile 1 "a.txt" 10 300, sampleFile 2 "b.txt" 30 100]

/-- The user page after its first load of `twoFiles`, sorted by name. -/
def loadedState : PageState :=
  loadFiles codePointCompare (initialState "name-asc" "all") ⟨true, twoFiles⟩

/-- The user page after its first load of `thirteenFiles`. -/
def thirteenLoaded : PageState :=
  loadFiles codePointCompare (initialState "date-desc" "all") ⟨true, thirteenFiles⟩

/-! ## The pagination control -/

/-- One `<li>` of the control `setupPagination` renders: the previous
button, a page link, the `...` marker, the next button. -/
inductive PaginationItem where
  | previous (target : Int) (disabled : Bool)
  | page (i : Int) (active : Bool)
  | ellipsis
  | following (target : Int) (disabled : Bool)
  deriving DecidableEq, Repr

/-- The body of the loop of `setupPagination` at index `i`: what it appends
to the control, if anything. -/
def pageItem (currentPage totalPages i : Int) : Option PaginationItem :=
  if i = 1 ∨ i = totalPages ∨ (i ≥ currentPage - 1 ∧ i ≤ currentPage + 1) then
    some (.page i (i = currentPage))
  else if i = currentPage - 2 ∨ i = currentPage + 2 then some .ellipsis
  else none

/-- The loop `for (let i = 1; i <= totalPages; i++)` of `setupPagination`. -/
def pageNumbers (currentPage totalPages : Int) : List PaginationItem :=
  (List.range' 1 totalPages.toNat).filterMap
    (fun i : Nat => pageItem currentPage totalPages (i : Int))

/-- The control `setupPagination` renders for a page index and a number of
pages: nothing for at most one page, else the previous button, the loop and
the next button. -/
def paginationItems (currentPage totalPages : Int) : List PaginationItem :=
  if totalPages ≤ 1 then []
  else
    [.previous (currentPage - 1) (currentPage = 1)] ++ pageNumbers currentPage totalPages ++
      [.following (currentPage + 1) (currentPage = totalPages)]

/-- The function `setupPagination` of the user page: the content it gives the
pagination container. -/
def setupPagination (s : PageState) : List PaginationItem :=
  paginationItems s.currentPage (totalPages s.allFiles)

/-- The page number of a page link. -/
def PaginationItem.number? : PaginationItem → Option Int
  | .page i _ => some i
  | _ => none

/-- The page numbers of a control, in the order of their links. -/
def pageLinks (items : List PaginationItem) : List Int :=
  items.filterMap PaginationItem.number?

/-- A row of page links for increasing page numbers, an ellipsis standing
wherever the next number is not the successor of the one before it; the link
of `currentPage` is the active one. -/
def collapse (currentPage : Int) : List Int → List PaginationItem
  | [] => []
  | [a] => [.page a (a = currentPage)]
  | a :: b :: rest =>
    if b = a + 1 then .page a (a = currentPage) :: collapse currentPage (b :: rest)
    else .page a (a = currentPage) :: .ellipsis :: collapse currentPage (b :: rest)

/-- Whether somewhere in the list two ellipses stand next to each other. -/
def hasAdjacentEllipses : List PaginationItem → Bool
  | .ellipsis :: .ellipsis :: _ => true
  | _ :: rest => hasAdjacentEllipses rest
  | [] => false

/-- The links the loop of `setupPagination` renders before that of
`currentPage`. -/
def leftOf (currentPage : Int) : List PaginationItem :=
  if currentPage = 1 then []
  else if currentPage = 2 then [.page 1 false]
  else if currentPage = 3 then [.page 1 false, .page 2 false]
  else [.page 1 false, .ellipsis, .page (currentPage - 1) false]

/-- The links the loop of `setupPagination` renders after that of
`currentPage`. -/
def rightOf (currentPage totalPages : Int) : List PaginationItem :=
  if currentPage = totalPages then []
  else if currentPage + 1 = totalPages then [.page totalPages false]
  else if currentPage + 2 = totalPages then
    [.page (currentPage + 1) false, .page totalPages false]
  else [.page (currentPage + 1) false, .ellipsis, .page totalPages false]

namespace Admin

/-- `Math.ceil(allFiles.length / filesPerPage)` on the admin page. -/
def totalPages (allFiles : List FileRecord) : Int :=
  ceilDiv allFiles.length filesPerPage

/-- The function `changePage` of the admin page. -/
def changePage (s : PageState) (page : Int) : PageState :=
  if page < 1 ∨ page > totalPages s.allFiles ∨ page = s.currentPage then s
  else displayFiles { s with currentPage := page } page

/-- The function `setupPagination` of the admin page. -/
def setupPagination (s : PageState) : List PaginationItem :=
  paginationItems s.currentPage (totalPages s.allFiles)

end Admin

/-! ## The upload page: the selection -/

/-- A `File` of a file input or of a drop. -/
structure LocalFile where
  name : String
  size : Nat
  lastModified : Int
  deriving DecidableEq, Repr

/-- The array `selectedFiles` of `setupUpload` and the state of the upload
button. -/
structure UploadPage where
  selectedFiles : List LocalFile
  uploadBtnDisabled : Bool
  deriving DecidableEq, Repr

/-- The test `selectedFiles.some((f) => f.name === file.name && f.size === file.size)`. -/
def fileExists (selectedFiles : List LocalFile) (file : LocalFile) : Bool :=
  selectedFiles.any (fun f => f.name = file.name && f.size = file.size)

/-- The function `handleFileSelection` of the upload page. -/
def handleFileSelection (s : UploadPage) (files : List LocalFile) : UploadPage :=
  let selectedFiles :=
    files.foldl (fun selected file =>
      if fileExists selected file then selected else selected ++ [file]) s.selectedFiles
  { selectedFiles := selectedFiles, uploadBtnDisabled := selectedFiles.length = 0 }

/-- The pair a selection is de-duplicated by. -/
def dedupKey (file : LocalFile) : String × Nat :=
  (file.name, file.size)

/-- The files a selection adds to the array `selected`: each file whose name
and size no earlier entry has, the files added before it included. -/
def newlySelected (selected : List LocalFile) : List LocalFile → List LocalFile
  | [] => []
  | file :: files =>
    if fileExists selected file then newlySelected selected files
    else file :: newlySelected (selected ++ [file]) files

/-! ## The dashboard: the quick upload -/

/-- What `await api.uploadFile(formData, onProgress)` of the dashboard gives
the submit handler. `resolved`: the parsed body of a 2xx answer, of which the
handler reads `success` and `message`. `rejected`: a rejection with
`xhr.statusText`, for another status or a network error. `pending`: nothing,
the promise never settles; this is the 2xx answer whose body is not JSON, for
which `JSON.parse` throws inside `xhr.onload`, where nothing catches it. -/
inductive UploadResult where
  | resolved (success : Bool) (message : Option String)
  | rejected (statusText : String)
  | pending
  deriving DecidableEq, Repr

/-- What the submit handler tells the user: one of its alerts, or `nothing`
when it stays suspended at an `await` that never resumes. -/
inductive UploadReport where
  | selectFiles
  | uploaded
  | error (text : String)
  | nothing
  deriving DecidableEq, Repr

/-- A run of the submit handler: the files it handed to `api.uploadFile`, in
the order of the calls, and its report. -/
structure UploadRun where
  sent : List LocalFile
  report : UploadReport
  deriving DecidableEq, Repr

/-- The expression `response.message || "Upload failed"`. -/
def messageOrDefault : Option String → String
  | some message => if message = "" then "Upload failed" else message
  | none => "Upload failed"

/-- How the loop of the submit handler is left: it ran through, an exception
threw it into the `catch`, which reads `error.message` (a rejection carries a
string, which has none), or it is suspended for good. -/
inductive LoopExit where
  | completed
  | thrown (message : String)
  | suspended
  deriving DecidableEq, Repr

/-- The loop of the submit handler from index `i` on: the files sent and how
the loop is left. -/
def uploadEach (transport : Nat → LocalFile → UploadResult) :
    Nat → List LocalFile → List LocalFile × LoopExit
  | _, [] => ([], .completed)
  | i, file :: rest =>
    match transport i file with
    | .resolved true _ =>
      let (sent, exit) := uploadEach transport (i + 1) rest
      (file :: sent, exit)
    | .resolved false message => ([file], .thrown (messageOrDefault message))
    | .rejected _ => ([file], .thrown "undefined")
    | .pending => ([file], .suspended)

/-- The `submit` listener of the quick upload form, `files` being
`fileInput.files` and `transport i file` the outcome of the call for
`files[i]`. -/
def quickUploadSubmit (transport : Nat → LocalFile → UploadResult)
    (files : List LocalFile) : UploadRun :=
  if files.length = 0 then { sent := [], report := .selectFiles }
  else
    match uploadEach transport 0 files with
    | (sent, .completed) => { sent := sent, report := .uploaded }
    | (sent, .thrown text) => { sent := sent, report := .error ("Error uploading files: " ++ text) }
    | (sent, .suspended) => { sent := sent, report := .nothing }

/-- Whether a transfer fails: the answer is not a 2xx answer whose body has a
truthy `success`. -/
def UploadResult.failed : UploadResult → Bool
  | .resolved true _ => false
  | _ => true

/-- Twenty-five records with distinct one-letter names, from `y` down to `a`. -/
def twentyFiveFiles : List FileRecord :=
  ["y", "x", "w", "v", "u", "t", "s", "r", "q", "p", "o", "n", "m", "l", "k", "j", "i", "h",
    "g", "f", "e", "d", "c", "b", "a"].enum.map (fun p => sampleFile p.1 p.2 p.1 p.1)

/-- Five records. -/
def fiveFiles : List FileRecord :=
  (List.range 5).map (fun i => sampleFile i "a.txt" i i)

/-- The user page after its first load of `fiveFiles`. -/
def fiveLoaded : PageState :=
  loadFiles codePointCompare (initialState "date-desc" "all") ⟨true, fiveFiles⟩

/-- A transport whose second call is rejected and whose other calls succeed. -/
def secondFails : Nat → LocalFile → UploadResult :=
  fun i _ => if i = 1 then .rejected "Internal Server Error" else .resolved true none

/-- A transport whose second call is answered `200` with a body that is not
JSON and whose other calls succeed. -/
def secondUnparsed : Nat → LocalFile → UploadResult :=
  fun i _ => if i = 1 then .pending else .resolved true none

/-- Three local files with distinct names. -/
def threeLocalFiles : List LocalFile :=
  [⟨"a.txt", 10, 1⟩, ⟨"b.txt", 20, 2⟩, ⟨"c.txt", 30, 3⟩]

/-- Three local files, the first two with the same name and size. -/
def sampleSelection : List LocalFile :=
  [⟨"a.txt", 10, 1⟩, ⟨"a.txt", 10, 2⟩, ⟨"b.txt", 20, 3⟩]

/-! ## The type label of the list view -/

/-- The extensions `displayListView` labels `Document`. -/
def listViewDocumentTypes : List String :=
  ["pdf", "doc", "docx", "xls", "xlsx", "ppt", "pptx", "txt", "md"]

/-- The extensions `displayListView` labels `Archive`. -/
def archiveTypes : List String := ["zip", "rar", "7z", "tar", "gz"]

/-- The `fileType` that `displayListView` computes for a row. -/
def fileTypeLabel (original_filename : String) : String :=
  let extension := extensionOf original_filename
  if imageTypes.contains extension then "Image"
  else if listViewDocumentTypes.contains extension then "Document"
  else if videoTypes.contains extension then "Video"
  else if audioTypes.contains extension then "Audio"
  else if archiveTypes.contains extension then "Archive"
  else "Other"

/-! ## Numbers -/

/-- The integer nearest to the quotient `n / d` of two naturals, a tie going to
the even one: the rounding of IEEE 754 arithmetic. -/
def roundHalfEven (n d : Nat) : Nat :=
  if 2 * (n % d) < d then n / d
  else if d < 2 * (n % d) then n / d + 1
  else if n / d % 2 = 0 then n / d
  else n / d + 1

/-- The number of halvings that bring `n` below 2, counted with `fuel` steps
at most. -/
def log2Aux : Nat → Nat → Nat
  | 0, _ => 0
  | fuel + 1, n => if n < 2 then 0 else log2Aux fuel (n / 2) + 1

/-- The exponent of the highest power of 2 that is at most `n`, for `n > 0`. -/
def log2 (n : Nat) : Nat :=
  log2Aux n n

/-- The double nearest to the quotient `n / d` of two naturals, `d > 0`, as a
fraction. The quotient is scaled by the power of 2 that brings it into
`[2^52, 2^53)`, up by `2 ^ up` or down by `2 ^ down` and by one more place if
need be; the significand is the scaled quotient rounded to an integer, a tie
going to the even one. The exponent is not bounded: the quotients met here are
far from the subnormal doubles and from overflow. -/
def nearestDouble (n d : Nat) : Nat × Nat :=
  if n = 0 then (0, 1)
  else
    let up := 52 + log2 d - log2 n
    let down := log2 n - (52 + log2 d)
    let a := n * 2 ^ up
    let b := d * 2 ^ down
    if a < 2 ^ 52 * b then (roundHalfEven (2 * a) b * 2 ^ down, 2 * 2 ^ up)
    else (roundHalfEven a b * 2 ^ down, 2 ^ up)

/-- A finite Number of JavaScript, an IEEE 754 double, as a fraction
`num / den` equal to it. -/
structure Double where
  num : Int
  den : Nat
  deriving DecidableEq, Repr

/-- The double nearest to the quotient `n / d` of an integer and a natural
`d > 0`; rounding is symmetric about 0. -/
def Double.nearest (n : Int) (d : Nat) : Double :=
  let r := nearestDouble n.natAbs d
  if n < 0 then ⟨-(r.1 : Int), r.2⟩ else ⟨r.1, r.2⟩

/-- The Number an integer is read as. -/
def Double.ofInt (n : Int) : Double :=
  Double.nearest n 1

/-- The product `x * y` of two Numbers. -/
def Double.mul (x y : Double) : Double :=
  Double.nearest (x.num * y.num) (x.den * y.den)

/-- The quotient `x / y` of two Numbers, `y` not 0. -/
def Double.div (x y : Double) : Double :=
  Double.nearest (x.num * y.den * y.num.sign) (x.den * y.num.natAbs)

/-- The rational number a double is. -/
def Double.toRat (x : Double) : ℚ :=
  x.num / x.den

/-- `Math.round(x)`: the integer nearest to `x`, a half going up. -/
def Math.round (x : Double) : Int :=
  (2 * x.num + x.den) / (2 * x.den)

/-- What rounding to the nearest double guarantees of a result `y` for an exact
value `x ≥ 0`: `y` is `m / 2 ^ k` for a power of 2 that brings `x` into
`[2^52, 2^53)` and an integer `m` within one half of the scaled `x`. -/
def Rounds (x y : ℚ) : Prop :=
  (x = 0 ∧ y = 0) ∨
    (0 < x ∧ ∃ (m : ℕ) (k : ℤ), y = m / 2 ^ k ∧ (2 : ℚ) ^ 52 ≤ x * 2 ^ k ∧
      x * 2 ^ k < (2 : ℚ) ^ 53 ∧ x * 2 ^ k - 1 / 2 ≤ m ∧ (m : ℚ) ≤ x * 2 ^ k + 1 / 2)

/-! ## Percentages -/

/-- The integer nearest to the exact quotient `a / b` of two integers, `b > 0`,
a half going up: what `Math.round(a / b)` is when the division does not
round. -/
def roundDiv (a b : Int) : Int :=
  (2 * a + b) / (2 * b)

/-- A `progress` event of `xhr.upload`; `lengthComputable` is set for a total
that is not 0. -/
structure ProgressEvent where
  lengthComputable : Bool
  loaded : Nat
  total : Nat
  deriving DecidableEq, Repr

/-- The `progress` listener of `API.uploadFile` of the upload page: the
percentage `Math.round((e.loaded * 100) / e.total)` it hands to
`progressCallback`, if it calls it. For a total of 0 the quotient is no finite
number and there is no percentage. -/
def uploadProgress (e : ProgressEvent) : Option Int :=
  if e.lengthComputable ∧ e.total ≠ 0 then
    some (Math.round
      (Double.div (Double.mul (Double.ofInt e.loaded) (Double.ofInt 100))
        (Double.ofInt e.total)))
  else none

/-- The percentage the quick upload of the dashboard displays for a `progress`
event: `Math.round(progress)` of `(event.loaded / event.total) * 100`. For a
total of 0 the quotient is no finite number and there is no percentage. -/
def quickUploadPercent (e : ProgressEvent) : Option Int :=
  if e.lengthComputable ∧ e.total ≠ 0 then
    some (Math.round
      (Double.mul (Double.div (Double.ofInt e.loaded) (Double.ofInt e.total))
        (Double.ofInt 100)))
  else none

/-- The constant `nodeCapacity` of `calculateStoragePercent`. -/
def nodeCapacity : Int := 100 * 1024 * 1024

/-- The function `calculateStoragePercent` of the system page:
`Math.min(Math.round((bytes / nodeCapacity) * 100), 100)`. -/
def calculateStoragePercent (bytes : Int) : Int :=
  min (Math.round
    (Double.mul (Double.div (Double.ofInt bytes) (Double.ofInt nodeCapacity))
      (Double.ofInt 100))) 100

/-- The `progressClass` that `loadNodeManagement` computes from the usage
percentage. -/
def progressClass (usagePercent : Int) : String :=
  if usagePercent > 80 then "warning"
  else if usagePercent > 95 then "danger"
  else "healthy"

/-- An element of `data.nodes`. -/
structure Node where
  node_id : Nat
  status : String
  size_bytes : Int
  files_count : Nat
  deriving DecidableEq, Repr

/-- The class of the `progress-fill` element in the card `loadNodeManagement`
renders for a node. -/
def nodeBarClass (node : Node) : String :=
  if node.status = "healthy" then progressClass (calculateStoragePercent node.size_bytes)
  else "danger"

/-! ## The upload page: the upload -/

/-- The body of an answer as `JSON.parse(xhr.responseText)` sees it: an object
with or without a `message`, or text that does not parse. -/
inductive ResponseBody where
  | json (message : Option String)
  | text
  deriving DecidableEq, Repr

/-- How a request of `API.uploadFile` ends: `onload` with a status, or
`onerror`. -/
inductive XhrOutcome where
  | load (status : Nat) (statusText : String) (body : ResponseBody)
  | error
  deriving DecidableEq, Repr

/-- The object `API.uploadFile` of the upload page resolves with: `success`
and `data`, of which `data.message` is kept. -/
structure ApiResult where
  success : Bool
  dataMessage : Option String
  deriving DecidableEq, Repr

/-- The property `result.message`: the object has the properties `success`
and `data` only. -/
def ApiResult.message (_result : ApiResult) : Option String :=
  none

/-- The `message` of a parsed body. -/
def ResponseBody.message : ResponseBody → Option String
  | .json message => message
  | .text => none

/-- The promise of `API.uploadFile` of the upload page: resolved with a result,
or rejected with `new Error('Network Error')`, of which the message is kept. -/
def apiUploadFile (outcome : XhrOutcome) : Except String ApiResult :=
  match outcome with
  | .load status statusText body =>
    if status ≥ 200 ∧ status < 300 then .ok { success := true, dataMessage := body.message }
    else
      match body with
      | .json message => .ok { success := false, dataMessage := message }
      | .text => .ok { success := false, dataMessage := some statusText }
  | .error => .error "Network Error"

/-- What the submit handler of the upload page ends with: the `TypeError` of
`selectedFiles[0].name` on an empty selection, the alert of a success, or the
text it writes to `progressStatus`. -/
inductive UploadPageReport where
  | typeError
  | uploaded
  | failed (progressStatus : String)
  deriving DecidableEq, Repr

/-- A run of the submit handler of the upload page: the form data of each call
of `api.uploadFile` (the files appended to it, in order), the page after, and
the report. -/
structure UploadPageRun where
  calls : List (List LocalFile)
  page : UploadPage
  report : UploadPageReport
  deriving DecidableEq, Repr

/-- The `submit` listener of the upload page, `transport formData` being how
the request carrying `formData` ends. -/
def uploadSubmit (transport : List LocalFile → XhrOutcome) (s : UploadPage) : UploadPageRun :=
  let formData := s.selectedFiles
  match s.selectedFiles with
  | [] => { calls := [], page := s, report := .typeError }
  | _ :: _ =>
    match apiUploadFile (transport formData) with
    | .ok result =>
      if result.success then
        { calls := [formData], page := { selectedFiles := [], uploadBtnDisabled := true },
          report := .uploaded }
      else
        { calls := [formData], page := s,
          report := .failed ("Upload failed: " ++ messageOrDefault result.message) }
    | .error message =>
      { calls := [formData], page := s, report := .failed ("Upload failed: " ++ message) }

/-- The label `displayListView` uses for a value of the `fileType` filter. -/
def categoryLabel (category : String) : String :=
  match category with
  | "image" => "Image"
  | "document" => "Document"
  | "video" => "Video"
  | "audio" => "Audio"
  | "other" => "Other"
  | _ => ""

/-- The pages `displayFiles` shows for the page indices 1 to `pages`. -/
def pagesShown (s : PageState) (pages : Nat) : List (List FileRecord) :=
  (List.range pages).map (fun k : Nat => (displayFiles s ((k : Int) + 1)).shown)

/-! ## Sorting: permutation, order and stability -/

theorem compareChars_total (a b : List Char) :
    compareChars a b ≤ 0 ∨ compareChars b a ≤ 0 := by
  induction a generalizing b with
  | nil => cases b <;> simp [compareChars]
  | cons x xs ih =>
    cases b with
    | nil => simp [compareChars]
    | cons y ys =>
      simp only [compareChars]
      rcases Nat.lt_trichotomy x.toNat y.toNat with h | h | h
      · simp [h]
      · simp [h]; exact ih ys
      · right; simp [h]

theorem compareChars_trans (a b c : List Char) (hab : compareChars a b ≤ 0)
    (hbc : compareChars b c ≤ 0) : compareChars a c ≤ 0 := by
  induction a generalizing b c with
  | nil => cases c <;> simp [compareChars]
  | cons x xs ih =>
    cases b with
    | nil => simp [compareChars] at hab
    | cons y ys =>
      cases c with
      | nil => simp [compareChars] at hbc
      | cons z zs =>
        simp only [compareChars] at hab hbc ⊢
        split_ifs at hab hbc ⊢ <;> first | omega | exact ih ys zs hab hbc

theorem codePointCompare_consistent : Consistent codePointCompare :=
  ⟨fun a b => compareChars_total a.data b.data,
   fun a b c => compareChars_trans a.data b.data c.data⟩

theorem sort_perm {α : Type} (cmp : α → α → Int) (arr : List α) :
    (sort cmp arr).Perm arr :=
  List.perm_insertionSort _ arr

theorem sort_pairwise {α : Type} (cmp : α → α → Int) (h : Consistent cmp) (arr : List α) :
    (sort cmp arr).Pairwise (fun a b => cmp a b ≤ 0) := by
  haveI : IsTotal α (fun a b => cmp a b ≤ 0) := ⟨h.total⟩
  haveI : IsTrans α (fun a b => cmp a b ≤ 0) := ⟨h.trans⟩
  exact List.sorted_insertionSort (fun a b => cmp a b ≤ 0) arr

theorem sort_stable {α : Type} (cmp : α → α → Int) (arr : List α) (a b : α)
    (hab : cmp a b ≤ 0) (h : [a, b].Sublist arr) : [a, b].Sublist (sort cmp arr) :=
  List.pair_sublist_insertionSort hab h

theorem comparefn_consistent (localeCompare : String → String → Int)
    (h : Consistent localeCompare) (sortBy : String) (cmp : FileRecord → FileRecord → Int)
    (hc : comparefn localeCompare sortBy = some cmp) : Consistent cmp := by
  unfold comparefn at hc
  split at hc <;> first
    | (injection hc with hc; subst hc; constructor <;> intros <;> omega)
    | (injection hc with hc; subst hc
       exact ⟨fun a b => h.total _ _, fun a b c => h.trans _ _ _⟩)
    | (injection hc with hc; subst hc
       exact ⟨fun a b => (h.total _ _).symm, fun a b c h1 h2 => h.trans _ _ _ h2 h1⟩)
    | cases hc

theorem comparefn_inOrder (localeCompare : String → String → Int) (sortBy : String)
    (cmp : FileRecord → FileRecord → Int)
    (hc : comparefn localeCompare sortBy = some cmp) (a b : FileRecord)
    (hab : cmp a b ≤ 0) : inOrder localeCompare sortBy a b := by
  unfold comparefn at hc
  unfold inOrder
  split at hc <;> first
    | (injection hc with hc; subst hc; simp only at hab ⊢; omega)
    | cases hc

theorem comparefn_sameKey (localeCompare : String → String → Int) (sortBy : String)
    (cmp : FileRecord → FileRecord → Int)
    (hc : comparefn localeCompare sortBy = some cmp) (a b : FileRecord)
    (hab : sameKey localeCompare sortBy a b) : cmp a b ≤ 0 := by
  unfold comparefn at hc
  unfold sameKey at hab
  split at hc <;> first
    | (injection hc with hc; subst hc; simp only at hab ⊢; omega)
    | cases hc

theorem comparefn_isSome (localeCompare : String → String → Int) (sortBy : String)
    (hk : sortBy ∈ sortKeys) : ∃ cmp, comparefn localeCompare sortBy = some cmp := by
  simp only [sortKeys, List.mem_cons, List.mem_singleton, List.not_mem_nil, or_false] at hk
  rcases hk with rfl | rfl | rfl | rfl | rfl | rfl <;> exact ⟨_, rfl⟩

/-- C1. For every list of records and each of the six sort keys, `sortFiles`
returns a permutation of the list in which every record stands before every
later one in the order of the key: by upload date for `date-*`, by the host's
filename comparison for `name-*`, by size for `size-*`, descending or ascending
as the key says. The host's `localeCompare` is taken to be a consistent
comparator, as `Array.prototype.sort` requires of its argument. -/
theorem sortFiles_perm_ordered (localeCompare : String → String → Int)
    (hlc : Consistent localeCompare) (sortBy : String) (hk : sortBy ∈ sortKeys)
    (allFiles : List FileRecord) :
    (sortFiles localeCompare sortBy allFiles).Perm allFiles ∧
      (sortFiles localeCompare sortBy allFiles).Pairwise (inOrder localeCompare sortBy) := by
  obtain ⟨cmp, hc⟩ := comparefn_isSome localeCompare sortBy hk
  have hs : sortFiles localeCompare sortBy allFiles = sort cmp allFiles := by
    simp [sortFiles, hc]
  rw [hs]
  refine ⟨sort_perm cmp allFiles, ?_⟩
  exact (sort_pairwise cmp (comparefn_consistent localeCompare hlc sortBy cmp hc) allFiles).imp
    (fun {a b} hab => comparefn_inOrder localeCompare sortBy cmp hc a b hab)

/-- C2. Sorting is stable for every sort key: two records `a`, `b` that rank
equal under the key and occur in the list with `a` before `b` occur in the
sorted list with `a` before `b`. A list in which they occur is non-empty. -/
theorem sortFiles_stable (localeCompare : String → String → Int) (sortBy : String)
    (allFiles : List FileRecord) (a b : FileRecord)
    (hkey : sameKey localeCompare sortBy a b) (hsub : [a, b].Sublist allFiles) :
    [a, b].Sublist (sortFiles localeCompare sortBy allFiles) := by
  unfold sortFiles
  cases hc : comparefn localeCompare sortBy with
  | none => exact hsub
  | some cmp =>
    exact sort_stable cmp allFiles a b
      (comparefn_sameKey localeCompare sortBy cmp hc a b hkey) hsub

/-- The theorem of C1 at three records sorted by name, ascending. -/
theorem sortFiles_perm_ordered_witness :
    sortFiles codePointCompare "name-asc" sampleFiles =
        [sampleFile 2 "a.txt" 30 100, sampleFile 1 "b.txt" 10 300, sampleFile 3 "c.txt" 20 200] ∧
      (sortFiles codePointCompare "name-asc" sampleFiles).Perm sampleFiles ∧
      (sortFiles codePointCompare "name-asc" sampleFiles).Pairwise
        (inOrder codePointCompare "name-asc") :=
  ⟨by decide,
   sortFiles_perm_ordered codePointCompare codePointCompare_consistent "name-asc"
     (by decide) sampleFiles⟩

/-- The theorem of C2 at two records of size 10 with a smaller one between
them, sorted by size, ascending. -/
theorem sortFiles_stable_witness :
    sortFiles codePointCompare "size-asc" sampleTies =
        [sampleFile 2 "a.txt" 5 100, sampleFile 1 "b.txt" 10 300, sampleFile 3 "c.txt" 10 200] ∧
      [sampleFile 1 "b.txt" 10 300, sampleFile 3 "c.txt" 10 200].Sublist
        (sortFiles codePointCompare "size-asc" sampleTies) :=
  ⟨by decide,
   sortFiles_stable codePointCompare "size-asc" sampleTies
     (sampleFile 1 "b.txt" 10 300) (sampleFile 3 "c.txt" 10 200) (by decide) (by decide)⟩

/-! ## The category taxonomy -/

theorem commonTypes_eq :
    commonTypes = imageTypes ++ documentTypes ++ videoTypes ++ audioTypes := by
  decide

theorem commonTypes_contains (e : String) :
    commonTypes.contains e =
      (imageTypes.contains e || documentTypes.contains e || videoTypes.contains e
        || audioTypes.contains e) := by
  rw [commonTypes_eq]
  simp only [List.contains_eq_any_beq, List.any_append]

theorem imageTypes_disjoint : ∀ x ∈ imageTypes,
    documentTypes.contains x = false ∧ videoTypes.contains x = false ∧
      audioTypes.contains x = false := by
  decide

theorem documentTypes_disjoint : ∀ x ∈ documentTypes,
    videoTypes.contains x = false ∧ audioTypes.contains x = false := by
  decide

theorem videoTypes_disjoint : ∀ x ∈ videoTypes, audioTypes.contains x = false := by
  decide

theorem mem_of_contains {l : List String} {e : String} (h : l.contains e = true) : e ∈ l := by
  simpa using h

theorem keepsExtension_iff (e c : String) (hc : c ∈ categories) :
    keepsExtension c e = true ↔ c = categoryOf e := by
  have hcommon := commonTypes_contains e
  have h1 : imageTypes.contains e = true → _ := fun h => imageTypes_disjoint e (mem_of_contains h)
  have h2 : documentTypes.contains e = true → _ :=
    fun h => documentTypes_disjoint e (mem_of_contains h)
  have h3 : videoTypes.contains e = true → _ := fun h => videoTypes_disjoint e (mem_of_contains h)
  simp only [categories, List.mem_cons, List.mem_singleton, List.not_mem_nil, or_false] at hc
  unfold categoryOf
  rcases hc with rfl | rfl | rfl | rfl | rfl <;> simp only [keepsExtension, hcommon] <;>
    cases hi : imageTypes.contains e <;> cases hd : documentTypes.contains e <;>
    cases hv : videoTypes.contains e <;> cases ha : audioTypes.contains e <;>
    simp_all

theorem categoryOf_mem (e : String) : categoryOf e ∈ categories := by
  unfold categoryOf categories
  split_ifs <;> simp

/-- C3. The taxonomy of `filterFiles` assigns exactly one category: for every
extension string (unknown ones and the empty one included) exactly one of the
filters image, document, video, audio, other keeps it, and for every record
exactly one of these five filters keeps the record. -/
theorem taxonomy_exactly_one :
    (∀ extension : String,
      ∃! c, c ∈ categories ∧ keepsExtension c extension = true) ∧
    (∀ file : FileRecord, ∃! c, c ∈ categories ∧ filterFiles c [file] = [file]) := by
  have key : ∀ extension : String,
      ∃! c, c ∈ categories ∧ keepsExtension c extension = true := fun e =>
    ⟨categoryOf e,
      ⟨categoryOf_mem e, (keepsExtension_iff e _ (categoryOf_mem e)).2 rfl⟩,
      fun c hc => (keepsExtension_iff e c hc.1).1 hc.2⟩
  refine ⟨key, fun file => ?_⟩
  obtain ⟨c, ⟨hc, hk⟩, huniq⟩ := key (extensionOf file.original_filename)
  have hne : ∀ c ∈ categories, c ≠ "all" := by decide
  have hf : ∀ c ∈ categories, (filterFiles c [file] = [file] ↔
      keepsExtension c (extensionOf file.original_filename) = true) := by
    intro c hc
    simp [filterFiles, hne c hc, List.filter_cons]
  exact ⟨c, ⟨hc, (hf c hc).2 hk⟩, fun c2 h2 => huniq c2 ⟨h2.1, (hf c2 h2.1).1 h2.2⟩⟩

/-! ## The category filter -/

theorem contains_eq_decide_mem (l : List String) (e : String) :
    l.contains e = decide (e ∈ l) := by
  simp

/-- C4. `filterFiles` with a category keeps, in their order, exactly the
records whose extension is in the list of the category; `"other"` keeps
exactly those whose extension is in none of the four lists; `"all"` keeps every
record. Of four records with the extensions jpg, pdf, unknownext and the empty
one, `"image"` keeps the first only and `"all"` keeps the four. -/
theorem filterFiles_by_category (allFiles : List FileRecord) :
    filterFiles "image" allFiles = allFiles.filter (fun file =>
      decide (extensionOf file.original_filename ∈
        ["jpg", "jpeg", "png", "gif", "svg", "webp"])) ∧
    filterFiles "document" allFiles = allFiles.filter (fun file =>
      decide (extensionOf file.original_filename ∈
        ["pdf", "doc", "docx", "xls", "xlsx", "ppt", "pptx", "txt"])) ∧
    filterFiles "video" allFiles = allFiles.filter (fun file =>
      decide (extensionOf file.original_filename ∈
        ["mp4", "avi", "mov", "wmv", "mkv", "webm"])) ∧
    filterFiles "audio" allFiles = allFiles.filter (fun file =>
      decide (extensionOf file.original_filename ∈ ["mp3", "wav", "ogg", "flac", "aac"])) ∧
    filterFiles "other" allFiles = allFiles.filter (fun file =>
      decide (extensionOf file.original_filename ∉
          ["jpg", "jpeg", "png", "gif", "svg", "webp"] ∧
        extensionOf file.original_filename ∉
          ["pdf", "doc", "docx", "xls", "xlsx", "ppt", "pptx", "txt"] ∧
        extensionOf file.original_filename ∉ ["mp4", "avi", "mov", "wmv", "mkv", "webm"] ∧
        extensionOf file.original_filename ∉ ["mp3", "wav", "ogg", "flac", "aac"])) ∧
    filterFiles "all" allFiles = allFiles ∧
    (∀ a b c d : FileRecord,
      extensionOf a.original_filename = "jpg" → extensionOf b.original_filename = "pdf" →
      extensionOf c.original_filename = "unknownext" → extensionOf d.original_filename = "" →
      filterFiles "image" [a, b, c, d] = [a] ∧ filterFiles "all" [a, b, c, d] = [a, b, c, d]) := by
  have hi : ("image" : String) ≠ "all" := by decide
  have hd : ("document" : String) ≠ "all" := by decide
  have hv : ("video" : String) ≠ "all" := by decide
  have ha : ("audio" : String) ≠ "all" := by decide
  have ho : ("other" : String) ≠ "all" := by decide
  refine ⟨?_, ?_, ?_, ?_, ?_, ?_, ?_⟩
  · simp only [filterFiles, hi, ne_eq, not_false_eq_true, if_true, keepsExtension,
      contains_eq_decide_mem, imageTypes]
  · simp only [filterFiles, hd, ne_eq, not_false_eq_true, if_true, keepsExtension,
      contains_eq_decide_mem, documentTypes]
  · simp only [filterFiles, hv, ne_eq, not_false_eq_true, if_true, keepsExtension,
      contains_eq_decide_mem, videoTypes]
  · simp only [filterFiles, ha, ne_eq, not_false_eq_true, if_true, keepsExtension,
      contains_eq_decide_mem, audioTypes]
  · have hother : ∀ e : String, (!commonTypes.contains e) =
        decide (e ∉ imageTypes ∧ e ∉ documentTypes ∧ e ∉ videoTypes ∧ e ∉ audioTypes) := by
      intro e
      rw [contains_eq_decide_mem, commonTypes_eq, ← decide_not]
      simp only [List.mem_append, not_or, and_assoc]
    simp only [filterFiles, ho, ne_eq, not_false_eq_true, if_true, keepsExtension, hother,
      imageTypes, documentTypes, videoTypes, audioTypes]
  · simp [filterFiles]
  · intro a b c d h1 h2 h3 h4
    refine ⟨?_, by simp [filterFiles]⟩
    have k1 : "jpg" ∈ imageTypes := by decide
    have k2 : "pdf" ∉ imageTypes := by decide
    have k3 : "unknownext" ∉ imageTypes := by decide
    have k4 : "" ∉ imageTypes := by decide
    simp [filterFiles, keepsExtension, List.filter_cons, h1, h2, h3, h4, k1, k2, k3, k4]

/-- The scenario of C4 at four filenames with these extensions. -/
theorem filterFiles_by_category_witness :
    filterFiles "image" [sampleFile 1 "photo.jpg" 1 1, sampleFile 2 "report.pdf" 2 2,
        sampleFile 3 "data.unknownext" 3 3, sampleFile 4 "notes." 4 4] =
      [sampleFile 1 "photo.jpg" 1 1] ∧
    filterFiles "all" [sampleFile 1 "photo.jpg" 1 1, sampleFile 2 "report.pdf" 2 2,
        sampleFile 3 "data.unknownext" 3 3, sampleFile 4 "notes." 4 4] =
      [sampleFile 1 "photo.jpg" 1 1, sampleFile 2 "report.pdf" 2 2,
        sampleFile 3 "data.unknownext" 3 3, sampleFile 4 "notes." 4 4] :=
  (filterFiles_by_category []).2.2.2.2.2.2 _ _ _ _
    (by decide) (by decide) (by decide) (by decide)

/-! ## The extension of a filename -/

theorem splitChars_ne_nil (sep : Char) (cs : List Char) : splitChars sep cs ≠ [] := by
  cases cs with
  | nil => simp [splitChars]
  | cons c cs =>
    simp only [splitChars]
    split_ifs
    · simp
    · split <;> simp

theorem splitChars_of_not_mem (sep : Char) (cs : List Char) (h : sep ∉ cs) :
    splitChars sep cs = [cs] := by
  induction cs with
  | nil => rfl
  | cons c cs ih =>
    have hc : c ≠ sep := fun e => h (by simp [e])
    have hcs : sep ∉ cs := fun e => h (by simp [e])
    simp [splitChars, hc, ih hcs]

theorem splitChars_append (sep : Char) (pre post : List Char) :
    splitChars sep (pre ++ sep :: post) = splitChars sep pre ++ splitChars sep post := by
  induction pre with
  | nil => simp [splitChars]
  | cons c pre ih =>
    by_cases hc : c = sep
    · simp [splitChars, hc, ih]
    · simp only [List.cons_append, splitChars, hc, if_false, ih]
      cases hp : splitChars sep pre with
      | nil => exact absurd hp (splitChars_ne_nil sep pre)
      | cons piece pieces => simp only [List.append_eq, ih, hp, List.cons_append]

/-- The extension of a filename without a `'.'` is the whole filename,
lower-cased. -/
theorem extensionOf_of_no_dot (name : String) (h : '.' ∉ name.data) :
    extensionOf name = toLowerCase name := by
  simp [extensionOf, pop, split, splitChars_of_not_mem '.' name.data h]

/-- The extension of a filename with a `'.'` is what follows the last one,
lower-cased. -/
theorem extensionOf_after_last_dot (pre post : List Char) (h : '.' ∉ post) :
    extensionOf ⟨pre ++ '.' :: post⟩ = toLowerCase ⟨post⟩ := by
  simp [extensionOf, pop, split, splitChars_append, splitChars_of_not_mem '.' post h,
    List.getLast?_append]

/-- C5, the code at filenames without a `'.'`: the extension computed for
`README` is `readme`, not the empty string, and a file named `mp3` gets the
extension `mp3` and passes the audio filter. -/
theorem extensionOf_without_dot :
    extensionOf "README" = "readme" ∧ extensionOf "README" ≠ "" ∧
      extensionOf "mp3" = "mp3" ∧
      filterFiles "audio" [sampleFile 1 "mp3" 1 1] = [sampleFile 1 "mp3" 1 1] := by
  decide

/-! ## Search -/

theorem isWhiteSpace_toLower (c : Char) : isWhiteSpace c.toLower = isWhiteSpace c := by
  unfold Char.toLower
  simp only
  split_ifs with h
  · have hc : c = Char.ofNat c.toNat := (Char.ofNat_toNat c).symm
    obtain ⟨h1, h2⟩ := h
    generalize c.toNat = n at hc h1 h2
    subst hc
    interval_cases n <;> rfl
  · rfl

theorem startsWithChars_iff (s t : List Char) : startsWithChars s t = true ↔ t <+: s := by
  induction s generalizing t with
  | nil => cases t <;> simp [startsWithChars]
  | cons c cs ih =>
    cases t with
    | nil => simp [startsWithChars]
    | cons d ds =>
      simp only [startsWithChars, Bool.and_eq_true, beq_iff_eq, ih, List.cons_prefix_cons]
      constructor
      · rintro ⟨h1, h2⟩; exact ⟨h1.symm, h2⟩
      · rintro ⟨h1, h2⟩; exact ⟨h1.symm, h2⟩

theorem includesChars_iff (s t : List Char) : includesChars s t = true ↔ t <:+: s := by
  induction s with
  | nil =>
    simp only [includesChars, startsWithChars_iff]
    simp
  | cons c cs ih =>
    simp only [includesChars, Bool.or_eq_true, startsWithChars_iff, ih, List.infix_cons_iff]

theorem trim_toLowerCase (s : String) : trim (toLowerCase s) = toLowerCase (trim s) := by
  have hcomp : (isWhiteSpace ∘ Char.toLower) = isWhiteSpace := by
    funext c; exact isWhiteSpace_toLower c
  simp only [trim, toLowerCase, List.dropWhile_map, hcomp, ← List.map_reverse]

theorem includes_iff (text term : String) :
    includes (toLowerCase text) (toLowerCase term) = true ↔ containsIgnoringCase text term :=
  includesChars_iff _ _

theorem toLowerCase_eq_empty (s : String) : toLowerCase s = "" ↔ s = "" := by
  cases s with
  | mk data =>
    simp only [toLowerCase]
    constructor
    · intro h
      have h2 : List.map Char.toLower data = [] := congrArg String.data h
      rw [List.map_eq_nil_iff] at h2
      subst h2; rfl
    · intro h
      have h2 : data = [] := congrArg String.data h
      subst h2; rfl

theorem searchTerm_ne_empty (value : String) (h : trim value ≠ "") :
    trim (toLowerCase value) ≠ "" := by
  rw [trim_toLowerCase]
  exact fun e => h ((toLowerCase_eq_empty _).1 e)

theorem handleSearchWith_allFiles (lowerCase : String → String)
    (localeCompare : String → String → Int) (s : PageState) (r : Response)
    (h : trim (lowerCase s.fileSearch) ≠ "") :
    (handleSearchWith lowerCase localeCompare s r).allFiles =
      s.allFiles.filter (fun file =>
        includes (lowerCase file.original_filename) (trim (lowerCase s.fileSearch))) := by
  simp only [handleSearchWith, h, if_false, displayFiles]
  split_ifs <;> rfl

theorem handleSearch_allFiles (localeCompare : String → String → Int) (s : PageState)
    (r : Response) (h : trim (toLowerCase s.fileSearch) ≠ "") :
    (handleSearch localeCompare s r).allFiles =
      s.allFiles.filter (fun file =>
        includes (toLowerCase file.original_filename) (trim (toLowerCase s.fileSearch))) :=
  handleSearchWith_allFiles toLowerCase localeCompare s r h

theorem handleSearch_currentPage (localeCompare : String → String → Int) (s : PageState)
    (r : Response) (h : trim (toLowerCase s.fileSearch) ≠ "") :
    (handleSearch localeCompare s r).currentPage = 1 := by
  simp only [handleSearch, handleSearchWith, h, if_false, displayFiles]
  split_ifs <;> rfl

theorem adminHandleSearchWith_allFiles (lowerCase : String → String) (s : PageState)
    (r : Response) (h : trim (lowerCase s.fileSearch) ≠ "") :
    (Admin.handleSearchWith lowerCase s r).allFiles =
      s.allFiles.filter (fun file =>
        includes (lowerCase file.original_filename) (trim (lowerCase s.fileSearch))
          || includes (lowerCase file.username) (trim (lowerCase s.fileSearch))) := by
  simp only [Admin.handleSearchWith, h, if_false, Admin.displayFiles]
  split_ifs <;> rfl

theorem adminHandleSearch_allFiles (s : PageState)
    (r : Response) (h : trim (toLowerCase s.fileSearch) ≠ "") :
    (Admin.handleSearch s r).allFiles =
      s.allFiles.filter (fun file =>
        includes (toLowerCase file.original_filename) (trim (toLowerCase s.fileSearch))
          || includes (toLowerCase file.username) (trim (toLowerCase s.fileSearch))) :=
  adminHandleSearchWith_allFiles toLowerCase s r h

theorem includes_iff_matchesSearch (lowerCase : String → String) (text value : String) :
    includes (lowerCase text) (trim (lowerCase value)) = true ↔
      matchesSearch lowerCase text value :=
  includesChars_iff _ _

/-- C6, amended. For every lower-casing of the host, every working set and every
value of the search box that is not empty once lower-cased and trimmed,
`handleSearch` keeps, in their order, exactly the records whose lower-cased
`original_filename` contains the lower-cased, trimmed value as a substring; on
the admin page, those whose lower-cased `original_filename` or lower-cased
`username` contains it. -/
theorem handleSearch_keeps_matching (lowerCase : String → String)
    (localeCompare : String → String → Int) (s : PageState) (r : Response)
    (hterm : trim (lowerCase s.fileSearch) ≠ "") :
    (handleSearchWith lowerCase localeCompare s r).allFiles =
        s.allFiles.filter (fun file =>
          decide (matchesSearch lowerCase file.original_filename s.fileSearch)) ∧
      (Admin.handleSearchWith lowerCase s r).allFiles =
        s.allFiles.filter (fun file =>
          decide (matchesSearch lowerCase file.original_filename s.fileSearch ∨
            matchesSearch lowerCase file.username s.fileSearch)) := by
  constructor
  · rw [handleSearchWith_allFiles lowerCase localeCompare s r hterm]
    apply List.filter_congr
    intro file _
    rw [Bool.eq_iff_iff, decide_eq_true_iff]
    exact includes_iff_matchesSearch lowerCase _ _
  · rw [adminHandleSearchWith_allFiles lowerCase s r hterm]
    apply List.filter_congr
    intro file _
    rw [Bool.eq_iff_iff, decide_eq_true_iff, Bool.or_eq_true,
      includes_iff_matchesSearch, includes_iff_matchesSearch]

/-- C6 fails as stated: the search term `b` followed by a blank is non-empty,
and `handleSearch` keeps `AB.txt`, which does not contain it. -/
theorem handleSearch_untrimmed_counterexample :
    ("b " : String) ≠ "" ∧
      sampleFile 1 "AB.txt" 10 300 ∈
        (handleSearch codePointCompare (searchingState "b ") ⟨true, []⟩).allFiles ∧
      ¬ containsIgnoringCase (sampleFile 1 "AB.txt" 10 300).original_filename "b " := by
  decide

/-- The theorem of C6 at the term `a` between two blanks, with `toLowerCase` for
the lower-casing: of `AB.txt` and `b.txt` the search keeps `AB.txt`. -/
theorem handleSearch_keeps_matching_witness :
    (handleSearchWith toLowerCase codePointCompare (searchingState " a ") ⟨true, []⟩).allFiles =
      [sampleFile 1 "AB.txt" 10 300] ∧
    trim (toLowerCase (searchingState " a ").fileSearch) ≠ "" ∧
    ((handleSearchWith toLowerCase codePointCompare (searchingState " a ")
          ⟨true, []⟩).allFiles =
        (searchingState " a ").allFiles.filter (fun file =>
          decide (matchesSearch toLowerCase file.original_filename
            (searchingState " a ").fileSearch)) ∧
      (Admin.handleSearchWith toLowerCase (searchingState " a ") ⟨true, []⟩).allFiles =
        (searchingState " a ").allFiles.filter (fun file =>
          decide (matchesSearch toLowerCase file.original_filename
              (searchingState " a ").fileSearch ∨
            matchesSearch toLowerCase file.username (searchingState " a ").fileSearch))) :=
  ⟨by decide, by decide,
   handleSearch_keeps_matching toLowerCase codePointCompare (searchingState " a ") ⟨true, []⟩
     (by decide)⟩

/-! ## The working set and the page index -/

theorem loadFiles_allFiles (localeCompare : String → String → Int) (s : PageState)
    (r : Response) :
    (loadFiles localeCompare s r).allFiles =
      if r.success = true ∧ r.data ≠ [] then
        filterFiles s.fileType (sortFiles localeCompare s.sortBy r.data)
      else s.allFiles := by
  unfold loadFiles
  by_cases h1 : r.success = true <;> by_cases h2 : r.data = [] <;>
    simp [h1, h2, displayFiles, List.length_pos]

theorem loadFiles_currentPage (localeCompare : String → String → Int) (s : PageState)
    (r : Response) : (loadFiles localeCompare s r).currentPage = s.currentPage := by
  unfold loadFiles
  split_ifs <;> rfl

theorem loadFiles_fileSearch (localeCompare : String → String → Int) (s : PageState)
    (r : Response) : (loadFiles localeCompare s r).fileSearch = s.fileSearch := by
  unfold loadFiles
  split_ifs <;> rfl

theorem loadFiles_resetSearchBtn (localeCompare : String → String → Int) (s : PageState)
    (r : Response) : (loadFiles localeCompare s r).resetSearchBtn = s.resetSearchBtn := by
  unfold loadFiles
  split_ifs <;> rfl

theorem filterFiles_sortFiles_nil (localeCompare : String → String → Int)
    (sortBy fileType : String) :
    filterFiles fileType (sortFiles localeCompare sortBy []) = [] := by
  have h : sortFiles localeCompare sortBy [] = [] := by
    unfold sortFiles
    split <;> simp [sort]
  rw [h]
  unfold filterFiles
  split_ifs <;> simp

theorem handleSearchWith_resetSearchBtn (lowerCase : String → String)
    (localeCompare : String → String → Int) (s : PageState)
    (r : Response) (h : trim (lowerCase s.fileSearch) ≠ "") :
    (handleSearchWith lowerCase localeCompare s r).resetSearchBtn =
      some (s.resetSearchBtn.getD s.allFiles) := by
  simp only [handleSearchWith, h, if_false, displayFiles]
  cases hb : s.resetSearchBtn <;> simp

theorem handleSearchWith_empty (lowerCase : String → String)
    (localeCompare : String → String → Int) (s : PageState)
    (r : Response) (h : trim (lowerCase s.fileSearch) = "") :
    handleSearchWith lowerCase localeCompare s r = loadFiles localeCompare s r := by
  simp only [handleSearchWith, h, if_true]

theorem handleSearch_empty (localeCompare : String → String → Int) (s : PageState)
    (r : Response) (h : trim (toLowerCase s.fileSearch) = "") :
    handleSearch localeCompare s r = loadFiles localeCompare s r :=
  handleSearchWith_empty toLowerCase localeCompare s r h

theorem handleSearchWith_controls (lowerCase : String → String)
    (localeCompare : String → String → Int) (s : PageState) (r : Response) :
    (handleSearchWith lowerCase localeCompare s r).sortBy = s.sortBy ∧
      (handleSearchWith lowerCase localeCompare s r).fileType = s.fileType := by
  unfold handleSearchWith loadFiles displayFiles
  constructor <;> (simp only []; split_ifs <;> rfl)

/-- C7 fails as stated. On a reload that fails, searching with the box emptied
leaves the searched subset `a.txt` in the working set, where `a.txt` and `b.txt`
were shown before the search. And with the reset button of an earlier search
still in the document, an empty category shown and the server list empty from
before the search on, a click on the button after a search puts the `a.txt` of
the earlier search back, where the empty set was shown before the search. -/
theorem clearing_search_stale_counterexample :
    loadedState.allFiles = [sampleFile 1 "a.txt" 10 300, sampleFile 2 "b.txt" 30 100] ∧
      (run codePointCompare loadedState
        [.typeSearch "a", .search ⟨true, twoFiles⟩, .typeSearch "",
          .search ⟨false, twoFiles⟩]).allFiles = [sampleFile 1 "a.txt" 10 300] ∧
      (run codePointCompare loadedState
        [.typeSearch "a", .search ⟨true, twoFiles⟩, .typeSearch "", .search ⟨true, twoFiles⟩,
          .fileTypeChange "image" ⟨true, twoFiles⟩]).allFiles = [] ∧
      (run codePointCompare loadedState
        [.typeSearch "a", .search ⟨true, twoFiles⟩, .typeSearch "", .search ⟨true, twoFiles⟩,
          .fileTypeChange "image" ⟨true, twoFiles⟩,
          .typeSearch "b", .search ⟨true, []⟩, .resetSearch ⟨true, []⟩]).allFiles =
        [sampleFile 1 "a.txt" 10 300, sampleFile 2 "b.txt" 30 100] := by
  decide

/-- C7, amended. Clearing the search term after a search reloads the list; when
the server answers that reload successfully with the non-empty list it held
before the search, the working set is again the sorted, category-filtered list
that was shown before the search, whatever the search had kept: so it is after
searching with the box emptied, and so it is after a click on the reset button.
The lower-casing of the host is any function that leaves the empty string
empty. -/
theorem clearing_search_restores (lowerCase : String → String)
    (localeCompare : String → String → Int) (s : PageState)
    (r : Response) (term : String) (hempty : lowerCase "" = "") (hr : r.success = true)
    (hd : r.data ≠ [])
    (hs : s.allFiles = filterFiles s.fileType (sortFiles localeCompare s.sortBy r.data)) :
    (handleSearchWith lowerCase localeCompare
        (typeSearch (handleSearchWith lowerCase localeCompare (typeSearch s term) r) "")
        r).allFiles = s.allFiles ∧
      (resetSearchClick localeCompare
        (handleSearchWith lowerCase localeCompare (typeSearch s term) r) r).allFiles =
        s.allFiles := by
  have hload : ∀ s2 : PageState, s2.sortBy = s.sortBy → s2.fileType = s.fileType →
      (loadFiles localeCompare s2 r).allFiles = s.allFiles := by
    intro s2 h1 h2
    rw [loadFiles_allFiles, h1, h2, ← hs]
    simp [hr, hd]
  have hclear : ∀ s2 : PageState, trim (lowerCase (typeSearch s2 "").fileSearch) = "" := by
    intro s2
    show trim (lowerCase "") = ""
    rw [hempty]
    decide
  obtain ⟨hsort, htype⟩ := handleSearchWith_controls lowerCase localeCompare (typeSearch s term) r
  refine ⟨?_, ?_⟩
  · rw [handleSearchWith_empty _ _ _ _ (hclear _)]
    exact hload _ hsort htype
  · unfold resetSearchClick
    cases hb : (handleSearchWith lowerCase localeCompare (typeSearch s term) r).resetSearchBtn with
    | none =>
      by_cases hterm : trim (lowerCase term) = ""
      · rw [handleSearchWith_empty _ _ _ _ hterm]
        exact hload _ rfl rfl
      · rw [handleSearchWith_resetSearchBtn _ _ _ _ hterm] at hb
        cases hb
    | some originalFiles => exact hload _ hsort htype

/-- The theorem of C7 at two records of which the search for `A` keeps one, with
`toLowerCase` for the lower-casing. -/
theorem clearing_search_restores_witness :
    (handleSearchWith toLowerCase codePointCompare (typeSearch loadedState "A")
        ⟨true, twoFiles⟩).allFiles = [sampleFile 1 "a.txt" 10 300] ∧
    ((handleSearchWith toLowerCase codePointCompare
        (typeSearch (handleSearchWith toLowerCase codePointCompare (typeSearch loadedState "A")
          ⟨true, twoFiles⟩) "") ⟨true, twoFiles⟩).allFiles = loadedState.allFiles ∧
      (resetSearchClick codePointCompare
        (handleSearchWith toLowerCase codePointCompare (typeSearch loadedState "A")
          ⟨true, twoFiles⟩)
        ⟨true, twoFiles⟩).allFiles = loadedState.allFiles) :=
  ⟨by decide,
   clearing_search_restores toLowerCase codePointCompare loadedState ⟨true, twoFiles⟩ "A" rfl rfl
     (by decide) (by decide)⟩

/-- C8 fails as stated: with `a` in the search box and the search applied, a
change of the sort key puts `b.txt`, which does not contain `a`, back into the
working set. -/
theorem sortByChange_ignores_search_counterexample :
    (run codePointCompare (initialState "date-desc" "all")
        [.load ⟨true, twoFiles⟩, .typeSearch "a", .search ⟨true, twoFiles⟩,
          .sortByChange "name-asc" ⟨true, twoFiles⟩]).fileSearch = "a" ∧
      sampleFile 2 "b.txt" 30 100 ∈
        (run codePointCompare (initialState "date-desc" "all")
          [.load ⟨true, twoFiles⟩, .typeSearch "a", .search ⟨true, twoFiles⟩,
            .sortByChange "name-asc" ⟨true, twoFiles⟩]).allFiles ∧
      ¬ containsIgnoringCase (sampleFile 2 "b.txt" 30 100).original_filename "a" := by
  decide

/-- C8, amended. After a load, a sort-key change or a category change that the
server answers with a non-empty list, the working set is the sorted,
category-filtered server list, whatever the search box holds; the search term
restricts the working set when `handleSearch` runs: for a value of the box that
is not empty once lower-cased and trimmed it keeps, in order, exactly the
records of the working set of that moment whose lower-cased name contains the
lower-cased, trimmed value. -/
theorem working_set_after_load (localeCompare : String → String → Int) (s : PageState)
    (value : String) (r : Response) (hr : r.success = true) (hd : r.data ≠ []) :
    (loadFiles localeCompare s r).allFiles =
        filterFiles s.fileType (sortFiles localeCompare s.sortBy r.data) ∧
      (sortByChange localeCompare s value r).allFiles =
        filterFiles s.fileType (sortFiles localeCompare value r.data) ∧
      (fileTypeChange localeCompare s value r).allFiles =
        filterFiles value (sortFiles localeCompare s.sortBy r.data) ∧
      (∀ lowerCase : String → String, trim (lowerCase s.fileSearch) ≠ "" →
        (handleSearchWith lowerCase localeCompare s r).allFiles =
          s.allFiles.filter (fun file =>
            decide (matchesSearch lowerCase file.original_filename s.fileSearch))) := by
  refine ⟨?_, ?_, ?_, fun lowerCase hterm => ?_⟩
  · rw [loadFiles_allFiles]; simp [hr, hd]
  · unfold sortByChange; rw [loadFiles_allFiles]; simp [hr, hd]
  · unfold fileTypeChange; rw [loadFiles_allFiles]; simp [hr, hd]
  · rw [handleSearchWith_allFiles lowerCase localeCompare s r hterm]
    apply List.filter_congr
    intro file _
    rw [Bool.eq_iff_iff, decide_eq_true_iff]
    exact includes_iff_matchesSearch lowerCase _ _

/-- The theorem of C8 at two records with `a` in the search box. -/
theorem working_set_after_load_witness :
    (sortByChange codePointCompare (typeSearch loadedState "a") "name-desc"
        ⟨true, twoFiles⟩).allFiles =
      [sampleFile 2 "b.txt" 30 100, sampleFile 1 "a.txt" 10 300] ∧
    (handleSearchWith toLowerCase codePointCompare (typeSearch loadedState "a")
        ⟨true, twoFiles⟩).allFiles = [sampleFile 1 "a.txt" 10 300] ∧
    ((loadFiles codePointCompare (typeSearch loadedState "a") ⟨true, twoFiles⟩).allFiles =
        filterFiles (typeSearch loadedState "a").fileType
          (sortFiles codePointCompare (typeSearch loadedState "a").sortBy twoFiles) ∧
      (sortByChange codePointCompare (typeSearch loadedState "a") "name-desc"
          ⟨true, twoFiles⟩).allFiles =
        filterFiles (typeSearch loadedState "a").fileType
          (sortFiles codePointCompare "name-desc" twoFiles) ∧
      (fileTypeChange codePointCompare (typeSearch loadedState "a") "name-desc"
          ⟨true, twoFiles⟩).allFiles =
        filterFiles "name-desc"
          (sortFiles codePointCompare (typeSearch loadedState "a").sortBy twoFiles) ∧
      (∀ lowerCase : String → String,
        trim (lowerCase (typeSearch loadedState "a").fileSearch) ≠ "" →
        (handleSearchWith lowerCase codePointCompare (typeSearch loadedState "a")
          ⟨true, twoFiles⟩).allFiles =
          (typeSearch loadedState "a").allFiles.filter (fun file =>
            decide (matchesSearch lowerCase file.original_filename
              (typeSearch loadedState "a").fileSearch)))) :=
  ⟨by decide, by decide,
   working_set_after_load codePointCompare (typeSearch loadedState "a") "name-desc"
     ⟨true, twoFiles⟩ rfl (by decide)⟩

/-- C9 fails as stated: on page 2 of thirteen records, a reload that returns
twelve records leaves `currentPage` at 2 with one page in all, and the page
rendered is empty. -/
theorem reload_leaves_page_counterexample :
    ¬ pageInRange (run codePointCompare (initialState "date-desc" "all")
        [.load ⟨true, thirteenFiles⟩, .changePage 2, .load ⟨true, thirteenFiles.take 12⟩]) ∧
      (run codePointCompare (initialState "date-desc" "all")
        [.load ⟨true, thirteenFiles⟩, .changePage 2,
          .load ⟨true, thirteenFiles.take 12⟩]).currentPage = 2 ∧
      totalPages (run codePointCompare (initialState "date-desc" "all")
        [.load ⟨true, thirteenFiles⟩, .changePage 2,
          .load ⟨true, thirteenFiles.take 12⟩]).allFiles = 1 ∧
      (run codePointCompare (initialState "date-desc" "all")
        [.load ⟨true, thirteenFiles⟩, .changePage 2,
          .load ⟨true, thirteenFiles.take 12⟩]).shown = [] := by
  decide

theorem slice_beyond {α : Type} (arr : List α) (start stop : Int)
    (h : (arr.length : Int) ≤ start) : slice arr start stop = [] := by
  unfold slice
  have h0 : ¬ start < 0 := by omega
  simp only [h0, if_false]
  have hk : (min start (arr.length : Int)).toNat = arr.length := by
    rw [min_eq_right h]; simp
  rw [hk]
  simp

/-- C9, amended. From a state whose page index is in range, every action leaves
`currentPage` at 1 or above, and every action other than a reload of the list
(a sort-key change, a category change, typing, a search for a term that is not
blank, `changePage`) leaves it within `[1, totalPages]`, or at 1 when the
working set is empty. `displayFiles` does not clamp: for a page beyond the last
one it renders the empty page. -/
theorem pageInRange_preserved (localeCompare : String → String → Int) (s : PageState)
    (a : Action) (h : pageInRange s) :
    1 ≤ (step localeCompare s a).currentPage ∧
      (a.reloads s = false → pageInRange (step localeCompare s a)) ∧
      (∀ page : Int, max 1 (totalPages s.allFiles) < page → (displayFiles s page).shown = []) := by
  obtain ⟨hlo, hhi⟩ := h
  have hone : ∀ s2 : PageState, s2.currentPage = 1 → pageInRange s2 := by
    intro s2 h2
    unfold pageInRange
    rw [h2]
    exact ⟨le_refl 1, le_max_left 1 _⟩
  have hchange : ∀ page : Int, pageInRange (changePage s page) := by
    intro page
    unfold changePage
    split_ifs with hg
    · exact ⟨hlo, hhi⟩
    · simp only [not_or, not_lt] at hg
      exact ⟨hg.1, le_trans hg.2.1 (le_max_right 1 _)⟩
  refine ⟨?_, ?_, ?_⟩
  · cases a with
    | load r => simpa [step, loadFiles_currentPage] using hlo
    | sortByChange value r => simp [step, sortByChange, loadFiles_currentPage]
    | fileTypeChange value r => simp [step, fileTypeChange, loadFiles_currentPage]
    | typeSearch value => simpa [step, typeSearch] using hlo
    | search r =>
      by_cases ht : trim (toLowerCase s.fileSearch) = ""
      · simpa [step, handleSearch_empty _ _ _ ht, loadFiles_currentPage] using hlo
      · simp [step, handleSearch_currentPage _ _ _ ht]
    | resetSearch r =>
      simp only [step, resetSearchClick]
      cases s.resetSearchBtn with
      | none => exact hlo
      | some originalFiles => simpa [loadFiles_currentPage] using hlo
    | changePage page => exact (hchange page).1
  · intro hnr
    cases a with
    | load r => simp [Action.reloads] at hnr
    | sortByChange value r =>
      exact hone _ (by simp [step, sortByChange, loadFiles_currentPage])
    | fileTypeChange value r =>
      exact hone _ (by simp [step, fileTypeChange, loadFiles_currentPage])
    | typeSearch value => exact ⟨hlo, hhi⟩
    | search r =>
      have ht : trim (toLowerCase s.fileSearch) ≠ "" := by
        simpa [Action.reloads] using hnr
      exact hone _ (handleSearch_currentPage _ _ _ ht)
    | resetSearch r => simp [Action.reloads] at hnr
    | changePage page => exact hchange page
  · intro page hp
    simp only [displayFiles]
    apply slice_beyond
    have h1 : (1 : Int) < page := lt_of_le_of_lt (le_max_left 1 _) hp
    have h2 : totalPages s.allFiles < page := lt_of_le_of_lt (le_max_right 1 _) hp
    simp only [totalPages, ceilDiv, filesPerPage] at h2 ⊢
    have h3 : ((s.allFiles.length + 12 - 1) / 12 : Nat) * 12 + 12 > s.allFiles.length + 11 - 11 := by
      omega
    have h4 : (((s.allFiles.length + 12 - 1) / 12 : Nat) : Int) < page := h2
    push_cast at h4 ⊢
    omega

/-- The theorem of C9 at thirteen loaded records and `changePage(2)`. -/
theorem pageInRange_preserved_witness :
    (step codePointCompare thirteenLoaded (.changePage 2)).currentPage = 2 ∧
    (1 ≤ (step codePointCompare thirteenLoaded (.changePage 2)).currentPage ∧
      ((Action.changePage 2).reloads thirteenLoaded = false →
        pageInRange (step codePointCompare thirteenLoaded (.changePage 2))) ∧
      (∀ page : Int, max 1 (totalPages thirteenLoaded.allFiles) < page →
        (displayFiles thirteenLoaded page).shown = [])) :=
  ⟨by decide, pageInRange_preserved codePointCompare thirteenLoaded (.changePage 2) (by decide)⟩

/-- C10, the code where the search is cleared: on page 2 of the thirteen
results of a search, searching with the box emptied leaves `currentPage` at 2,
and so does a click on the reset button. -/
theorem clearing_search_keeps_page :
    (run codePointCompare (initialState "date-desc" "all")
        [.load ⟨true, thirteenFiles⟩, .typeSearch "a", .search ⟨true, thirteenFiles⟩,
          .changePage 2]).currentPage = 2 ∧
      (run codePointCompare (initialState "date-desc" "all")
        [.load ⟨true, thirteenFiles⟩, .typeSearch "a", .search ⟨true, thirteenFiles⟩,
          .changePage 2, .typeSearch "", .search ⟨true, thirteenFiles⟩]).currentPage = 2 ∧
      (run codePointCompare (initialState "date-desc" "all")
        [.load ⟨true, thirteenFiles⟩, .typeSearch "a", .search ⟨true, thirteenFiles⟩,
          .changePage 2, .resetSearch ⟨true, thirteenFiles⟩]).currentPage = 2 := by
  decide

/-! ## Pages of the working set -/

theorem slice_eq_drop_take {α : Type} (arr : List α) (start stop : Int) (h0 : 0 ≤ start)
    (h1 : start ≤ stop) :
    slice arr start stop = (arr.drop start.toNat).take (stop - start).toNat := by
  unfold slice
  have hs : ¬ start < 0 := by omega
  have ht : ¬ stop < 0 := by omega
  simp only [hs, ht, if_false]
  by_cases hlen : start ≤ (arr.length : Int)
  · rw [min_eq_left hlen]
    rw [List.take_eq_take]
    simp only [List.length_drop]
    omega
  · have hlen2 : (arr.length : Int) ≤ start := by omega
    rw [min_eq_right hlen2]
    have e1 : arr.drop (arr.length : Int).toNat = [] := by simp
    have e2 : arr.drop start.toNat = [] := by
      rw [List.drop_eq_nil_iff]; omega
    rw [e1, e2]; simp

theorem displayFiles_shown (s : PageState) (p : Int) (h1 : 1 ≤ p) :
    (displayFiles s p).shown =
      (s.allFiles.drop ((p.toNat - 1) * filesPerPage)).take filesPerPage := by
  have hfn : filesPerPage = 12 := rfl
  simp only [displayFiles, hfn, Nat.cast_ofNat]
  rw [slice_eq_drop_take _ _ _ (by omega) (by omega)]
  have e1 : ((p - 1) * 12).toNat = (p.toNat - 1) * 12 := by omega
  have e2 : ((p - 1) * 12 + 12 - (p - 1) * 12).toNat = 12 := by omega
  rw [e1, e2]

theorem totalPages_eq (allFiles : List FileRecord) :
    totalPages allFiles = ((allFiles.length + 11) / 12 : Nat) := by
  simp only [totalPages, ceilDiv, filesPerPage]
  rfl

theorem sortFiles_length (localeCompare : String → String → Int) (sortBy : String)
    (allFiles : List FileRecord) :
    (sortFiles localeCompare sortBy allFiles).length = allFiles.length := by
  unfold sortFiles
  split
  · exact (sort_perm _ allFiles).length_eq
  · rfl

theorem sortFiles_name_asc_pairwise (localeCompare : String → String → Int)
    (hlc : Consistent localeCompare) (allFiles : List FileRecord) :
    (sortFiles localeCompare "name-asc" allFiles).Pairwise (inOrder localeCompare "name-asc") := by
  have hc : comparefn localeCompare "name-asc" =
      some (fun a b => localeCompare a.original_filename b.original_filename) := rfl
  have hs : sortFiles localeCompare "name-asc" allFiles =
      sort (fun a b => localeCompare a.original_filename b.original_filename) allFiles := by
    simp [sortFiles, hc]
  rw [hs]
  exact (sort_pairwise _ (comparefn_consistent localeCompare hlc "name-asc" _ hc) allFiles).imp
    (fun {a b} hab => comparefn_inOrder localeCompare "name-asc" _ hc a b hab)

/-- C11. For every working set and every valid page index `p`
(`1 ≤ p ≤ totalPages`), the page `displayFiles(p)` shows is the records at the
positions `(p-1)*filesPerPage` up to but excluding `p*filesPerPage` of the
working set, in order, and it is not empty. For any 25 records loaded with the
sort key `name-asc` and the filter `all`, `totalPages` is 3 and `changePage(2)`
shows the 13th to 24th record of the sorted list, twelve records in ascending
filename order. -/
theorem displayFiles_page (s : PageState) (p : Int) (h1 : 1 ≤ p)
    (h2 : p ≤ totalPages s.allFiles) :
    (displayFiles s p).shown =
        (s.allFiles.drop ((p.toNat - 1) * filesPerPage)).take filesPerPage ∧
      (∀ k : Nat, k < filesPerPage →
        (displayFiles s p).shown[k]? = s.allFiles[(p.toNat - 1) * filesPerPage + k]?) ∧
      (displayFiles s p).shown.length ≤ filesPerPage ∧
      (displayFiles s p).shown ≠ [] ∧
      (∀ (localeCompare : String → String → Int) (data : List FileRecord),
        Consistent localeCompare → data.length = 25 →
        totalPages (loadFiles localeCompare (initialState "name-asc" "all")
            ⟨true, data⟩).allFiles = 3 ∧
          (changePage (loadFiles localeCompare (initialState "name-asc" "all") ⟨true, data⟩)
              2).shown =
            ((sortFiles localeCompare "name-asc" data).drop 12).take 12 ∧
          (changePage (loadFiles localeCompare (initialState "name-asc" "all") ⟨true, data⟩)
              2).shown.length = 12 ∧
          (changePage (loadFiles localeCompare (initialState "name-asc" "all") ⟨true, data⟩)
              2).shown.Pairwise (inOrder localeCompare "name-asc")) := by
  have hshown := displayFiles_shown s p h1
  refine ⟨hshown, ?_, ?_, ?_, ?_⟩
  · intro k hk
    rw [hshown, List.getElem?_take_of_lt hk, List.getElem?_drop]
  · rw [hshown, List.length_take]
    exact min_le_left _ _
  · intro hnil
    have hlen : (displayFiles s p).shown.length = 0 := by rw [hnil]; rfl
    rw [hshown, List.length_take, List.length_drop] at hlen
    rw [totalPages_eq] at h2
    simp only [filesPerPage] at hlen
    omega
  · intro localeCompare data hlc hlen
    have hd : data ≠ [] := by
      intro e; rw [e] at hlen; cases hlen
    have hall : (loadFiles localeCompare (initialState "name-asc" "all") ⟨true, data⟩).allFiles =
        sortFiles localeCompare "name-asc" data := by
      rw [loadFiles_allFiles]
      simp [hd, initialState, filterFiles]
    have hpage : (loadFiles localeCompare (initialState "name-asc" "all")
        ⟨true, data⟩).currentPage = 1 := by
      rw [loadFiles_currentPage]; rfl
    have htotal : totalPages (loadFiles localeCompare (initialState "name-asc" "all")
        ⟨true, data⟩).allFiles = 3 := by
      rw [totalPages_eq, hall, sortFiles_length, hlen]; rfl
    have hchange : (changePage (loadFiles localeCompare (initialState "name-asc" "all")
        ⟨true, data⟩) 2).shown =
          ((sortFiles localeCompare "name-asc" data).drop 12).take 12 := by
      unfold changePage
      rw [htotal, hpage]
      simp only [show ¬ ((2 : Int) < 1 ∨ (2 : Int) > 3 ∨ (2 : Int) = 1) by omega, if_false]
      rw [displayFiles_shown _ 2 (by omega)]
      simp only [hall]
      rfl
    refine ⟨htotal, hchange, ?_, ?_⟩
    · rw [hchange, List.length_take, List.length_drop, sortFiles_length, hlen]; rfl
    · rw [hchange]
      exact ((sortFiles_name_asc_pairwise localeCompare hlc data).sublist
        (List.drop_sublist _ _)).sublist (List.take_sublist _ _)

/-- The theorem of C11 at page 2 of thirteen records; the scenario at 25
records named `a` to `y`. -/
theorem displayFiles_page_witness :
    (changePage (loadFiles codePointCompare (initialState "name-asc" "all")
        ⟨true, twentyFiveFiles⟩) 2).shown.map (fun file => file.original_filename) =
      ["m", "n", "o", "p", "q", "r", "s", "t", "u", "v", "w", "x"] ∧
    ((displayFiles thirteenLoaded 2).shown =
        (thirteenLoaded.allFiles.drop (((2 : Int).toNat - 1) * filesPerPage)).take
          filesPerPage ∧
      (∀ k : Nat, k < filesPerPage →
        (displayFiles thirteenLoaded 2).shown[k]? =
          thirteenLoaded.allFiles[((2 : Int).toNat - 1) * filesPerPage + k]?) ∧
      (displayFiles thirteenLoaded 2).shown.length ≤ filesPerPage ∧
      (displayFiles thirteenLoaded 2).shown ≠ [] ∧
      (∀ (localeCompare : String → String → Int) (data : List FileRecord),
        Consistent localeCompare → data.length = 25 →
        totalPages (loadFiles localeCompare (initialState "name-asc" "all")
            ⟨true, data⟩).allFiles = 3 ∧
          (changePage (loadFiles localeCompare (initialState "name-asc" "all") ⟨true, data⟩)
              2).shown =
            ((sortFiles localeCompare "name-asc" data).drop 12).take 12 ∧
          (changePage (loadFiles localeCompare (initialState "name-asc" "all") ⟨true, data⟩)
              2).shown.length = 12 ∧
          (changePage (loadFiles localeCompare (initialState "name-asc" "all") ⟨true, data⟩)
              2).shown.Pairwise (inOrder localeCompare "name-asc"))) :=
  ⟨by decide, displayFiles_page thirteenLoaded 2 (by decide) (by decide)⟩

theorem ceilDiv_spec (n perPage : Nat) (hp : 0 < perPage) :
    (n : Int) ≤ ceilDiv n perPage * perPage ∧
      (∀ k : Int, (n : Int) ≤ k * perPage → ceilDiv n perPage ≤ k) ∧
      (n ≠ 0 → 1 ≤ ceilDiv n perPage) ∧ (n = 0 → ceilDiv n perPage = 0) := by
  unfold ceilDiv
  simp only [Int.ofNat_eq_coe]
  have hdiv : (n + perPage - 1) / perPage * perPage ≤ n + perPage - 1 :=
    Nat.div_mul_le_self _ _
  have hlt : n + perPage - 1 < ((n + perPage - 1) / perPage + 1) * perPage := by
    have := Nat.lt_div_mul_add (a := n + perPage - 1) hp
    rw [Nat.add_mul, Nat.one_mul]; exact this
  refine ⟨?_, ?_, ?_, ?_⟩
  · have h : n ≤ (n + perPage - 1) / perPage * perPage := by
      rw [Nat.add_mul, Nat.one_mul] at hlt
      omega
    exact_mod_cast h
  · intro k hk
    have hk0 : 0 ≤ k := by
      by_contra hneg
      have hneg2 : k < 0 := by omega
      have : k * (perPage : Int) < 0 := Int.mul_neg_of_neg_of_pos hneg2 (by exact_mod_cast hp)
      omega
    obtain ⟨m, rfl⟩ := Int.eq_ofNat_of_zero_le hk0
    have hk2 : n ≤ m * perPage := by exact_mod_cast hk
    have : (n + perPage - 1) / perPage ≤ m := by
      apply Nat.le_of_lt_succ
      rw [Nat.div_lt_iff_lt_mul hp]
      rw [Nat.succ_mul]
      omega
    show ((((n + perPage - 1) / perPage : Nat)) : Int) ≤ (m : Int)
    exact_mod_cast this
  · intro hn
    have : 1 ≤ (n + perPage - 1) / perPage := by
      rw [Nat.le_div_iff_mul_le hp]
      omega
    show (1 : Int) ≤ (((n + perPage - 1) / perPage : Nat) : Int)
    exact_mod_cast this
  · intro hn
    subst hn
    have : (0 + perPage - 1) / perPage = 0 := by
      rw [Nat.div_eq_zero_iff hp]
      omega
    show ((((0 + perPage - 1) / perPage : Nat)) : Int) = 0
    rw [this]; rfl

/-- C12 fails as stated: for the empty working set `totalPages` is 0 on both
pages, not `max(1, ·) = 1`, and the pagination control is empty. -/
theorem totalPages_empty_counterexample :
    totalPages [] = 0 ∧
      totalPages [] ≠ max 1 (ceilDiv ([] : List FileRecord).length filesPerPage) ∧
      Admin.totalPages [] = 0 ∧ setupPagination (initialState "date-desc" "all") = [] := by
  decide

/-- C12, amended. The `totalPages` value that `changePage` and the pagination
control use is `ceil(len / filesPerPage)`: the least number of pages that hold
the working set. For a non-empty working set that is `max(1, ceil(len /
filesPerPage))`; for the empty working set it is 0. `changePage` accepts no
page above it. The same holds on the admin page with its ten records a page. -/
theorem totalPages_ceil (allFiles : List FileRecord) :
    ((allFiles.length : Int) ≤ totalPages allFiles * filesPerPage ∧
      (∀ k : Int, (allFiles.length : Int) ≤ k * filesPerPage → totalPages allFiles ≤ k) ∧
      (allFiles ≠ [] → totalPages allFiles = max 1 (totalPages allFiles)) ∧
      (allFiles = [] → totalPages allFiles = 0)) ∧
    ((allFiles.length : Int) ≤ Admin.totalPages allFiles * Admin.filesPerPage ∧
      (∀ k : Int, (allFiles.length : Int) ≤ k * Admin.filesPerPage →
        Admin.totalPages allFiles ≤ k) ∧
      (allFiles ≠ [] → Admin.totalPages allFiles = max 1 (Admin.totalPages allFiles)) ∧
      (allFiles = [] → Admin.totalPages allFiles = 0)) ∧
    (∀ s : PageState, s.allFiles = allFiles →
      (∀ page : Int, totalPages allFiles < page → changePage s page = s) ∧
      setupPagination s = paginationItems s.currentPage (totalPages allFiles)) := by
  have hne : allFiles ≠ [] → allFiles.length ≠ 0 := fun h e => h (List.length_eq_zero.1 e)
  have hnil : allFiles = [] → allFiles.length = 0 := fun h => by rw [h]; rfl
  obtain ⟨u1, u2, u3, u4⟩ := ceilDiv_spec allFiles.length filesPerPage (by decide)
  obtain ⟨a1, a2, a3, a4⟩ := ceilDiv_spec allFiles.length Admin.filesPerPage (by decide)
  refine ⟨⟨u1, u2, fun h => ?_, fun h => u4 (hnil h)⟩,
    ⟨a1, a2, fun h => ?_, fun h => a4 (hnil h)⟩, fun s hs => ⟨fun page hp => ?_, ?_⟩⟩
  · exact (max_eq_right (u3 (hne h))).symm
  · exact (max_eq_right (a3 (hne h))).symm
  · unfold changePage
    rw [hs]
    simp [hp]
  · unfold setupPagination
    rw [hs]

/-- C13. `changePage(page)` returns the state unchanged when `page < 1`,
`page > totalPages` or `page` is the current page; otherwise it sets
`currentPage` to `page`. In both cases `allFiles` (the records and their order)
and the values of the sort, filter and search controls are unchanged. The same
holds for `changePage` of the admin page. -/
theorem changePage_frame (s : PageState) (page : Int) :
    ((page < 1 ∨ page > totalPages s.allFiles ∨ page = s.currentPage) →
        changePage s page = s) ∧
      (¬ (page < 1 ∨ page > totalPages s.allFiles ∨ page = s.currentPage) →
        (changePage s page).currentPage = page) ∧
      ((changePage s page).allFiles = s.allFiles ∧ (changePage s page).sortBy = s.sortBy ∧
        (changePage s page).fileType = s.fileType ∧
        (changePage s page).fileSearch = s.fileSearch) ∧
      ((page < 1 ∨ page > Admin.totalPages s.allFiles ∨ page = s.currentPage) →
        Admin.changePage s page = s) ∧
      (¬ (page < 1 ∨ page > Admin.totalPages s.allFiles ∨ page = s.currentPage) →
        (Admin.changePage s page).currentPage = page) ∧
      ((Admin.changePage s page).allFiles = s.allFiles ∧
        (Admin.changePage s page).sortBy = s.sortBy ∧
        (Admin.changePage s page).fileType = s.fileType ∧
        (Admin.changePage s page).fileSearch = s.fileSearch) := by
  refine ⟨fun h => ?_, fun h => ?_, ?_, fun h => ?_, fun h => ?_, ?_⟩
  · simp only [changePage, h, if_true]
  · simp only [changePage, h, if_false, displayFiles]
  · unfold changePage
    split_ifs <;> exact ⟨rfl, rfl, rfl, rfl⟩
  · simp only [Admin.changePage, h, if_true]
  · simp only [Admin.changePage, h, if_false, Admin.displayFiles]
  · unfold Admin.changePage
    split_ifs <;> exact ⟨rfl, rfl, rfl, rfl⟩

/-! ## The upload selection -/

theorem fileExists_iff (selected : List LocalFile) (file : LocalFile) :
    fileExists selected file = true ↔ dedupKey file ∈ selected.map dedupKey := by
  simp only [fileExists, List.any_eq_true, Bool.and_eq_true, decide_eq_true_eq, List.mem_map,
    dedupKey, Prod.mk.injEq]

theorem handleFileSelection_selectedFiles (s : UploadPage) (files : List LocalFile) :
    (handleFileSelection s files).selectedFiles =
      s.selectedFiles ++ newlySelected s.selectedFiles files := by
  simp only [handleFileSelection]
  generalize s.selectedFiles = selected
  induction files generalizing selected with
  | nil => simp [newlySelected]
  | cons file files ih =>
    simp only [List.foldl_cons, newlySelected]
    by_cases h : fileExists selected file = true
    · simp only [h, if_true]; exact ih selected
    · have h2 : fileExists selected file = false := by simpa using h
      simp only [h2, Bool.false_eq_true, if_false]
      rw [ih (selected ++ [file])]
      simp

theorem newlySelected_sublist (selected files : List LocalFile) :
    (newlySelected selected files).Sublist files := by
  induction files generalizing selected with
  | nil => simp [newlySelected]
  | cons file files ih =>
    simp only [newlySelected]
    split_ifs
    · exact (ih selected).cons _
    · exact (ih _).cons₂ _

theorem newlySelected_not_mem (selected files : List LocalFile) :
    ∀ g ∈ newlySelected selected files, dedupKey g ∉ selected.map dedupKey := by
  induction files generalizing selected with
  | nil => simp [newlySelected]
  | cons file files ih =>
    intro g hg
    simp only [newlySelected] at hg
    split_ifs at hg with h
    · exact ih selected g hg
    · rcases List.mem_cons.1 hg with rfl | hg2
      · exact fun hmem => h ((fileExists_iff _ _).2 hmem)
      · intro hmem
        exact ih _ g hg2 (by simp only [List.map_append, List.mem_append]; exact Or.inl hmem)

theorem newlySelected_nodup (selected files : List LocalFile) :
    ((newlySelected selected files).map dedupKey).Nodup := by
  induction files generalizing selected with
  | nil => simp [newlySelected]
  | cons file files ih =>
    simp only [newlySelected]
    split_ifs with h
    · exact ih selected
    · rw [List.map_cons, List.nodup_cons]
      refine ⟨fun hmem => ?_, ih _⟩
      obtain ⟨g, hg, hkey⟩ := List.mem_map.1 hmem
      exact newlySelected_not_mem _ _ g hg (by simp [hkey])

theorem newlySelected_covers (selected files : List LocalFile) :
    ∀ f ∈ files, dedupKey f ∈ (selected ++ newlySelected selected files).map dedupKey := by
  induction files generalizing selected with
  | nil => simp
  | cons file files ih =>
    intro f hf
    simp only [newlySelected]
    rcases List.mem_cons.1 hf with rfl | hf2
    · by_cases h : fileExists selected f = true
      · simp only [List.map_append, List.mem_append]
        exact Or.inl ((fileExists_iff _ _).1 h)
      · simp [h]
    · by_cases h : fileExists selected file = true
      · simp only [h, if_true]; exact ih selected f hf2
      · simp only [h]
        have := ih (selected ++ [file]) f hf2
        simpa using this

theorem newlySelected_first (selected files : List LocalFile) :
    ∀ g ∈ newlySelected selected files,
      files.find? (fun f => dedupKey f = dedupKey g) = some g := by
  induction files generalizing selected with
  | nil => simp [newlySelected]
  | cons file files ih =>
    intro g hg
    simp only [newlySelected] at hg
    split_ifs at hg with h
    · have hne : dedupKey file ≠ dedupKey g := by
        intro e
        exact newlySelected_not_mem _ _ g hg (e ▸ (fileExists_iff _ _).1 h)
      simp only [List.find?_cons, hne, decide_False]
      exact ih selected g hg
    · rcases List.mem_cons.1 hg with rfl | hg2
      · simp [List.find?_cons]
      · have hne : dedupKey file ≠ dedupKey g := by
          intro e
          exact newlySelected_not_mem _ _ g hg2 (by simp [e])
        simp only [List.find?_cons, hne, decide_False]
        exact ih _ g hg2

theorem newlySelected_of_all_exist (selected files : List LocalFile)
    (h : ∀ f ∈ files, fileExists selected f = true) : newlySelected selected files = [] := by
  induction files with
  | nil => rfl
  | cons file files ih =>
    simp only [newlySelected, h file (List.mem_cons_self _ _), if_true]
    exact ih (fun f hf => h f (List.mem_cons_of_mem _ hf))

/-- C17. For every queue in which no two entries have the same name and size
and every selection, the queue after `handleFileSelection` has no two entries
with the same name and size and has an entry for every name and size
selected. -/
theorem handleFileSelection_nodup (s : UploadPage) (files : List LocalFile)
    (h : (s.selectedFiles.map dedupKey).Nodup) :
    ((handleFileSelection s files).selectedFiles.map dedupKey).Nodup ∧
      ∀ f ∈ files, dedupKey f ∈ (handleFileSelection s files).selectedFiles.map dedupKey := by
  rw [handleFileSelection_selectedFiles]
  refine ⟨?_, newlySelected_covers _ _⟩
  rw [List.map_append, List.nodup_append]
  refine ⟨h, newlySelected_nodup _ _, ?_⟩
  intro k hk1 hk2
  obtain ⟨g, hg, rfl⟩ := List.mem_map.1 hk2
  exact newlySelected_not_mem _ _ g hg hk1

/-- C18. `handleFileSelection` keeps the order of first appearance: the queue
before is a prefix of the queue after, and what is appended is, in the order of
the selection, one file for each name and size of the selection that the queue
did not hold, namely the first file of the selection with that name and
size. -/
theorem handleFileSelection_appends (s : UploadPage) (files : List LocalFile) :
    s.selectedFiles <+: (handleFileSelection s files).selectedFiles ∧
      ∃ appended : List LocalFile,
        (handleFileSelection s files).selectedFiles = s.selectedFiles ++ appended ∧
        appended.Sublist files ∧
        (appended.map dedupKey).Nodup ∧
        (∀ g ∈ appended, dedupKey g ∉ s.selectedFiles.map dedupKey) ∧
        (∀ f ∈ files, dedupKey f ∉ s.selectedFiles.map dedupKey →
          dedupKey f ∈ appended.map dedupKey) ∧
        (∀ g ∈ appended, files.find? (fun f => dedupKey f = dedupKey g) = some g) := by
  have hsel := handleFileSelection_selectedFiles s files
  refine ⟨⟨_, hsel.symm⟩, newlySelected s.selectedFiles files, hsel,
    newlySelected_sublist _ _, newlySelected_nodup _ _, newlySelected_not_mem _ _, ?_,
    newlySelected_first _ _⟩
  intro f hf hnot
  have := newlySelected_covers s.selectedFiles files f hf
  rw [List.map_append, List.mem_append] at this
  exact this.resolve_left hnot

/-- C19. Adding the same selection twice leaves the page as adding it once
does, for every queue; two files of the same name and size added to the empty
queue, in one selection or in two, give a queue of length 1 holding the
first. -/
theorem handleFileSelection_idempotent (s : UploadPage) (files : List LocalFile) :
    handleFileSelection (handleFileSelection s files) files = handleFileSelection s files ∧
      (∀ (f g : LocalFile) (disabled : Bool), dedupKey f = dedupKey g →
        (handleFileSelection ⟨[], disabled⟩ [f, g]).selectedFiles = [f] ∧
        (handleFileSelection (handleFileSelection ⟨[], disabled⟩ [f]) [g]).selectedFiles = [f] ∧
        (handleFileSelection (handleFileSelection ⟨[], disabled⟩ [f]) [g]).selectedFiles.length
          = 1) := by
  constructor
  · have hsel : (handleFileSelection (handleFileSelection s files) files).selectedFiles =
        (handleFileSelection s files).selectedFiles := by
      rw [handleFileSelection_selectedFiles (handleFileSelection s files) files]
      rw [newlySelected_of_all_exist, List.append_nil]
      intro f hf
      rw [fileExists_iff, handleFileSelection_selectedFiles]
      exact newlySelected_covers _ _ f hf
    have hshape : ∀ (t : UploadPage) (fs : List LocalFile),
        handleFileSelection t fs =
          { selectedFiles := (handleFileSelection t fs).selectedFiles,
            uploadBtnDisabled := (handleFileSelection t fs).selectedFiles.length = 0 } :=
      fun t fs => rfl
    rw [hshape (handleFileSelection s files) files, hsel]
    exact (hshape s files).symm
  · intro f g disabled hkey
    have hn : f.name = g.name ∧ f.size = g.size := by
      simpa [dedupKey] using hkey
    have h1 : (handleFileSelection ⟨[], disabled⟩ [f, g]).selectedFiles = [f] := by
      simp [handleFileSelection, fileExists, hn.1, hn.2]
    have h2 : (handleFileSelection (handleFileSelection ⟨[], disabled⟩ [f]) [g]).selectedFiles
        = [f] := by
      simp [handleFileSelection, fileExists, hn.1, hn.2]
    exact ⟨h1, h2, by rw [h2]; rfl⟩

/-- The theorem of C17 at a selection that names `a.txt` of size 10 twice, added to a queue
that holds `b.txt`. -/
theorem handleFileSelection_nodup_witness :
    (handleFileSelection ⟨[⟨"b.txt", 20, 7⟩], false⟩ sampleSelection).selectedFiles =
      [⟨"b.txt", 20, 7⟩, ⟨"a.txt", 10, 1⟩] ∧
    (((handleFileSelection ⟨[⟨"b.txt", 20, 7⟩], false⟩ sampleSelection).selectedFiles.map
        dedupKey).Nodup ∧
      ∀ f ∈ sampleSelection,
        dedupKey f ∈
          (handleFileSelection ⟨[⟨"b.txt", 20, 7⟩], false⟩ sampleSelection).selectedFiles.map
            dedupKey) :=
  ⟨by decide, handleFileSelection_nodup ⟨[⟨"b.txt", 20, 7⟩], false⟩ sampleSelection (by decide)⟩

/-! ## The quick upload -/

theorem uploadEach_prefix (transport : Nat → LocalFile → UploadResult) (i : Nat)
    (files : List LocalFile) : (uploadEach transport i files).1 <+: files := by
  induction files generalizing i with
  | nil => simp [uploadEach]
  | cons file files ih =>
    simp only [uploadEach]
    split
    · exact List.prefix_cons_inj file |>.2 (ih (i + 1))
    · exact ⟨files, rfl⟩
    · exact ⟨files, rfl⟩
    · exact ⟨files, rfl⟩

theorem uploadEach_none (transport : Nat → LocalFile → UploadResult) (i : Nat)
    (files : List LocalFile)
    (h : ∀ (k : Nat) (f : LocalFile), files[k]? = some f → (transport (i + k) f).failed = false) :
    uploadEach transport i files = (files, .completed) := by
  induction files generalizing i with
  | nil => simp [uploadEach]
  | cons file files ih =>
    have h0 := h 0 file (by simp)
    have hrest : ∀ (k : Nat) (f : LocalFile), files[k]? = some f →
        (transport (i + 1 + k) f).failed = false := by
      intro k f hk
      have := h (k + 1) f (by simpa using hk)
      rwa [show i + (k + 1) = i + 1 + k by omega] at this
    simp only [uploadEach]
    cases ht : transport i file with
    | resolved success message =>
      cases success with
      | true => simp only [ih (i + 1) hrest]
      | false => rw [Nat.add_zero, ht] at h0; cases h0
    | rejected statusText => rw [Nat.add_zero, ht] at h0; cases h0
    | pending => rw [Nat.add_zero, ht] at h0; cases h0

theorem uploadEach_first_failure (transport : Nat → LocalFile → UploadResult) (i : Nat)
    (files : List LocalFile) (k : Nat) (f : LocalFile) (hk : files[k]? = some f)
    (hfail : (transport (i + k) f).failed = true)
    (hbefore : ∀ (j : Nat) (g : LocalFile), j < k → files[j]? = some g →
      (transport (i + j) g).failed = false) :
    (uploadEach transport i files).1 = files.take (k + 1) ∧
      (transport (i + k) f = .pending → (uploadEach transport i files).2 = .suspended) ∧
      (transport (i + k) f ≠ .pending →
        ∃ text, (uploadEach transport i files).2 = .thrown text) := by
  induction files generalizing i k with
  | nil => simp at hk
  | cons file files ih =>
    cases k with
    | zero =>
      have hf : file = f := by simpa using hk
      subst hf
      rw [Nat.add_zero] at hfail ⊢
      simp only [uploadEach]
      cases ht : transport i file with
      | resolved success message =>
        cases success with
        | true => rw [ht] at hfail; cases hfail
        | false => simp [ht]
      | rejected statusText => simp [ht]
      | pending => simp [ht]
    | succ k =>
      have h0 := hbefore 0 file (by omega) (by simp)
      rw [Nat.add_zero] at h0
      have hk2 : files[k]? = some f := by simpa using hk
      have hfail2 : (transport (i + 1 + k) f).failed = true := by
        rwa [show i + (k + 1) = i + 1 + k by omega] at hfail
      have hbefore2 : ∀ (j : Nat) (g : LocalFile), j < k → files[j]? = some g →
          (transport (i + 1 + j) g).failed = false := by
        intro j g hj hg
        have := hbefore (j + 1) g (by omega) (by simpa using hg)
        rwa [show i + (j + 1) = i + 1 + j by omega] at this
      obtain ⟨ih1, ih2, ih3⟩ := ih (i + 1) k hk2 hfail2 hbefore2
      rw [show i + (k + 1) = i + 1 + k by omega]
      simp only [uploadEach]
      cases ht : transport i file with
      | resolved success message =>
        cases success with
        | true => exact ⟨by simp [ih1], ih2, ih3⟩
        | false => rw [ht] at h0; cases h0
      | rejected statusText => rw [ht] at h0; cases h0
      | pending => rw [ht] at h0; cases h0

theorem quickUploadSubmit_sent (transport : Nat → LocalFile → UploadResult)
    (files : List LocalFile) :
    (quickUploadSubmit transport files).sent = (uploadEach transport 0 files).1 := by
  unfold quickUploadSubmit
  cases files with
  | nil => simp [uploadEach]
  | cons file files =>
    simp only [List.length_cons, Nat.add_one_ne_zero, if_false]
    split <;> simp_all

theorem quickUploadSubmit_report (transport : Nat → LocalFile → UploadResult)
    (files : List LocalFile) (hfiles : files ≠ []) :
    ((uploadEach transport 0 files).2 = .completed →
        (quickUploadSubmit transport files).report = .uploaded) ∧
      ((uploadEach transport 0 files).2 = .suspended →
        (quickUploadSubmit transport files).report = .nothing) ∧
      (∀ text, (uploadEach transport 0 files).2 = .thrown text →
        (quickUploadSubmit transport files).report =
          .error ("Error uploading files: " ++ text)) := by
  unfold quickUploadSubmit
  cases files with
  | nil => exact absurd rfl hfiles
  | cons file files =>
    simp only [List.length_cons, Nat.add_one_ne_zero, if_false]
    split <;> simp_all

/-- The submit handler of the quick upload halts at the first transfer that
fails: the files it hands to `api.uploadFile` are a prefix of `fileInput.files`,
in order; when the call for `files[k]` is the first that fails they are
`files[0..k]`, and the handler reports an error if that call settles and nothing
if it stays pending; when no call fails they are all the files and the handler
reports the upload. -/
theorem quickUploadSubmit_halts (transport : Nat → LocalFile → UploadResult)
    (files : List LocalFile) (hfiles : files ≠ []) :
    (quickUploadSubmit transport files).sent <+: files ∧
      (∀ (k : Nat) (f : LocalFile), files[k]? = some f → (transport k f).failed = true →
        (∀ (j : Nat) (g : LocalFile), j < k → files[j]? = some g →
          (transport j g).failed = false) →
        (quickUploadSubmit transport files).sent = files.take (k + 1) ∧
          (transport k f = .pending → (quickUploadSubmit transport files).report = .nothing) ∧
          (transport k f ≠ .pending →
            ∃ text, (quickUploadSubmit transport files).report = .error text)) ∧
      ((∀ (k : Nat) (f : LocalFile), files[k]? = some f → (transport k f).failed = false) →
        (quickUploadSubmit transport files).sent = files ∧
          (quickUploadSubmit transport files).report = .uploaded) := by
  have hshift : ∀ k : Nat, 0 + k = k := Nat.zero_add
  obtain ⟨hdone, hsusp, hthrown⟩ := quickUploadSubmit_report transport files hfiles
  refine ⟨?_, ?_, ?_⟩
  · rw [quickUploadSubmit_sent]
    exact uploadEach_prefix transport 0 files
  · intro k f hk hfail hbefore
    obtain ⟨h1, h2, h3⟩ := uploadEach_first_failure transport 0 files k f hk
      (by rwa [hshift]) (fun j g hj hg => by rw [hshift]; exact hbefore j g hj hg)
    rw [hshift] at h2 h3
    refine ⟨by rw [quickUploadSubmit_sent]; exact h1, fun hp => hsusp (h2 hp), fun hp => ?_⟩
    obtain ⟨text, ht⟩ := h3 hp
    exact ⟨_, hthrown text ht⟩
  · intro hall
    have h := uploadEach_none transport 0 files
      (fun k f hk => by rw [hshift]; exact hall k f hk)
    refine ⟨by rw [quickUploadSubmit_sent, h], hdone (by rw [h])⟩

/-- C20, the code on an answer whose body is not JSON. Of three files, the call
for the second answered `200` with a body that does not parse: that transfer
fails, the handler hands the first two files to `api.uploadFile` and never the
third, and it reports nothing, neither the failure nor an upload. With the
second call rejected instead, it sends the same two files and reports an
error. -/
theorem quickUploadSubmit_unparsed_body :
    (secondUnparsed 1 ⟨"b.txt", 20, 2⟩).failed = true ∧
      quickUploadSubmit secondUnparsed threeLocalFiles =
        { sent := [⟨"a.txt", 10, 1⟩, ⟨"b.txt", 20, 2⟩], report := .nothing } ∧
      quickUploadSubmit secondFails threeLocalFiles =
        { sent := [⟨"a.txt", 10, 1⟩, ⟨"b.txt", 20, 2⟩],
          report := .error "Error uploading files: undefined" } := by
  decide

/-! ## The pagination control: page links and ellipses -/

theorem pageItem_current (c T : Int) : pageItem c T c = some (.page c true) := by
  have h : c = 1 ∨ c = T ∨ (c ≥ c - 1 ∧ c ≤ c + 1) := Or.inr (Or.inr ⟨by omega, by omega⟩)
  rw [pageItem, if_pos h]
  simp

theorem pageItem_page (c T i : Int) (h : i = 1 ∨ i = T ∨ (i ≥ c - 1 ∧ i ≤ c + 1))
    (hne : i ≠ c) : pageItem c T i = some (.page i false) := by
  rw [pageItem, if_pos h]
  simp [hne]

theorem pageItem_ellipsis (c T i : Int) (h : ¬ (i = 1 ∨ i = T ∨ (i ≥ c - 1 ∧ i ≤ c + 1)))
    (h2 : i = c - 2 ∨ i = c + 2) : pageItem c T i = some .ellipsis := by
  simp only [pageItem, h, if_false, h2, if_true]

theorem pageItem_none (c T i : Int) (h : ¬ (i = 1 ∨ i = T ∨ (i ≥ c - 1 ∧ i ≤ c + 1)))
    (h2 : ¬ (i = c - 2 ∨ i = c + 2)) : pageItem c T i = none := by
  simp only [pageItem, h, if_false, h2]

theorem filterMap_range_none (c T : Int) (start len : Nat)
    (h : ∀ i : Nat, start ≤ i → i < start + len → pageItem c T i = none) :
    (List.range' start len).filterMap (fun i : Nat => pageItem c T i) = [] := by
  rw [List.filterMap_eq_nil_iff]
  intro i hi
  rw [List.mem_range'_1] at hi
  exact h i hi.1 hi.2

theorem left_items (c T : Int) (cn : Nat) (hc : c = cn) (h1 : 1 ≤ cn) (hT : c ≤ T) :
    (List.range' 1 (cn - 1)).filterMap (fun i : Nat => pageItem c T i) = leftOf c := by
  rcases Nat.lt_or_ge cn 4 with hlt | hge
  · have : cn = 1 ∨ cn = 2 ∨ cn = 3 := by omega
    rcases this with rfl | rfl | rfl
    · subst hc; simp [leftOf]
    · subst hc
      have e : pageItem 2 T 1 = some (.page 1 false) :=
        pageItem_page _ _ _ (Or.inl rfl) (by norm_num)
      simp [leftOf, List.range', e]
    · subst hc
      have e1 : pageItem 3 T 1 = some (.page 1 false) :=
        pageItem_page _ _ _ (Or.inl rfl) (by norm_num)
      have e2 : pageItem 3 T 2 = some (.page 2 false) :=
        pageItem_page _ _ _ (Or.inr (Or.inr ⟨by norm_num, by norm_num⟩)) (by norm_num)
      simp [leftOf, List.range', e1, e2]
  · obtain ⟨m, rfl⟩ : ∃ m, cn = m + 4 := ⟨cn - 4, by omega⟩
    have hrange : List.range' 1 (m + 4 - 1) = 1 :: (List.range' 2 m ++ [m + 2, m + 3]) := by
      have e : m + 4 - 1 = (m + 1 + 1) + 1 := by omega
      rw [e, List.range'_succ, List.range'_1_concat, List.range'_1_concat]
      simp [Nat.add_comm]
    rw [hrange]
    have e1 : pageItem c T (1 : Nat) = some (.page 1 false) :=
      pageItem_page _ _ _ (Or.inl (by norm_num)) (by subst hc; push_cast; omega)
    have emid : (List.range' 2 m).filterMap (fun i : Nat => pageItem c T i) = [] := by
      apply filterMap_range_none
      intro i hi1 hi2
      apply pageItem_none
      · subst hc; push_cast at hT ⊢; omega
      · subst hc; push_cast; omega
    have e2 : pageItem c T ((m + 2 : Nat) : Int) = some .ellipsis := by
      apply pageItem_ellipsis
      · subst hc; push_cast at hT ⊢; omega
      · subst hc; push_cast; omega
    have e3 : pageItem c T ((m + 3 : Nat) : Int) = some (.page (c - 1) false) := by
      have hval : ((m + 3 : Nat) : Int) = c - 1 := by subst hc; push_cast; omega
      rw [hval]
      exact pageItem_page _ _ _ (Or.inr (Or.inr ⟨by omega, by omega⟩)) (by omega)
    have hleft : leftOf c = [.page 1 false, .ellipsis, .page (c - 1) false] := by
      have h1 : c ≠ 1 := by subst hc; push_cast; omega
      have h2 : c ≠ 2 := by subst hc; push_cast; omega
      have h3 : c ≠ 3 := by subst hc; push_cast; omega
      simp [leftOf, h1, h2, h3]
    rw [hleft]
    simp only [List.filterMap_cons, List.filterMap_append, e1, emid, e2, e3, List.filterMap_nil,
      List.nil_append, List.cons_append]

theorem right_items (c T : Int) (cn tn : Nat) (hc : c = cn) (hT : T = tn) (h1 : 1 ≤ cn)
    (hle : cn ≤ tn) :
    (List.range' (cn + 1) (tn - cn)).filterMap (fun i : Nat => pageItem c T i) =
      rightOf c T := by
  obtain ⟨d, rfl⟩ : ∃ d, tn = cn + d := ⟨tn - cn, by omega⟩
  have hd : cn + d - cn = d := by omega
  rw [hd]
  rcases Nat.lt_or_ge d 3 with hlt | hge
  · have : d = 0 ∨ d = 1 ∨ d = 2 := by omega
    rcases this with rfl | rfl | rfl
    · have hr : rightOf c T = [] := by
        have : c = T := by rw [hc, hT]; rfl
        simp [rightOf, this]
      rw [hr]; rfl
    · have hr : rightOf c T = [.page T false] := by
        have e1 : c ≠ T := by omega
        have e2 : c + 1 = T := by omega
        simp [rightOf, e1, e2]
      have e : pageItem c T ((cn + 1 : Nat) : Int) = some (.page T false) := by
        have hval : ((cn + 1 : Nat) : Int) = T := by omega
        rw [hval]
        exact pageItem_page _ _ _ (Or.inr (Or.inl rfl)) (by omega)
      rw [hr]
      simp only [List.range'_succ, List.range'_zero, List.filterMap_cons, e, List.filterMap_nil]
    · have hr : rightOf c T = [.page (c + 1) false, .page T false] := by
        have e1 : c ≠ T := by omega
        have e2 : c + 1 ≠ T := by omega
        have e3 : c + 2 = T := by omega
        simp [rightOf, e1, e2, e3]
      have ea : pageItem c T ((cn + 1 : Nat) : Int) = some (.page (c + 1) false) := by
        have hval : ((cn + 1 : Nat) : Int) = c + 1 := by omega
        rw [hval]
        exact pageItem_page _ _ _ (Or.inr (Or.inr ⟨by omega, by omega⟩)) (by omega)
      have eb : pageItem c T ((cn + 1 + 1 : Nat) : Int) = some (.page T false) := by
        have hval : ((cn + 1 + 1 : Nat) : Int) = T := by omega
        rw [hval]
        exact pageItem_page _ _ _ (Or.inr (Or.inl rfl)) (by omega)
      rw [hr]
      simp only [List.range'_succ, List.range'_zero, List.filterMap_cons, ea, eb,
        List.filterMap_nil]
  · obtain ⟨m, rfl⟩ : ∃ m, d = m + 3 := ⟨d - 3, by omega⟩
    have hrange : List.range' (cn + 1) (m + 3) =
        (cn + 1) :: (cn + 1 + 1) :: (List.range' (cn + 1 + 1 + 1) m ++ [cn + 1 + 1 + 1 + m]) := by
      have e : m + 3 = (m + 1) + 1 + 1 := by omega
      rw [e, List.range'_succ, List.range'_succ, List.range'_1_concat]
    rw [hrange]
    have hr : rightOf c T = [.page (c + 1) false, .ellipsis, .page T false] := by
      have e1 : c ≠ T := by omega
      have e2 : c + 1 ≠ T := by omega
      have e3 : c + 2 ≠ T := by omega
      simp [rightOf, e1, e2, e3]
    have ea : pageItem c T ((cn + 1 : Nat) : Int) = some (.page (c + 1) false) := by
      have hval : ((cn + 1 : Nat) : Int) = c + 1 := by omega
      rw [hval]
      exact pageItem_page _ _ _ (Or.inr (Or.inr ⟨by omega, by omega⟩)) (by omega)
    have eb : pageItem c T ((cn + 1 + 1 : Nat) : Int) = some .ellipsis := by
      apply pageItem_ellipsis
      · omega
      · omega
    have emid : (List.range' (cn + 1 + 1 + 1) m).filterMap (fun i : Nat => pageItem c T i) =
        [] := by
      apply filterMap_range_none
      intro i hi1 hi2
      apply pageItem_none
      · omega
      · omega
    have ec : pageItem c T ((cn + 1 + 1 + 1 + m : Nat) : Int) = some (.page T false) := by
      have hval : ((cn + 1 + 1 + 1 + m : Nat) : Int) = T := by omega
      rw [hval]
      exact pageItem_page _ _ _ (Or.inr (Or.inl rfl)) (by omega)
    rw [hr]
    simp only [List.filterMap_cons, List.filterMap_append, ea, eb, emid, ec, List.filterMap_nil,
      List.nil_append]

/-- The loop of `setupPagination` in closed form, for a page index in range. -/
theorem pageNumbers_eq (c T : Int) (h1 : 1 ≤ c) (h2 : c ≤ T) :
    pageNumbers c T = leftOf c ++ [.page c true] ++ rightOf c T := by
  obtain ⟨cn, rfl⟩ := Int.eq_ofNat_of_zero_le (show 0 ≤ c by omega)
  obtain ⟨tn, rfl⟩ := Int.eq_ofNat_of_zero_le (show 0 ≤ T by omega)
  have hcn : 1 ≤ cn := by exact_mod_cast h1
  have hle : cn ≤ tn := by exact_mod_cast h2
  have hsplit : List.range' 1 tn =
      List.range' 1 (cn - 1) ++ cn :: List.range' (cn + 1) (tn - cn) := by
    have e1 : tn = (tn - cn + 1) + (cn - 1) := by omega
    have e2 : List.range' cn (tn - cn + 1) = cn :: List.range' (cn + 1) (tn - cn) :=
      List.range'_succ _ _ _
    have e3 : 1 + (cn - 1) = cn := by omega
    have := List.range'_append_1 1 (cn - 1) (tn - cn + 1)
    rw [e3, e2, ← e1] at this
    exact this.symm
  unfold pageNumbers
  rw [Int.toNat_ofNat, hsplit, List.filterMap_append, List.filterMap_cons,
    left_items _ _ cn rfl hcn h2, right_items _ _ cn tn rfl rfl hcn hle]
  simp only [pageItem_current]
  simp

theorem paginationItems_eq (c T : Int) (h1 : 1 ≤ c) (h2 : c ≤ T) (hT : 2 ≤ T) :
    paginationItems c T =
      .previous (c - 1) (c = 1) :: (leftOf c ++ .page c true :: rightOf c T) ++
        [.following (c + 1) (c = T)] := by
  have h : ¬ T ≤ 1 := by omega
  simp [paginationItems, h, pageNumbers_eq c T h1 h2]

theorem leftOf_count (c : Int) : (leftOf c).count .ellipsis ≤ 1 := by
  unfold leftOf
  split_ifs <;> simp [List.count_cons]

theorem rightOf_count (c T : Int) : (rightOf c T).count .ellipsis ≤ 1 := by
  unfold rightOf
  split_ifs <;> simp [List.count_cons]

theorem closed_form_no_adjacent (c T : Int) (p n : PaginationItem) (hp : p ≠ .ellipsis) :
    hasAdjacentEllipses (p :: (leftOf c ++ .page c true :: rightOf c T) ++ [n]) = false := by
  unfold leftOf rightOf
  cases p with
  | ellipsis => exact absurd rfl hp
  | previous t d => split_ifs <;> simp [hasAdjacentEllipses]
  | page i a => split_ifs <;> simp [hasAdjacentEllipses]
  | following t d => split_ifs <;> simp [hasAdjacentEllipses]

theorem closed_form_collapse (c T : Int) (h2 : c ≤ T) :
    leftOf c ++ .page c true :: rightOf c T =
      collapse c (pageLinks (leftOf c ++ .page c true :: rightOf c T)) := by
  unfold leftOf rightOf
  split_ifs <;>
    simp only [pageLinks, List.filterMap_cons, List.filterMap_nil, List.nil_append,
      List.cons_append, PaginationItem.number?, collapse] <;>
    (try split_ifs) <;>
    first
      | omega
      | (simp only [List.cons.injEq, PaginationItem.page.injEq, true_and, and_true,
          eq_self_iff_true, and_self]
         repeat' apply And.intro
         all_goals first | rfl | (symm; rw [decide_eq_false_iff_not]; omega))

theorem pageLinks_paginationItems (c T : Int) (h1 : 1 ≤ c) (h2 : c ≤ T) (hT : 2 ≤ T) :
    pageLinks (paginationItems c T) = pageLinks (leftOf c ++ .page c true :: rightOf c T) := by
  rw [paginationItems_eq c T h1 h2 hT]
  simp [pageLinks, PaginationItem.number?, List.filterMap_append]

theorem mem_pageNumbers (c T : Int) (i : Nat) (x : PaginationItem) (h1 : 1 ≤ i)
    (h2 : i ≤ T.toNat) (hx : pageItem c T i = some x) : x ∈ pageNumbers c T := by
  unfold pageNumbers
  rw [List.mem_filterMap]
  exact ⟨i, by rw [List.mem_range'_1]; omega, hx⟩

theorem first_last_mem (c T : Int) (hT : 2 ≤ T) :
    (∃ active, PaginationItem.page 1 active ∈ paginationItems c T) ∧
      (∃ active, PaginationItem.page T active ∈ paginationItems c T) := by
  have h : ¬ T ≤ 1 := by omega
  have hin : ∀ x, x ∈ pageNumbers c T → x ∈ paginationItems c T := by
    intro x hx
    simp [paginationItems, h, hx]
  have e1 : pageItem c T ((1 : Nat) : Int) = some (.page 1 (decide ((1 : Int) = c))) := by
    have h1 : ((1 : Nat) : Int) = 1 ∨ ((1 : Nat) : Int) = T ∨
        (((1 : Nat) : Int) ≥ c - 1 ∧ ((1 : Nat) : Int) ≤ c + 1) := Or.inl rfl
    rw [pageItem, if_pos h1]
    simp
  have e2 : pageItem c T ((T.toNat : Nat) : Int) = some (.page T (decide (T = c))) := by
    have hval : ((T.toNat : Nat) : Int) = T := Int.toNat_of_nonneg (by omega)
    rw [hval]
    have h1 : T = 1 ∨ T = T ∨ (T ≥ c - 1 ∧ T ≤ c + 1) := Or.inr (Or.inl rfl)
    rw [pageItem, if_pos h1]
  exact ⟨⟨decide ((1 : Int) = c),
      hin _ (mem_pageNumbers c T 1 _ (le_refl 1) (by omega) e1)⟩,
    ⟨decide (T = c), hin _ (mem_pageNumbers c T T.toNat _ (by omega) (le_refl _) e2)⟩⟩

/-- C14, amended. For every `totalPages ≥ 2` and every page index, the control
`setupPagination` renders holds a link to page 1 and a link to page
`totalPages`, on the user page and on the admin page. -/
theorem paginationItems_first_last (c T : Int) (hT : 2 ≤ T) :
    ((∃ active, PaginationItem.page 1 active ∈ paginationItems c T) ∧
      (∃ active, PaginationItem.page T active ∈ paginationItems c T)) ∧
    (∀ s : PageState, s.currentPage = c → totalPages s.allFiles = T →
      (∃ active, PaginationItem.page 1 active ∈ setupPagination s) ∧
        (∃ active, PaginationItem.page (totalPages s.allFiles) active ∈ setupPagination s)) ∧
    (∀ s : PageState, s.currentPage = c → Admin.totalPages s.allFiles = T →
      (∃ active, PaginationItem.page 1 active ∈ Admin.setupPagination s) ∧
        (∃ active, PaginationItem.page (Admin.totalPages s.allFiles) active ∈
          Admin.setupPagination s)) := by
  refine ⟨first_last_mem c T hT, fun s hc hs => ?_, fun s hc hs => ?_⟩
  · unfold setupPagination
    rw [hc, hs]
    exact first_last_mem c T hT
  · unfold Admin.setupPagination
    rw [hc, hs]
    exact first_last_mem c T hT

/-- C15. For every `totalPages` and every valid page index, the control
`setupPagination` renders never holds two ellipses next to each other; between
the previous and the next button it is the links before the current page, the
link of the current page and the links after it, with at most one ellipsis
before and at most one after; and it is the row of its page links with exactly
one ellipsis wherever two consecutive links skip a page and none where they do
not. -/
theorem paginationItems_ellipses (c T : Int) (h1 : 1 ≤ c) (h2 : c ≤ T) :
    hasAdjacentEllipses (paginationItems c T) = false ∧
      (2 ≤ T →
        ∃ before after : List PaginationItem,
          paginationItems c T =
            .previous (c - 1) (c = 1) :: (before ++ .page c true :: after) ++
              [.following (c + 1) (c = T)] ∧
          before.count .ellipsis ≤ 1 ∧ after.count .ellipsis ≤ 1 ∧
          before ++ .page c true :: after =
            collapse c (pageLinks (paginationItems c T))) ∧
      (∀ s : PageState, setupPagination s = paginationItems s.currentPage (totalPages s.allFiles) ∧
        Admin.setupPagination s =
          paginationItems s.currentPage (Admin.totalPages s.allFiles)) := by
  refine ⟨?_, fun hT => ?_, fun s => ⟨rfl, rfl⟩⟩
  · by_cases hT : T ≤ 1
    · simp [paginationItems, hT, hasAdjacentEllipses]
    · rw [paginationItems_eq c T h1 h2 (by omega)]
      exact closed_form_no_adjacent c T _ _ (by simp)
  · refine ⟨leftOf c, rightOf c T, paginationItems_eq c T h1 h2 hT, leftOf_count c,
      rightOf_count c T, ?_⟩
    rw [pageLinks_paginationItems c T h1 h2 hT]
    exact closed_form_collapse c T h2

/-- C16. For every `totalPages ≥ 2` and every valid page index, the page
numbers of the links `setupPagination` renders are strictly increasing, hence
without duplicates, and they are exactly page 1, page `totalPages` and the
existing pages within distance 1 of the page index. -/
theorem pageLinks_exact (c T : Int) (hT : 2 ≤ T) (h1 : 1 ≤ c) (h2 : c ≤ T) :
    (pageLinks (paginationItems c T)).Pairwise (fun a b => a < b) ∧
      (pageLinks (paginationItems c T)).Nodup ∧
      (∀ i : Int, i ∈ pageLinks (paginationItems c T) ↔
        (i = 1 ∨ i = T ∨ (1 ≤ i ∧ i ≤ T ∧ c - 1 ≤ i ∧ i ≤ c + 1))) ∧
      (∀ s : PageState, setupPagination s = paginationItems s.currentPage (totalPages s.allFiles) ∧
        Admin.setupPagination s =
          paginationItems s.currentPage (Admin.totalPages s.allFiles)) := by
  have hsorted : (pageLinks (paginationItems c T)).Pairwise (fun a b => a < b) := by
    rw [pageLinks_paginationItems c T h1 h2 hT]
    unfold leftOf rightOf
    split_ifs <;>
      simp only [pageLinks, List.filterMap_cons, List.filterMap_nil, List.nil_append,
        List.cons_append, PaginationItem.number?, List.pairwise_cons, List.mem_cons,
        List.mem_singleton, List.not_mem_nil, forall_eq_or_imp, forall_eq, List.Pairwise.nil,
        and_true, IsEmpty.forall_iff, implies_true, or_false] <;>
      omega
  refine ⟨hsorted, ?_, ?_, fun s => ⟨rfl, rfl⟩⟩
  · exact hsorted.imp (fun {a b} hab => ne_of_lt hab)
  · intro i
    rw [pageLinks_paginationItems c T h1 h2 hT]
    unfold leftOf rightOf
    split_ifs <;>
      simp only [pageLinks, List.filterMap_cons, List.filterMap_nil, List.nil_append,
        List.cons_append, PaginationItem.number?, List.mem_cons, List.mem_singleton,
        List.not_mem_nil, or_false] <;>
      omega

/-- C14 fails as stated: with five records loaded there is one page, the page
index 1 is valid, and `setupPagination` renders nothing, page 1 included. -/
theorem setupPagination_single_page_counterexample :
    totalPages fiveLoaded.allFiles = 1 ∧ pageInRange fiveLoaded ∧
      setupPagination fiveLoaded = [] ∧
      Admin.totalPages fiveLoaded.allFiles = 1 ∧ Admin.setupPagination fiveLoaded = [] := by
  decide

/-- The theorem of C14 at page 5 of 9. -/
theorem paginationItems_first_last_witness :
    paginationItems 5 9 =
      [.previous 4 false, .page 1 false, .ellipsis, .page 4 false, .page 5 true,
        .page 6 false, .ellipsis, .page 9 false, .following 6 false] ∧
    (((∃ active, PaginationItem.page 1 active ∈ paginationItems 5 9) ∧
      (∃ active, PaginationItem.page 9 active ∈ paginationItems 5 9)) ∧
    (∀ s : PageState, s.currentPage = 5 → totalPages s.allFiles = 9 →
      (∃ active, PaginationItem.page 1 active ∈ setupPagination s) ∧
        (∃ active, PaginationItem.page (totalPages s.allFiles) active ∈ setupPagination s)) ∧
    (∀ s : PageState, s.currentPage = 5 → Admin.totalPages s.allFiles = 9 →
      (∃ active, PaginationItem.page 1 active ∈ Admin.setupPagination s) ∧
        (∃ active, PaginationItem.page (Admin.totalPages s.allFiles) active ∈
          Admin.setupPagination s))) :=
  ⟨by decide, paginationItems_first_last 5 9 (by decide)⟩

/-- The theorem of C15 at page 4 of 9, where the ellipsis on the left stands
for page 2 alone. -/
theorem paginationItems_ellipses_witness :
    paginationItems 4 9 =
      [.previous 3 false, .page 1 false, .ellipsis, .page 3 false, .page 4 true,
        .page 5 false, .ellipsis, .page 9 false, .following 5 false] ∧
    (hasAdjacentEllipses (paginationItems 4 9) = false ∧
      (2 ≤ (9 : Int) →
        ∃ before after : List PaginationItem,
          paginationItems 4 9 =
            .previous (4 - 1) ((4 : Int) = 1) :: (before ++ .page 4 true :: after) ++
              [.following (4 + 1) ((4 : Int) = 9)] ∧
          before.count .ellipsis ≤ 1 ∧ after.count .ellipsis ≤ 1 ∧
          before ++ .page 4 true :: after =
            collapse 4 (pageLinks (paginationItems 4 9))) ∧
      (∀ s : PageState, setupPagination s = paginationItems s.currentPage (totalPages s.allFiles) ∧
        Admin.setupPagination s =
          paginationItems s.currentPage (Admin.totalPages s.allFiles))) :=
  ⟨by decide, paginationItems_ellipses 4 9 (by decide) (by decide)⟩

/-- The theorem of C16 at page 8 of 9. -/
theorem pageLinks_exact_witness :
    pageLinks (paginationItems 8 9) = [1, 7, 8, 9] ∧
    ((pageLinks (paginationItems 8 9)).Pairwise (fun a b => a < b) ∧
      (pageLinks (paginationItems 8 9)).Nodup ∧
      (∀ i : Int, i ∈ pageLinks (paginationItems 8 9) ↔
        (i = 1 ∨ i = 9 ∨ (1 ≤ i ∧ i ≤ 9 ∧ 8 - 1 ≤ i ∧ i ≤ 8 + 1))) ∧
      (∀ s : PageState, setupPagination s = paginationItems s.currentPage (totalPages s.allFiles) ∧
        Admin.setupPagination s =
          paginationItems s.currentPage (Admin.totalPages s.allFiles))) :=
  ⟨by decide, pageLinks_exact 8 9 (by decide) (by decide) (by decide)⟩

/-! ## Numbers: rounding to the nearest double -/

theorem log2Aux_spec : ∀ (fuel n : Nat), n ≤ fuel → 0 < n →
    2 ^ log2Aux fuel n ≤ n ∧ n < 2 ^ (log2Aux fuel n + 1)
  | 0, n, h, hn => by omega
  | fuel + 1, n, h, hn => by
    simp only [log2Aux]
    split_ifs with h2
    · have h1 : n = 1 := by omega
      subst h1
      simp
    · obtain ⟨ih1, ih2⟩ := log2Aux_spec fuel (n / 2) (by omega) (by omega)
      rw [pow_succ, pow_succ]
      rw [pow_succ] at ih2
      constructor <;> omega

theorem log2_spec (n : Nat) (hn : 0 < n) : 2 ^ log2 n ≤ n ∧ n < 2 ^ (log2 n + 1) :=
  log2Aux_spec n n (le_refl n) hn

theorem roundHalfEven_near (n d : Nat) (hd : 0 < d) :
    2 * roundHalfEven n d * d ≤ 2 * n + d ∧ 2 * n ≤ 2 * roundHalfEven n d * d + d := by
  have h := Nat.div_add_mod n d
  have hr := Nat.mod_lt n hd
  unfold roundHalfEven
  generalize n / d = q at h ⊢
  generalize n % d = r at h hr ⊢
  subst h
  have e1 : 2 * q * d = 2 * (d * q) := by ring
  have e2 : 2 * (q + 1) * d = 2 * (d * q) + 2 * d := by ring
  split_ifs <;> simp only [e1, e2] <;> constructor <;> omega

theorem roundHalfEven_near_rat (n d : Nat) (hd : 0 < d) :
    (n : ℚ) / d - 1 / 2 ≤ roundHalfEven n d ∧ (roundHalfEven n d : ℚ) ≤ (n : ℚ) / d + 1 / 2 := by
  obtain ⟨h1, h2⟩ := roundHalfEven_near n d hd
  have hd0 : (0 : ℚ) < d := by exact_mod_cast hd
  have h1q : (2 : ℚ) * roundHalfEven n d * d ≤ 2 * n + d := by exact_mod_cast h1
  have h2q : (2 : ℚ) * n ≤ 2 * roundHalfEven n d * d + d := by exact_mod_cast h2
  constructor
  · rw [sub_le_iff_le_add, div_le_iff₀ hd0]
    nlinarith
  · rw [← sub_le_iff_le_add, le_div_iff₀ hd0]
    nlinarith

theorem nearestDouble_den_pos (n d : Nat) : 0 < (nearestDouble n d).2 := by
  unfold nearestDouble
  by_cases hn : n = 0
  · simp [hn]
  · simp only [hn, if_false]
    split_ifs <;> dsimp only <;> positivity

theorem binade_bounds (n d U D Lp Mp P : ℚ) (hU : 0 < U) (hD : 0 < D) (hP : 0 < P)
    (hL1 : Lp ≤ n) (hL2 : n < 2 * Lp) (hM1 : Mp ≤ d) (hM2 : d < 2 * Mp)
    (hE : Lp * U = P * Mp * D) :
    P * (d * D) ≤ 2 * (n * U) ∧ n * U < 2 * P * (d * D) := by
  have h1 : Lp * U ≤ n * U := mul_le_mul_of_nonneg_right hL1 hU.le
  have h2 : n * U < 2 * Lp * U := mul_lt_mul_of_pos_right hL2 hU
  have h3 : Mp * D ≤ d * D := mul_le_mul_of_nonneg_right hM1 hD.le
  have h4 : d * D < 2 * Mp * D := mul_lt_mul_of_pos_right hM2 hD
  have h5 : P * (Mp * D) ≤ P * (d * D) := mul_le_mul_of_nonneg_left h3 hP.le
  have h6 : P * (d * D) < P * (2 * Mp * D) := mul_lt_mul_of_pos_left h4 hP
  constructor
  · have e : P * (2 * Mp * D) = 2 * (P * Mp * D) := by ring
    rw [e, ← hE] at h6
    linarith
  · have e1 : 2 * Lp * U = 2 * (Lp * U) := by ring
    have e2 : P * (Mp * D) = P * Mp * D := by ring
    rw [e1, hE] at h2
    rw [e2] at h5
    linarith

theorem rounds_of_scaled (x y S : ℚ) (k : ℤ) (a b m : ℕ) (P : ℚ) (hx : 0 < x) (hb : 0 < b)
    (hP52 : P = 2 ^ 52) (hS : (2 : ℚ) ^ k = S) (hy : y = m / S) (hxs : x * S = (a : ℚ) / b)
    (hlo : P * b ≤ a) (hhi : (a : ℚ) < 2 * P * b)
    (r1 : (a : ℚ) / b - 1 / 2 ≤ m) (r2 : (m : ℚ) ≤ (a : ℚ) / b + 1 / 2) : Rounds x y := by
  have hbq : (0 : ℚ) < b := by exact_mod_cast hb
  right
  refine ⟨hx, m, k, ?_, ?_, ?_, ?_, ?_⟩
  · rw [hS, hy]
  · rw [hS, hxs, le_div_iff₀ hbq, ← hP52]
    exact hlo
  · rw [hS, hxs, div_lt_iff₀ hbq, pow_succ, ← hP52, mul_comm P 2]
    exact hhi
  · rw [hS, hxs]; exact r1
  · rw [hS, hxs]; exact r2

theorem nearestDouble_rounds (n d : Nat) (hd : 0 < d) :
    Rounds ((n : ℚ) / d) (((nearestDouble n d).1 : ℚ) / ((nearestDouble n d).2 : ℚ)) := by
  by_cases hn : n = 0
  · left
    subst hn
    simp [nearestDouble]
  · have hn0 : 0 < n := Nat.pos_of_ne_zero hn
    obtain ⟨hL1, hL2⟩ := log2_spec n hn0
    obtain ⟨hM1, hM2⟩ := log2_spec d hd
    have hnq : (0 : ℚ) < n := by exact_mod_cast hn0
    have hdq : (0 : ℚ) < d := by exact_mod_cast hd
    have hL1q : (2 : ℚ) ^ log2 n ≤ n := by exact_mod_cast hL1
    have hL2q : (n : ℚ) < 2 * 2 ^ log2 n := by
      rw [pow_succ, mul_comm] at hL2
      exact_mod_cast hL2
    have hM1q : (2 : ℚ) ^ log2 d ≤ d := by exact_mod_cast hM1
    have hM2q : (d : ℚ) < 2 * 2 ^ log2 d := by
      rw [pow_succ, mul_comm] at hM2
      exact_mod_cast hM2
    have hexp : log2 n + (52 + log2 d - log2 n) = 52 + log2 d + (log2 n - (52 + log2 d)) := by
      omega
    have hE : (2 : ℚ) ^ log2 n * 2 ^ (52 + log2 d - log2 n) =
        2 ^ 52 * 2 ^ log2 d * 2 ^ (log2 n - (52 + log2 d)) := by
      rw [← pow_add, ← pow_add, ← pow_add, hexp]
    unfold nearestDouble
    simp only [hn, if_false]
    generalize 52 + log2 d - log2 n = up at hE ⊢
    generalize log2 n - (52 + log2 d) = down at hE ⊢
    have hU : (0 : ℚ) < 2 ^ up := by positivity
    have hD : (0 : ℚ) < 2 ^ down := by positivity
    have hP : (0 : ℚ) < 2 ^ 52 := by positivity
    obtain ⟨b1, b2⟩ := binade_bounds n d (2 ^ up) (2 ^ down) (2 ^ log2 n) (2 ^ log2 d) (2 ^ 52)
      hU hD hP hL1q hL2q hM1q hM2q hE
    have hk : (2 : ℚ) ^ ((up : ℤ) - down) = 2 ^ up / 2 ^ down := by
      rw [zpow_sub₀ (two_ne_zero), zpow_natCast, zpow_natCast]
    have hk1 : (2 : ℚ) ^ ((up : ℤ) - down + 1) = 2 * 2 ^ up / 2 ^ down := by
      rw [zpow_add_one₀ (two_ne_zero), hk]
      ring
    have hb : 0 < d * 2 ^ down := Nat.mul_pos hd (Nat.pow_pos (by decide))
    split_ifs with hlt
    · obtain ⟨r1, r2⟩ := roundHalfEven_near_rat (2 * (n * 2 ^ up)) (d * 2 ^ down) hb
      have hltq : (n : ℚ) * 2 ^ up < 2 ^ 52 * (d * 2 ^ down) := by exact_mod_cast hlt
      refine rounds_of_scaled _ _ (2 * 2 ^ up / 2 ^ down) ((up : ℤ) - down + 1)
        (2 * (n * 2 ^ up)) (d * 2 ^ down) _ (2 ^ 52) (div_pos hnq hdq) hb rfl hk1 ?_ ?_ ?_ ?_
        r1 r2
      · push_cast
        field_simp
      · push_cast
        field_simp
        ring
      · push_cast
        exact b1
      · push_cast
        linarith
    · obtain ⟨r1, r2⟩ := roundHalfEven_near_rat (n * 2 ^ up) (d * 2 ^ down) hb
      have hgeq : (2 : ℚ) ^ 52 * (d * 2 ^ down) ≤ n * 2 ^ up := by
        have := not_lt.1 hlt
        exact_mod_cast this
      refine rounds_of_scaled _ _ (2 ^ up / 2 ^ down) ((up : ℤ) - down)
        (n * 2 ^ up) (d * 2 ^ down) _ (2 ^ 52) (div_pos hnq hdq) hb rfl hk ?_ ?_ ?_ ?_
        r1 r2
      · push_cast
        field_simp
      · push_cast
        field_simp
      · push_cast
        exact hgeq
      · push_cast
        exact b2

theorem Double.nearest_rounds (n : Int) (d : Nat) (hn : 0 ≤ n) (hd : 0 < d) :
    Rounds ((n : ℚ) / d) (Double.nearest n d).toRat ∧ 0 ≤ (Double.nearest n d).num ∧
      0 < (Double.nearest n d).den := by
  obtain ⟨k, rfl⟩ := Int.eq_ofNat_of_zero_le hn
  have h := nearestDouble_rounds k d hd
  have hneg : ¬ ((k : Int) < 0) := by omega
  simp only [Double.nearest, Int.natAbs_ofNat, hneg, if_false, Double.toRat]
  exact ⟨by simpa using h, Int.natCast_nonneg _, nearestDouble_den_pos k d⟩

theorem Double.mul_rounds (x y : Double) (hx : 0 ≤ x.num) (hy : 0 ≤ y.num) (hxd : 0 < x.den)
    (hyd : 0 < y.den) :
    Rounds (x.toRat * y.toRat) (Double.mul x y).toRat ∧ 0 ≤ (Double.mul x y).num ∧
      0 < (Double.mul x y).den := by
  have h := Double.nearest_rounds (x.num * y.num) (x.den * y.den) (Int.mul_nonneg hx hy)
    (Nat.mul_pos hxd hyd)
  have e : (((x.num * y.num : Int) : ℚ)) / ((x.den * y.den : ℕ) : ℚ) = x.toRat * y.toRat := by
    unfold Double.toRat
    push_cast
    rw [mul_div_mul_comm]
  rw [e] at h
  exact h

theorem Double.div_rounds (x y : Double) (hx : 0 ≤ x.num) (hy : 0 < y.num) (hxd : 0 < x.den) :
    Rounds (x.toRat / y.toRat) (Double.div x y).toRat ∧ 0 ≤ (Double.div x y).num ∧
      0 < (Double.div x y).den := by
  have hs : y.num.sign = 1 := Int.sign_eq_one_of_pos hy
  have hyn : 0 < y.num.natAbs := Int.natAbs_pos.2 (ne_of_gt hy)
  have h := Double.nearest_rounds (x.num * y.den * y.num.sign) (x.den * y.num.natAbs)
    (by rw [hs, mul_one]; exact Int.mul_nonneg hx (Int.natCast_nonneg _))
    (Nat.mul_pos hxd hyn)
  have hcast : ((y.num.natAbs : ℕ) : ℚ) = (y.num : ℚ) := by
    rw [← Int.cast_natCast, Int.natAbs_of_nonneg hy.le]
  have e : (((x.num * y.den * y.num.sign : Int) : ℚ)) / ((x.den * y.num.natAbs : ℕ) : ℚ) =
      x.toRat / y.toRat := by
    unfold Double.toRat
    rw [hs]
    push_cast
    rw [hcast, mul_one, div_div_div_eq]
  rw [e] at h
  exact h

theorem rounds_nonneg (x y : ℚ) (h : Rounds x y) : 0 ≤ y := by
  rcases h with ⟨_, hy⟩ | ⟨_, m, k, hy, _⟩
  · rw [hy]
  · rw [hy]
    positivity

theorem rounds_exact (x y : ℚ) (c : ℕ) (h : Rounds x y) (hx : x = c) (hc : c < 2 ^ 53) :
    y = c := by
  rcases h with ⟨hx0, hy⟩ | ⟨hpos, m, k, hy, hlo, hhi, r1, r2⟩
  · rw [hy, ← hx, hx0]
  · have hcq : (c : ℚ) < 2 ^ 53 := by exact_mod_cast hc
    have hk : 0 ≤ k := by
      by_contra hneg
      have hk1 : k ≤ -1 := by omega
      have h2 : (2 : ℚ) ^ k ≤ 2 ^ (-1 : ℤ) := zpow_le_zpow_right₀ (by norm_num) hk1
      have h3 : (2 : ℚ) ^ (-1 : ℤ) = 1 / 2 := by norm_num
      rw [h3] at h2
      have h4 : x * 2 ^ k ≤ x * (1 / 2) := mul_le_mul_of_nonneg_left h2 hpos.le
      have h5 : (2 : ℚ) ^ 53 = 2 * 2 ^ 52 := by rw [pow_succ]; ring
      rw [hx] at h4 hlo
      linarith
    obtain ⟨j, rfl⟩ := Int.eq_ofNat_of_zero_le hk
    rw [zpow_natCast] at hy hlo hhi r1 r2
    have hN : x * 2 ^ j = ((c * 2 ^ j : ℕ) : ℚ) := by rw [hx]; push_cast; ring
    rw [hN] at r1 r2
    have hm : m = c * 2 ^ j := by
      have a1 : ((c * 2 ^ j : ℕ) : ℚ) < (m : ℚ) + 1 := by linarith
      have a2 : (m : ℚ) < ((c * 2 ^ j : ℕ) : ℚ) + 1 := by linarith
      have b1 : c * 2 ^ j < m + 1 := by exact_mod_cast a1
      have b2 : m < c * 2 ^ j + 1 := by exact_mod_cast a2
      omega
    rw [hy, hm]
    push_cast
    field_simp

theorem rounds_error (x y : ℚ) (h : Rounds x y) :
    x - x / 2 ^ 53 ≤ y ∧ y ≤ x + x / 2 ^ 53 := by
  rcases h with ⟨hx0, hy⟩ | ⟨hpos, m, k, hy, hlo, hhi, r1, r2⟩
  · rw [hy, hx0]; simp
  · have hS : (0 : ℚ) < 2 ^ k := by positivity
    generalize (2 : ℚ) ^ k = S at hy hlo hhi r1 r2 hS
    have h53 : (2 : ℚ) ^ 53 = 2 * 2 ^ 52 := by rw [pow_succ]; ring
    have hP : (0 : ℚ) < 2 ^ 52 := by positivity
    rw [h53]
    generalize (2 : ℚ) ^ 52 = P at hlo hP
    have hyS : y * S = m := by
      rw [hy]; field_simp
    have hxP : 1 / 2 ≤ x / (2 * P) * S := by
      have e : x / (2 * P) * S = x * S / (2 * P) := by ring
      rw [e, le_div_iff₀ (by positivity)]
      linarith
    constructor
    · have h1 : (x - x / (2 * P)) * S ≤ y * S := by
        rw [sub_mul, hyS]
        linarith
      exact le_of_mul_le_mul_right h1 hS
    · have h1 : y * S ≤ (x + x / (2 * P)) * S := by
        rw [add_mul, hyS]
        linarith
      exact le_of_mul_le_mul_right h1 hS

theorem rounds_grid (x y : ℚ) (h : Rounds x y) (hx : x < 128) :
    (∀ g : ℤ, (g : ℚ) / 2 ≤ x → (g : ℚ) / 2 ≤ y) ∧
      (∀ c : ℚ, x + 1 / 2 ^ 47 < c → y < c) := by
  rcases h with ⟨hx0, hy⟩ | ⟨hpos, m, k, hy, hlo, hhi, r1, r2⟩
  · rw [hy, hx0]
    refine ⟨fun g hg => hg, fun c hc => ?_⟩
    have : (0 : ℚ) < 1 / 2 ^ 47 := by positivity
    linarith
  · have hk : 46 ≤ k := by
      have h1 : (2 : ℚ) ^ (52 : ℤ) < 2 ^ (k + 7) := by
        rw [zpow_add₀ (two_ne_zero)]
        have h128 : (2 : ℚ) ^ (7 : ℤ) = 128 := by norm_num
        have h52 : (2 : ℚ) ^ (52 : ℤ) = 2 ^ 52 := by norm_num
        rw [h128, h52]
        have hS : (0 : ℚ) < 2 ^ k := by positivity
        have : x * 2 ^ k < 128 * 2 ^ k := mul_lt_mul_of_pos_right hx hS
        linarith
      have h2 := (zpow_lt_zpow_iff_right₀ (by norm_num : (1 : ℚ) < 2)).1 h1
      omega
    obtain ⟨j, hj⟩ : ∃ j : ℕ, k = 46 + j := ⟨(k - 46).toNat, by omega⟩
    have hS : (2 : ℚ) ^ k = 2 ^ 46 * 2 ^ j := by
      rw [hj, zpow_add₀ (two_ne_zero), zpow_natCast]
      norm_num
    rw [hS] at hy hlo hhi r1 r2
    have hJ : (0 : ℚ) < 2 ^ j := by positivity
    have hJ1 : (1 : ℚ) ≤ 2 ^ j := one_le_pow₀ (by norm_num)
    have h46 : (2 : ℚ) ^ 46 = 2 * 2 ^ 45 := by rw [pow_succ]; ring
    have h47 : (2 : ℚ) ^ 47 = 2 * (2 * 2 ^ 45) := by rw [pow_succ, pow_succ]; ring
    have hQ : (0 : ℚ) < 2 ^ 45 := by positivity
    constructor
    · intro g hg
      -- the grid point scaled is the integer `g * 2 ^ 45 * 2 ^ j`
      have hN : (g : ℚ) / 2 * (2 ^ 46 * 2 ^ j) = ((g * 2 ^ 45 * 2 ^ j : ℤ) : ℚ) := by
        rw [h46]; push_cast; ring
      have h1 : (g : ℚ) / 2 * (2 ^ 46 * 2 ^ j) ≤ x * (2 ^ 46 * 2 ^ j) :=
        mul_le_mul_of_nonneg_right hg (by positivity)
      rw [hN] at h1
      have a1 : ((g * 2 ^ 45 * 2 ^ j : ℤ) : ℚ) < ((m : ℤ) : ℚ) + 1 := by
        push_cast at h1 ⊢
        linarith
      have b1 : g * 2 ^ 45 * 2 ^ j < (m : ℤ) + 1 := by exact_mod_cast a1
      have b2 : g * 2 ^ 45 * 2 ^ j ≤ (m : ℤ) := by omega
      have c2 : ((g * 2 ^ 45 * 2 ^ j : ℤ) : ℚ) ≤ ((m : ℤ) : ℚ) := by exact_mod_cast b2
      rw [hy, le_div_iff₀ (by positivity), hN]
      exact_mod_cast c2
    · intro c hc
      rw [hy, div_lt_iff₀ (by positivity)]
      have h1 : (x + 1 / 2 ^ 47) * (2 ^ 46 * 2 ^ j) < c * (2 ^ 46 * 2 ^ j) :=
        mul_lt_mul_of_pos_right hc (by positivity)
      have h2 : (1 : ℚ) / 2 ^ 47 * (2 ^ 46 * 2 ^ j) = 2 ^ j / 2 := by
        rw [h47, h46]; field_simp; ring
      rw [add_mul, h2] at h1
      linarith

theorem Math.round_eq_floor (x : Double) (hd : 0 < x.den) :
    Math.round x = ⌊x.toRat + 1 / 2⌋ := by
  have hdq : (0 : ℚ) < x.den := by exact_mod_cast hd
  have e : x.toRat + 1 / 2 = ((2 * x.num + x.den : ℤ) : ℚ) / ((2 * x.den : ℕ) : ℚ) := by
    unfold Double.toRat
    push_cast
    field_simp
    ring
  rw [e, Rat.floor_intCast_div_natCast]
  unfold Math.round
  push_cast
  rfl

theorem Math.round_eq_iff (x : Double) (hd : 0 < x.den) (p : ℤ) :
    Math.round x = p ↔ (p : ℚ) - 1 / 2 ≤ x.toRat ∧ x.toRat < p + 1 / 2 := by
  rw [Math.round_eq_floor x hd, Int.floor_eq_iff]
  constructor
  · rintro ⟨h1, h2⟩; constructor <;> linarith
  · rintro ⟨h1, h2⟩; constructor <;> linarith

/-! ## Percentages -/

theorem roundDiv_bounds (a b : Int) (hb : 0 < b) :
    2 * roundDiv a b * b ≤ 2 * a + b ∧ 2 * a + b < 2 * (roundDiv a b + 1) * b := by
  unfold roundDiv
  have h2b : 0 < 2 * b := by omega
  have h1 := Int.ediv_mul_le (2 * a + b) (ne_of_gt h2b)
  have h2 := Int.lt_ediv_add_one_mul_self (2 * a + b) h2b
  constructor
  · calc 2 * ((2 * a + b) / (2 * b)) * b = (2 * a + b) / (2 * b) * (2 * b) := by ring
      _ ≤ 2 * a + b := h1
  · calc 2 * a + b < ((2 * a + b) / (2 * b) + 1) * (2 * b) := h2
      _ = 2 * ((2 * a + b) / (2 * b) + 1) * b := by ring

theorem Double.ofInt_exact (n : Int) (h0 : 0 ≤ n) (h : n < 2 ^ 53) :
    (Double.ofInt n).toRat = n ∧ 0 ≤ (Double.ofInt n).num ∧ 0 < (Double.ofInt n).den := by
  obtain ⟨r, hn, hd⟩ := Double.nearest_rounds n 1 h0 Nat.one_pos
  refine ⟨?_, hn, hd⟩
  obtain ⟨c, rfl⟩ := Int.eq_ofNat_of_zero_le h0
  have hc : c < 2 ^ 53 := by exact_mod_cast h
  have e := rounds_exact _ _ c r (by simp) hc
  unfold Double.ofInt
  rw [e]
  simp

theorem Double.num_pos (x : Double) (hn : 0 ≤ x.num) (h : 0 < x.toRat) : 0 < x.num := by
  rcases lt_or_eq_of_le hn with h1 | h1
  · exact h1
  · unfold Double.toRat at h
    rw [← h1] at h
    simp at h

/-- The percentage of the upload page for a total below `2 ^ 46`: the exact
quotient rounded, a half going up. -/
theorem uploadProgress_eq_roundDiv (e : ProgressEvent) (hc : e.lengthComputable = true)
    (ht : 0 < e.total) (hl : e.loaded ≤ e.total) (hb : e.total < 2 ^ 46) :
    uploadProgress e = some (roundDiv (100 * e.loaded) e.total) := by
  have hguard : e.lengthComputable = true ∧ e.total ≠ 0 := ⟨hc, by omega⟩
  unfold uploadProgress
  rw [if_pos hguard, Option.some.injEq]
  have hlb : e.loaded < 2 ^ 46 := lt_of_le_of_lt hl hb
  obtain ⟨eL, nL, dL⟩ := Double.ofInt_exact e.loaded (by omega)
    (by have : (e.loaded : Int) < 2 ^ 46 := by exact_mod_cast hlb
        omega)
  obtain ⟨eC, nC, dC⟩ := Double.ofInt_exact 100 (by norm_num) (by norm_num)
  obtain ⟨eT, nT, dT⟩ := Double.ofInt_exact e.total (by omega)
    (by have : (e.total : Int) < 2 ^ 46 := by exact_mod_cast hb
        omega)
  have htq : (0 : ℚ) < e.total := by exact_mod_cast ht
  have pT : 0 < (Double.ofInt e.total).num := Double.num_pos _ nT (by rw [eT]; exact_mod_cast htq)
  obtain ⟨rP, nP, dP⟩ := Double.mul_rounds _ _ nL nC dL dC
  rw [eL, eC] at rP
  have eP : (Double.mul (Double.ofInt e.loaded) (Double.ofInt 100)).toRat =
      ((e.loaded * 100 : ℕ) : ℚ) :=
    rounds_exact _ _ (e.loaded * 100) rP (by push_cast; ring) (by omega)
  obtain ⟨rQ, nQ, dQ⟩ := Double.div_rounds _ _ nP pT dP
  rw [eP, eT] at rQ
  rw [Math.round_eq_iff _ dQ]
  generalize (Double.div (Double.mul (Double.ofInt e.loaded) (Double.ofInt 100))
    (Double.ofInt e.total)).toRat = y at rQ
  have hlq : (e.loaded : ℚ) ≤ e.total := by exact_mod_cast hl
  have hbq : (e.total : ℚ) < 2 ^ 46 := by exact_mod_cast hb
  have hx : (((e.loaded * 100 : ℕ) : ℚ)) / ((e.total : ℤ) : ℚ) < 128 := by
    rw [div_lt_iff₀ (by exact_mod_cast htq)]
    push_cast
    linarith
  obtain ⟨glo, ghi⟩ := rounds_grid _ _ rQ hx
  obtain ⟨b1, b2⟩ := roundDiv_bounds (100 * e.loaded) e.total (by exact_mod_cast ht)
  generalize roundDiv (100 * e.loaded) e.total = p at b1 b2 ⊢
  have b1q : (2 : ℚ) * p * e.total ≤ 2 * (100 * e.loaded) + e.total := by exact_mod_cast b1
  have b2i : 2 * (100 * (e.loaded : Int)) + e.total + 1 ≤ 2 * (p + 1) * e.total := by omega
  have b2q : (2 : ℚ) * (100 * e.loaded) + e.total + 1 ≤ 2 * (p + 1) * e.total := by
    exact_mod_cast b2i
  constructor
  · have h := glo (2 * p - 1) (by
      rw [le_div_iff₀ (by exact_mod_cast htq)]
      push_cast
      linarith)
    push_cast at h
    linarith
  · apply ghi
    rw [← sub_pos]
    have e1 : ((p : ℚ) + 1 / 2 - (((e.loaded * 100 : ℕ) : ℚ) / ((e.total : ℤ) : ℚ) + 1 / 2 ^ 47)) *
        (2 * e.total) = (2 * (p + 1) * e.total - (2 * (100 * e.loaded) + e.total)) -
          2 * e.total / 2 ^ 47 := by
      push_cast
      field_simp
      ring
    have h47 : (2 : ℚ) * e.total / 2 ^ 47 < 1 := by
      rw [div_lt_iff₀ (by positivity)]
      have : (2 : ℚ) ^ 47 = 2 * 2 ^ 46 := by rw [pow_succ]; ring
      linarith
    have hpos : 0 < ((p : ℚ) + 1 / 2 -
        (((e.loaded * 100 : ℕ) : ℚ) / ((e.total : ℤ) : ℚ) + 1 / 2 ^ 47)) * (2 * e.total) := by
      rw [e1]
      linarith
    have h2t : (0 : ℚ) < 2 * e.total := by positivity
    exact (mul_pos_iff_of_pos_right h2t).1 hpos

theorem roundDiv_mono (a c b : Int) (hb : 0 < b) (hac : a ≤ c) :
    roundDiv a b ≤ roundDiv c b := by
  unfold roundDiv
  exact Int.ediv_le_ediv (by omega) (by omega)

theorem roundDiv_nonneg (a b : Int) (ha : 0 ≤ a) (hb : 0 < b) : 0 ≤ roundDiv a b := by
  unfold roundDiv
  exact Int.ediv_nonneg (by omega) (by omega)

theorem roundDiv_le_hundred (loaded total : Int) (ht : 0 < total) (hl : loaded ≤ total) :
    roundDiv (loaded * 100) total ≤ 100 := by
  unfold roundDiv
  have h : (2 * (loaded * 100) + total) / (2 * total) < 101 :=
    Int.ediv_lt_of_lt_mul (by omega) (by omega)
  omega

/-- The percentage of the quick upload for a total below `2 ^ 44`: an integer
within one half of the exact quotient. -/
theorem quickUploadPercent_near (e : ProgressEvent) (hc : e.lengthComputable = true)
    (ht : 0 < e.total) (hl : e.loaded ≤ e.total) (hb : e.total < 2 ^ 44) :
    ∃ q : Int, quickUploadPercent e = some q ∧
      (2 * q - 1) * e.total ≤ 200 * e.loaded ∧ 200 * (e.loaded : Int) ≤ (2 * q + 1) * e.total := by
  have hguard : e.lengthComputable = true ∧ e.total ≠ 0 := ⟨hc, by omega⟩
  unfold quickUploadPercent
  rw [if_pos hguard]
  refine ⟨_, rfl, ?_⟩
  have hlb : e.loaded < 2 ^ 44 := lt_of_le_of_lt hl hb
  obtain ⟨eL, nL, dL⟩ := Double.ofInt_exact e.loaded (by omega)
    (by have : (e.loaded : Int) < 2 ^ 44 := by exact_mod_cast hlb
        omega)
  obtain ⟨eC, nC, dC⟩ := Double.ofInt_exact 100 (by norm_num) (by norm_num)
  obtain ⟨eT, nT, dT⟩ := Double.ofInt_exact e.total (by omega)
    (by have : (e.total : Int) < 2 ^ 44 := by exact_mod_cast hb
        omega)
  have htq : (0 : ℚ) < e.total := by exact_mod_cast ht
  have pT : 0 < (Double.ofInt e.total).num := Double.num_pos _ nT (by rw [eT]; exact_mod_cast htq)
  obtain ⟨rY, nY, dY⟩ := Double.div_rounds _ _ nL pT dL
  rw [eL, eT] at rY
  obtain ⟨rZ, nZ, dZ⟩ := Double.mul_rounds _ _ nY nC dY dC
  rw [eC] at rZ
  obtain ⟨z1, z2⟩ := (Math.round_eq_iff _ dZ _).1 rfl
  generalize Math.round (Double.mul (Double.div (Double.ofInt e.loaded) (Double.ofInt e.total))
    (Double.ofInt 100)) = q at z1 z2 ⊢
  generalize (Double.mul (Double.div (Double.ofInt e.loaded) (Double.ofInt e.total))
    (Double.ofInt 100)).toRat = z at rZ z1 z2
  generalize (Double.div (Double.ofInt e.loaded) (Double.ofInt e.total)).toRat = y at rY rZ
  obtain ⟨y1, y2⟩ := rounds_error _ _ rY
  have hK : (2 : ℚ) ^ 53 = 9007199254740992 := by norm_num
  have h47 : (2 : ℚ) ^ 47 = 140737488355328 := by norm_num
  have hlq : (e.loaded : ℚ) ≤ e.total := by exact_mod_cast hl
  have hl0 : (0 : ℚ) ≤ e.loaded := by positivity
  have hbq : (e.total : ℚ) < 17592186044416 := by
    have : e.total < 17592186044416 := by
      have h44 : (2 : ℕ) ^ 44 = 17592186044416 := by norm_num
      omega
    exact_mod_cast this
  have hX : ((e.loaded : ℤ) : ℚ) / ((e.total : ℤ) : ℚ) * e.total = e.loaded := by
    push_cast
    field_simp
  have hX1 : ((e.loaded : ℤ) : ℚ) / ((e.total : ℤ) : ℚ) ≤ 1 := by
    rw [div_le_one (by exact_mod_cast htq)]
    exact_mod_cast hlq
  have hX0 : 0 ≤ ((e.loaded : ℤ) : ℚ) / ((e.total : ℤ) : ℚ) := by positivity
  generalize ((e.loaded : ℤ) : ℚ) / ((e.total : ℤ) : ℚ) = X at rY y1 y2 hX hX1 hX0
  rw [hK] at y1 y2
  have hyt1 : (e.loaded : ℚ) - e.loaded / 9007199254740992 ≤ y * e.total := by
    have h := mul_le_mul_of_nonneg_right y1 htq.le
    have e1 : (X - X / 9007199254740992) * (e.total : ℚ) =
        X * e.total - X * e.total / 9007199254740992 := by ring
    rw [e1, hX] at h
    exact h
  have hyt2 : y * e.total ≤ (e.loaded : ℚ) + e.loaded / 9007199254740992 := by
    have h := mul_le_mul_of_nonneg_right y2 htq.le
    have e1 : (X + X / 9007199254740992) * (e.total : ℚ) =
        X * e.total + X * e.total / 9007199254740992 := by ring
    rw [e1, hX] at h
    exact h
  have hw : y * ((100 : ℤ) : ℚ) < 128 := by
    push_cast
    linarith
  obtain ⟨glo, ghi⟩ := rounds_grid _ _ rZ hw
  constructor
  · by_contra hneg
    have hi : 200 * (e.loaded : Int) + 1 ≤ (2 * q - 1) * e.total := by omega
    have hiq : 200 * (e.loaded : ℚ) + 1 ≤ (2 * q - 1) * e.total := by exact_mod_cast hi
    have hz : z < (q : ℚ) - 1 / 2 := by
      apply ghi
      rw [h47]
      have hm : (y * ((100 : ℤ) : ℚ) + 1 / 140737488355328) * e.total <
          ((q : ℚ) - 1 / 2) * e.total := by
        push_cast
        have e1 : (y * 100 + 1 / 140737488355328) * (e.total : ℚ) =
            100 * (y * e.total) + e.total / 140737488355328 := by ring
        have e2 : ((q : ℚ) - 1 / 2) * e.total = (2 * q - 1) * e.total / 2 := by ring
        rw [e1, e2]
        linarith
      exact lt_of_mul_lt_mul_right hm htq.le
    linarith
  · by_contra hneg
    have hi : (2 * q + 1) * (e.total : Int) + 1 ≤ 200 * e.loaded := by omega
    have hiq : (2 * q + 1) * (e.total : ℚ) + 1 ≤ 200 * e.loaded := by exact_mod_cast hi
    have hz : (((2 * q + 1 : ℤ)) : ℚ) / 2 ≤ z := by
      apply glo
      have hm : (((2 * q + 1 : ℤ)) : ℚ) / 2 * e.total ≤ y * ((100 : ℤ) : ℚ) * e.total := by
        push_cast
        have e1 : y * 100 * (e.total : ℚ) = 100 * (y * e.total) := by ring
        have e2 : (2 * (q : ℚ) + 1) / 2 * e.total = (2 * q + 1) * e.total / 2 := by ring
        rw [e1, e2]
        linarith
      exact le_of_mul_le_mul_right hm htq
    push_cast at hz
    linarith

set_option maxRecDepth 1024 in
/-- C21 fails as stated. For the event with `loaded = 45387839994661` of
`total = 70368744177769`, where `100 * loaded / total` is below 64.5, the upload
page reports 65: the double quotient is 64.5 itself. And for 29 of 200, where
`100 * loaded / total` is 14.5, the upload page reports 15 and the quick upload
of the dashboard displays 14: the double product is below 14.5. -/
theorem uploadProgress_rounding_counterexample :
    uploadProgress ⟨true, 45387839994661, 70368744177769⟩ = some 65 ∧
      200 * (45387839994661 : Int) < (2 * 64 + 1) * 70368744177769 ∧
      uploadProgress ⟨true, 29, 200⟩ = some 15 ∧
      quickUploadPercent ⟨true, 29, 200⟩ = some 14 ∧
      200 * (29 : Int) = (2 * 14 + 1) * 200 := by
  decide

/-- C21, amended. For every progress event with a computable length,
`0 < total < 2 ^ 46` and `loaded ≤ total`, the percentage `API.uploadFile` of the
upload page reports is an integer between 0 and 100, it is `100 * loaded / total`
rounded to the nearest integer, a half going up, and it does not decrease when
`loaded` grows. For `total < 2 ^ 44` the percentage the quick upload of the
dashboard displays is an integer between 0 and 100 within one half of
`100 * loaded / total`, and it does not decrease when `loaded` grows. -/
theorem uploadProgress_percent (e : ProgressEvent) (hc : e.lengthComputable = true)
    (ht : 0 < e.total) (hl : e.loaded ≤ e.total) (hb : e.total < 2 ^ 46) :
    (∃ p : Int, uploadProgress e = some p ∧ 0 ≤ p ∧ p ≤ 100 ∧
      2 * p * e.total ≤ 2 * (100 * e.loaded) + e.total ∧
      2 * (100 * e.loaded) + e.total < 2 * (p + 1) * e.total ∧
      (∀ (loaded2 : Nat) (p2 : Int), e.loaded ≤ loaded2 → loaded2 ≤ e.total →
        uploadProgress { e with loaded := loaded2 } = some p2 → p ≤ p2)) ∧
    (e.total < 2 ^ 44 →
      ∃ q : Int, quickUploadPercent e = some q ∧ 0 ≤ q ∧ q ≤ 100 ∧
        (2 * q - 1) * e.total ≤ 200 * e.loaded ∧
        200 * (e.loaded : Int) ≤ (2 * q + 1) * e.total ∧
        (∀ (loaded2 : Nat) (q2 : Int), e.loaded ≤ loaded2 → loaded2 ≤ e.total →
          quickUploadPercent { e with loaded := loaded2 } = some q2 → q ≤ q2)) := by
  have hti : (0 : Int) < e.total := by exact_mod_cast ht
  have hli : (e.loaded : Int) ≤ e.total := by exact_mod_cast hl
  constructor
  · obtain ⟨b1, b2⟩ := roundDiv_bounds (100 * e.loaded) e.total hti
    refine ⟨roundDiv (100 * e.loaded) e.total, uploadProgress_eq_roundDiv e hc ht hl hb,
      roundDiv_nonneg _ _ (by omega) hti, ?_, b1, b2, ?_⟩
    · rw [mul_comm]
      exact roundDiv_le_hundred _ _ hti hli
    · intro loaded2 p2 hle hle2 hp2
      rw [uploadProgress_eq_roundDiv { e with loaded := loaded2 } hc ht hle2 hb,
        Option.some.injEq] at hp2
      rw [← hp2]
      apply roundDiv_mono _ _ _ hti
      have : (e.loaded : Int) ≤ loaded2 := by exact_mod_cast hle
      show 100 * (e.loaded : Int) ≤ 100 * (loaded2 : Int)
      omega
  · intro hb44
    obtain ⟨q, hq, n1, n2⟩ := quickUploadPercent_near e hc ht hl hb44
    refine ⟨q, hq, ?_, ?_, n1, n2, ?_⟩
    · by_contra hneg
      have h1 : 2 * q + 1 ≤ -1 := by omega
      have h2 : (2 * q + 1) * (e.total : Int) ≤ -1 * e.total :=
        Int.mul_le_mul_of_nonneg_right h1 hti.le
      omega
    · by_contra hneg
      have h1 : 201 ≤ 2 * q - 1 := by omega
      have h2 : 201 * (e.total : Int) ≤ (2 * q - 1) * e.total :=
        Int.mul_le_mul_of_nonneg_right h1 hti.le
      omega
    · intro loaded2 q2 hle hle2 hq2
      obtain ⟨q3, hq3, m1, m2⟩ :=
        quickUploadPercent_near { e with loaded := loaded2 } hc ht hle2 hb44
      rw [hq2, Option.some.injEq] at hq3
      subst hq3
      rcases Nat.eq_or_lt_of_le hle with heq | hlt
      · have hsame : ({ e with loaded := loaded2 } : ProgressEvent) = e := by
          cases e
          simp only at heq
          subst heq
          rfl
        rw [hsame, hq, Option.some.injEq] at hq2
        omega
      · have hlt2 : (e.loaded : Int) < loaded2 := by exact_mod_cast hlt
        have m2x : 200 * (loaded2 : Int) ≤ (2 * q2 + 1) * e.total := m2
        by_contra hneg
        have h1 : 2 * q2 + 1 ≤ 2 * q - 1 := by omega
        have h2 : (2 * q2 + 1) * (e.total : Int) ≤ (2 * q - 1) * e.total :=
          Int.mul_le_mul_of_nonneg_right h1 hti.le
        omega

set_option maxRecDepth 1024 in
/-- The theorem of C21 at `loaded = 2` of `total = 3`; one and two thirds give
33 and 67 on both pages, and one half of a percent gives 1 on the upload
page. -/
theorem uploadProgress_percent_witness :
    uploadProgress ⟨true, 1, 3⟩ = some 33 ∧ uploadProgress ⟨true, 2, 3⟩ = some 67 ∧
      uploadProgress ⟨true, 1, 200⟩ = some 1 ∧
      quickUploadPercent ⟨true, 1, 3⟩ = some 33 ∧ quickUploadPercent ⟨true, 2, 3⟩ = some 67 ∧
      (∃ p : Int, uploadProgress ⟨true, 2, 3⟩ = some p ∧ 0 ≤ p ∧ p ≤ 100 ∧
        2 * p * (3 : Nat) ≤ 2 * (100 * (2 : Nat)) + (3 : Nat) ∧
        2 * (100 * (2 : Nat)) + (3 : Nat) < 2 * (p + 1) * (3 : Nat) ∧
        (∀ (loaded2 : Nat) (p2 : Int), 2 ≤ loaded2 → loaded2 ≤ 3 →
          uploadProgress { (⟨true, 2, 3⟩ : ProgressEvent) with loaded := loaded2 } = some p2 →
          p ≤ p2)) ∧
      (∃ q : Int, quickUploadPercent ⟨true, 2, 3⟩ = some q ∧ 0 ≤ q ∧ q ≤ 100 ∧
        (2 * q - 1) * (3 : Nat) ≤ 200 * (2 : Nat) ∧
        200 * ((2 : Nat) : Int) ≤ (2 * q + 1) * (3 : Nat) ∧
        (∀ (loaded2 : Nat) (q2 : Int), 2 ≤ loaded2 → loaded2 ≤ 3 →
          quickUploadPercent { (⟨true, 2, 3⟩ : ProgressEvent) with loaded := loaded2 } =
            some q2 → q ≤ q2)) :=
  ⟨by decide, by decide, by decide, by decide, by decide,
   (uploadProgress_percent ⟨true, 2, 3⟩ rfl (by decide) (by decide) (by decide)).1,
   (uploadProgress_percent ⟨true, 2, 3⟩ rfl (by decide) (by decide) (by decide)).2
     (by decide)⟩

/-- C30. For every node size, `calculateStoragePercent` is at most 100; the
class computed for the storage bar is `warning` for every percentage above 80,
those above 95 included, and `healthy` otherwise, never `danger`; so it is for
the bar of every healthy node. -/
theorem storage_bar_class (bytes : Int) :
    calculateStoragePercent bytes ≤ 100 ∧
      (∀ p : Int, (80 < p → progressClass p = "warning") ∧
        (p ≤ 80 → progressClass p = "healthy") ∧ progressClass p ≠ "danger") ∧
      (∀ node : Node, node.status = "healthy" → node.size_bytes = bytes →
        nodeBarClass node ≠ "danger" ∧
        (80 < calculateStoragePercent bytes → nodeBarClass node = "warning") ∧
        (calculateStoragePercent bytes ≤ 80 → nodeBarClass node = "healthy")) := by
  have hclass : ∀ p : Int, (80 < p → progressClass p = "warning") ∧
      (p ≤ 80 → progressClass p = "healthy") ∧ progressClass p ≠ "danger" := by
    intro p
    unfold progressClass
    refine ⟨fun h => by simp [h], fun h => ?_, ?_⟩
    · have h1 : ¬ p > 80 := by omega
      have h2 : ¬ p > 95 := by omega
      simp [h1, h2]
    · split_ifs with h1 h2
      · decide
      · omega
      · decide
  refine ⟨min_le_right _ _, hclass, fun node hs hb => ?_⟩
  simp only [nodeBarClass, hs, if_true, hb]
  exact ⟨(hclass _).2.2, (hclass _).1, (hclass _).2.1⟩

set_option maxRecDepth 1024 in
/-- The theorem of C30 at a node of 96 MB, with nodes of 500 MB and 10 MB
beside it. -/
theorem storage_bar_class_witness :
    calculateStoragePercent (96 * 1024 * 1024) = 96 ∧
      nodeBarClass ⟨1, "healthy", 96 * 1024 * 1024, 3⟩ = "warning" ∧
      calculateStoragePercent (500 * 1024 * 1024) = 100 ∧
      nodeBarClass ⟨2, "healthy", 500 * 1024 * 1024, 3⟩ = "warning" ∧
      nodeBarClass ⟨3, "healthy", 10 * 1024 * 1024, 3⟩ = "healthy" ∧
      calculateStoragePercent (96 * 1024 * 1024) ≤ 100 :=
  ⟨by decide, by decide, by decide, by decide, by decide,
   (storage_bar_class (96 * 1024 * 1024)).1⟩

/-! ## The archive filter, searches in a row and empty reloads -/

/-- C22 fails as stated: with the filter value `archive`, `filterFiles` keeps
`photo.jpg`, whose extension is `jpg`. -/
theorem filterFiles_archive_counterexample :
    extensionOf (sampleFile 1 "photo.jpg" 1 1).original_filename = "jpg" ∧
      filterFiles "archive" [sampleFile 1 "photo.jpg" 1 1, sampleFile 2 "backup.zip" 2 2] =
        [sampleFile 1 "photo.jpg" 1 1, sampleFile 2 "backup.zip" 2 2] := by
  decide

/-- C22, amended. `filterFiles` has no archive category: with the filter value
`archive` it keeps every record; the records whose extension is one of zip,
rar, 7z, tar, gz are among those the filter `other` keeps. -/
theorem filterFiles_archive (allFiles : List FileRecord) :
    filterFiles "archive" allFiles = allFiles ∧
      (filterFiles "other" allFiles).filter (fun file =>
          decide (extensionOf file.original_filename ∈ ["zip", "rar", "7z", "tar", "gz"])) =
        allFiles.filter (fun file =>
          decide (extensionOf file.original_filename ∈ ["zip", "rar", "7z", "tar", "gz"])) := by
  constructor
  · have h : ("archive" : String) ≠ "all" := by decide
    have hk : ∀ e : String, keepsExtension "archive" e = true := fun e => rfl
    simp [filterFiles, h, hk]
  · have h : ("other" : String) ≠ "all" := by decide
    have hz : ∀ e : String, e ∈ ["zip", "rar", "7z", "tar", "gz"] →
        keepsExtension "other" e = true := by decide
    simp only [filterFiles, h, ne_eq, not_false_eq_true, if_true, List.filter_filter]
    apply List.filter_congr
    intro file _
    by_cases hm : extensionOf file.original_filename ∈ ["zip", "rar", "7z", "tar", "gz"]
    · simp [hm, hz _ hm]
    · simp [hm]

/-- C23, the code at two searches in a row: on `a.txt` and `b.txt`, the search
for `b` alone keeps `b.txt`, and the search for `b` after a search for `a` keeps
nothing; likewise on the admin page after a search for `a.t`. -/
theorem second_search_narrows :
    (run codePointCompare (initialState "date-desc" "all")
        [.load ⟨true, twoFiles⟩, .typeSearch "b", .search ⟨true, twoFiles⟩]).allFiles =
      [sampleFile 2 "b.txt" 30 100] ∧
    (run codePointCompare (initialState "date-desc" "all")
        [.load ⟨true, twoFiles⟩, .typeSearch "a", .search ⟨true, twoFiles⟩,
          .typeSearch "b", .search ⟨true, twoFiles⟩]).allFiles = [] ∧
    (Admin.handleSearch (typeSearch (Admin.handleSearch (typeSearch
        (Admin.loadFiles (initialState "" "") ⟨true, twoFiles⟩) "a.t") ⟨true, twoFiles⟩) "b")
      ⟨true, twoFiles⟩).allFiles = [] := by
  decide

/-- What the second of two searches keeps: the records that match both terms. -/
theorem handleSearch_twice (localeCompare : String → String → Int) (s : PageState)
    (r : Response) (t1 t2 : String) (h1 : trim (toLowerCase t1) ≠ "")
    (h2 : trim (toLowerCase t2) ≠ "") :
    (handleSearch localeCompare
        (typeSearch (handleSearch localeCompare (typeSearch s t1) r) t2) r).allFiles =
      s.allFiles.filter (fun file =>
        includes (toLowerCase file.original_filename) (trim (toLowerCase t1)) &&
          includes (toLowerCase file.original_filename) (trim (toLowerCase t2))) := by
  rw [handleSearch_allFiles _ _ _ h2]
  show List.filter _ (handleSearch localeCompare (typeSearch s t1) r).allFiles = _
  rw [handleSearch_allFiles _ _ _ h1]
  simp only [typeSearch, List.filter_filter]
  apply List.filter_congr
  intro file _
  exact Bool.and_comm _ _

/-- C24, the code at an empty reload: after thirteen records are loaded, a
reload that returns the empty list leaves the thirteen records in `allFiles`,
and `changePage(2)` then shows one of them; the admin page keeps them too. -/
theorem empty_reload_keeps_catalog :
    (run codePointCompare (initialState "date-desc" "all")
        [.load ⟨true, thirteenFiles⟩, .load ⟨true, []⟩]).allFiles.length = 13 ∧
    (run codePointCompare (initialState "date-desc" "all")
        [.load ⟨true, thirteenFiles⟩, .load ⟨true, []⟩, .changePage 2]).shown =
      [sampleFile 0 "a.txt" 0 0] ∧
    (Admin.loadFiles (Admin.loadFiles (initialState "" "") ⟨true, thirteenFiles⟩)
      ⟨true, []⟩).allFiles.length = 13 := by
  decide

/-- A load that the server answers with the empty list, or does not answer, leaves
`allFiles` as it was. -/
theorem loadFiles_empty (localeCompare : String → String → Int) (s : PageState)
    (success : Bool) :
    (loadFiles localeCompare s ⟨success, []⟩).allFiles = s.allFiles ∧
      (Admin.loadFiles s ⟨success, []⟩).allFiles = s.allFiles := by
  constructor
  · rw [loadFiles_allFiles]; simp
  · simp [Admin.loadFiles]

/-! ## The upload page: one request -/

/-- C25 fails as stated: with three files selected the submit handler of the
upload page calls the transport once, with the three files in one form data. -/
theorem uploadSubmit_one_call_counterexample :
    sampleSelection.length = 3 ∧
      (uploadSubmit (fun _ => .load 200 "OK" (.json none)) ⟨sampleSelection, false⟩).calls.length
        = 1 ∧
      (uploadSubmit (fun _ => .load 200 "OK" (.json none)) ⟨sampleSelection, false⟩).calls =
        [sampleSelection] := by
  decide

/-- C25, amended. On the upload page, submitting a non-empty selection of `n`
files calls the transport exactly once, with one form data that carries all
the files in the order of the selection. -/
theorem uploadSubmit_calls (transport : List LocalFile → XhrOutcome) (s : UploadPage)
    (h : s.selectedFiles ≠ []) :
    (uploadSubmit transport s).calls = [s.selectedFiles] ∧
      (uploadSubmit transport s).calls.length = 1 := by
  have hc : (uploadSubmit transport s).calls = [s.selectedFiles] := by
    unfold uploadSubmit
    cases hs : s.selectedFiles with
    | nil => exact absurd hs h
    | cons file files =>
      simp only
      cases apiUploadFile (transport (file :: files)) with
      | error message => rfl
      | ok result =>
        simp only
        split_ifs <;> rfl
  exact ⟨hc, by rw [hc]; rfl⟩

/-- The theorem of C25 at three selected files. -/
theorem uploadSubmit_calls_witness :
    (uploadSubmit (fun _ => .error) ⟨sampleSelection, false⟩).calls = [sampleSelection] ∧
      (uploadSubmit (fun _ => .error) ⟨sampleSelection, false⟩).calls.length = 1 :=
  uploadSubmit_calls (fun _ => .error) ⟨sampleSelection, false⟩ (by decide)

/-- C26, the code at a failed upload: for the answer 500 with the body message
`Disk full`, `API.uploadFile` keeps the message in `data`, and the upload page
reports `Upload failed: Upload failed`, which does not contain it; for a network
error it reports `Upload failed: Network Error`. -/
theorem upload_failure_loses_message :
    (uploadSubmit (fun _ => .load 500 "Internal Server Error" (.json (some "Disk full")))
        ⟨sampleSelection, false⟩).report = .failed "Upload failed: Upload failed" ∧
      includes "Upload failed: Upload failed" "Disk full" = false ∧
      apiUploadFile (.load 500 "Internal Server Error" (.json (some "Disk full"))) =
        .ok { success := false, dataMessage := some "Disk full" } ∧
      (uploadSubmit (fun _ => .error) ⟨sampleSelection, false⟩).report =
        .failed "Upload failed: Network Error" :=
  ⟨by decide, by decide, rfl, by decide⟩

/-- Whatever a non-2xx answer says, the upload page reports `Upload failed`
twice. -/
theorem uploadSubmit_report_of_status (transport : List LocalFile → XhrOutcome)
    (s : UploadPage) (status : Nat) (statusText : String) (body : ResponseBody)
    (hs : s.selectedFiles ≠ [])
    (ht : transport s.selectedFiles = .load status statusText body)
    (hstatus : ¬ (status ≥ 200 ∧ status < 300)) :
    (uploadSubmit transport s).report = .failed "Upload failed: Upload failed" := by
  unfold uploadSubmit
  cases hsel : s.selectedFiles with
  | nil => exact absurd hsel hs
  | cons file files =>
    rw [hsel] at ht
    simp only [ht, apiUploadFile, hstatus, if_false]
    cases body <;> rfl

/-! ## The type label of the list view and the filter -/

theorem archiveTypes_disjoint : ∀ x ∈ archiveTypes,
    imageTypes.contains x = false ∧ documentTypes.contains x = false ∧
      videoTypes.contains x = false ∧ audioTypes.contains x = false := by
  decide

theorem listViewDocumentTypes_contains (e : String) (hmd : e ≠ "md") :
    listViewDocumentTypes.contains e = documentTypes.contains e := by
  have h : listViewDocumentTypes = documentTypes ++ ["md"] := by decide
  rw [h]
  simp [hmd]

theorem filterFiles_singleton (c : String) (hc : c ≠ "all") (file : FileRecord) :
    filterFiles c [file] = [file] ↔
      keepsExtension c (extensionOf file.original_filename) = true := by
  simp [filterFiles, hc, List.filter_cons]

theorem fileTypeLabel_eq (name : String) (hmd : extensionOf name ≠ "md") :
    fileTypeLabel name =
      if categoryOf (extensionOf name) = "other" then
        (if archiveTypes.contains (extensionOf name) then "Archive" else "Other")
      else categoryLabel (categoryOf (extensionOf name)) := by
  unfold fileTypeLabel categoryOf
  simp only [listViewDocumentTypes_contains _ hmd]
  cases hi : imageTypes.contains (extensionOf name) <;>
    cases hd : documentTypes.contains (extensionOf name) <;>
    cases hv : videoTypes.contains (extensionOf name) <;>
    cases ha : audioTypes.contains (extensionOf name) <;>
    simp [categoryLabel]

/-- C27 fails as stated: `backup.zip` passes the filter `other` and is
labelled `Archive`; `notes.md` is labelled `Document` and does not pass the
filter `document`. -/
theorem label_differs_counterexample :
    filterFiles "other" [sampleFile 1 "backup.zip" 1 1] = [sampleFile 1 "backup.zip" 1 1] ∧
      fileTypeLabel (sampleFile 1 "backup.zip" 1 1).original_filename = "Archive" ∧
      filterFiles "document" [sampleFile 2 "notes.md" 2 2] = [] ∧
      fileTypeLabel (sampleFile 2 "notes.md" 2 2).original_filename = "Document" := by
  decide

/-- C27, amended. For every record whose extension is not `md`: for each of
image, document, video and audio the record passes `filterFiles` with that
category exactly when `displayListView` labels it with that category, and it
passes the filter `other` exactly when its label is `Other` or `Archive`. -/
theorem label_matches_filter (file : FileRecord)
    (hmd : extensionOf file.original_filename ≠ "md") :
    (∀ c ∈ ["image", "document", "video", "audio"],
      (filterFiles c [file] = [file] ↔
        fileTypeLabel file.original_filename = categoryLabel c)) ∧
    (filterFiles "other" [file] = [file] ↔
      (fileTypeLabel file.original_filename = "Other" ∨
        fileTypeLabel file.original_filename = "Archive")) := by
  have hlabel := fileTypeLabel_eq file.original_filename hmd
  have hcat := categoryOf_mem (extensionOf file.original_filename)
  simp only [categories, List.mem_cons, List.mem_singleton, List.not_mem_nil, or_false] at hcat
  constructor
  · intro c hc
    have hcmem : c ∈ categories := by
      simp only [List.mem_cons, List.mem_singleton, List.not_mem_nil, or_false] at hc
      simp only [categories, List.mem_cons, List.mem_singleton, List.not_mem_nil, or_false]
      rcases hc with h | h | h | h <;> simp [h]
    have hne : c ≠ "all" := by
      simp only [List.mem_cons, List.mem_singleton, List.not_mem_nil, or_false] at hc
      rcases hc with rfl | rfl | rfl | rfl <;> decide
    rw [filterFiles_singleton c hne, keepsExtension_iff _ c hcmem, hlabel]
    simp only [List.mem_cons, List.mem_singleton, List.not_mem_nil, or_false] at hc
    rcases hc with rfl | rfl | rfl | rfl <;> rcases hcat with h | h | h | h | h <;>
      rw [h] <;> simp [categoryLabel] <;> split_ifs <;> decide
  · rw [filterFiles_singleton "other" (by decide),
      keepsExtension_iff _ "other" (by decide), hlabel]
    rcases hcat with h | h | h | h | h <;> rw [h] <;> simp [categoryLabel]
    tauto

/-- The theorem of C27 at `backup.zip`. -/
theorem label_matches_filter_witness :
    fileTypeLabel (sampleFile 1 "backup.zip" 1 1).original_filename = "Archive" ∧
    ((∀ c ∈ ["image", "document", "video", "audio"],
      (filterFiles c [sampleFile 1 "backup.zip" 1 1] = [sampleFile 1 "backup.zip" 1 1] ↔
        fileTypeLabel (sampleFile 1 "backup.zip" 1 1).original_filename = categoryLabel c)) ∧
    (filterFiles "other" [sampleFile 1 "backup.zip" 1 1] = [sampleFile 1 "backup.zip" 1 1] ↔
      (fileTypeLabel (sampleFile 1 "backup.zip" 1 1).original_filename = "Other" ∨
        fileTypeLabel (sampleFile 1 "backup.zip" 1 1).original_filename = "Archive"))) :=
  ⟨by decide, label_matches_filter (sampleFile 1 "backup.zip" 1 1) (by decide)⟩

/-! ## Pages partition the working set; sorting and filtering commute -/

theorem chunks_flatten {α : Type} (l : List α) (size n : Nat) :
    ((List.range n).map (fun k => (l.drop (k * size)).take size)).flatten =
      l.take (n * size) := by
  induction n with
  | zero => simp
  | succ n ih =>
    rw [List.range_succ, List.map_append, List.flatten_append, ih, Nat.succ_mul, List.take_add]
    simp

theorem pagesShown_eq (s : PageState) (pages : Nat) :
    pagesShown s pages =
      (List.range pages).map (fun k =>
        (s.allFiles.drop (k * filesPerPage)).take filesPerPage) := by
  unfold pagesShown
  apply List.map_congr_left
  intro k _
  rw [displayFiles_shown s ((k : Int) + 1) (by omega)]
  have e : ((k : Int) + 1).toNat - 1 = k := by omega
  rw [e]

/-- C28. For every non-empty working set, the pages `displayFiles` shows for
the page indices 1 to `totalPages` partition it: concatenated in page order
they are the working set, every page before the last has `filesPerPage`
records, and the last has between 1 and `filesPerPage`. -/
theorem pages_partition (s : PageState) (h : s.allFiles ≠ []) :
    (pagesShown s (totalPages s.allFiles).toNat).flatten = s.allFiles ∧
      (pagesShown s (totalPages s.allFiles).toNat).length = (totalPages s.allFiles).toNat ∧
      (∀ p : Int, 1 ≤ p → p < totalPages s.allFiles →
        (displayFiles s p).shown.length = filesPerPage) ∧
      1 ≤ (displayFiles s (totalPages s.allFiles)).shown.length ∧
      (displayFiles s (totalPages s.allFiles)).shown.length ≤ filesPerPage := by
  have hlen : 0 < s.allFiles.length := List.length_pos.2 h
  have htotal := totalPages_eq s.allFiles
  have hshown : ∀ p : Int, 1 ≤ p → (displayFiles s p).shown.length =
      min 12 (s.allFiles.length - (p.toNat - 1) * 12) := by
    intro p hp
    rw [displayFiles_shown s p hp, List.length_take, List.length_drop]
    rfl
  refine ⟨?_, ?_, ?_, ?_, ?_⟩
  · rw [pagesShown_eq, chunks_flatten]
    apply List.take_of_length_le
    rw [htotal]
    simp only [filesPerPage, Int.toNat_ofNat]
    omega
  · simp [pagesShown]
  · intro p hp1 hp2
    rw [hshown p hp1]
    rw [htotal] at hp2
    simp only [filesPerPage]
    omega
  · rw [hshown _ (by rw [htotal]; omega), htotal]
    simp only [Int.toNat_ofNat]
    omega
  · rw [hshown _ (by rw [htotal]; omega)]
    simp only [filesPerPage]
    omega

/-- The theorem of C28 at thirteen records: a page of twelve and a page of
one. -/
theorem pages_partition_witness :
    (pagesShown thirteenLoaded 2).map List.length = [12, 1] ∧
    ((pagesShown thirteenLoaded (totalPages thirteenLoaded.allFiles).toNat).flatten =
        thirteenLoaded.allFiles ∧
      (pagesShown thirteenLoaded (totalPages thirteenLoaded.allFiles).toNat).length =
        (totalPages thirteenLoaded.allFiles).toNat ∧
      (∀ p : Int, 1 ≤ p → p < totalPages thirteenLoaded.allFiles →
        (displayFiles thirteenLoaded p).shown.length = filesPerPage) ∧
      1 ≤ (displayFiles thirteenLoaded (totalPages thirteenLoaded.allFiles)).shown.length ∧
      (displayFiles thirteenLoaded (totalPages thirteenLoaded.allFiles)).shown.length ≤
        filesPerPage) :=
  ⟨by decide, pages_partition thirteenLoaded (by decide)⟩

theorem filter_orderedInsert {α : Type} (r : α → α → Prop) [DecidableRel r]
    (htrans : ∀ a b c, r a b → r b c → r a c) (p : α → Bool) (a : α) (l : List α)
    (hl : l.Sorted r) :
    (l.orderedInsert r a).filter p =
      if p a then (l.filter p).orderedInsert r a else l.filter p := by
  induction l with
  | nil => by_cases hp : p a <;> simp [hp]
  | cons b l ih =>
    have hl2 : l.Sorted r := hl.of_cons
    have hb : ∀ y ∈ l, r b y := List.rel_of_sorted_cons hl
    by_cases hab : r a b
    · rw [List.orderedInsert_of_le _ _ hab]
      by_cases hp : p a
      · simp only [hp, if_true, List.filter_cons_of_pos]
        -- `a` goes in front of whatever the filter keeps of `b :: l`
        cases hf : (b :: l).filter p with
        | nil => simp
        | cons y ys =>
          have hy : y ∈ b :: l := by
            have : y ∈ (b :: l).filter p := by rw [hf]; exact List.mem_cons_self _ _
            exact (List.mem_filter.1 this).1
          have hay : r a y := by
            rcases List.mem_cons.1 hy with rfl | hy2
            · exact hab
            · exact htrans _ _ _ hab (hb y hy2)
          rw [List.orderedInsert_of_le _ _ hay]
      · simp [hp]
    · have hins : (b :: l).orderedInsert r a = b :: l.orderedInsert r a := by
        simp [List.orderedInsert, hab]
      rw [hins]
      by_cases hpb : p b
      · simp only [List.filter_cons_of_pos hpb, ih hl2]
        by_cases hp : p a
        · simp [hp, List.orderedInsert, hab]
        · simp [hp]
      · simp only [List.filter_cons_of_neg hpb, ih hl2]

theorem filter_sort {α : Type} (cmp : α → α → Int) (hc : Consistent cmp) (p : α → Bool)
    (l : List α) : (sort cmp l).filter p = sort cmp (l.filter p) := by
  unfold sort
  induction l with
  | nil => simp
  | cons a l ih =>
    have hsorted : (l.insertionSort (fun a b => cmp a b ≤ 0)).Sorted (fun a b => cmp a b ≤ 0) :=
      sort_pairwise cmp hc l
    rw [List.insertionSort, filter_orderedInsert _ hc.trans p a _ hsorted, ih]
    by_cases hp : p a
    · simp [hp, List.filter_cons_of_pos]
    · simp [hp, List.filter_cons_of_neg]

/-- C29. Sorting and category filtering commute: for every list of records,
every value of the sort control and every value of the filter control,
filtering the sorted list gives the list that sorting the filtered list gives.
The host's `localeCompare` is taken to be a consistent comparator. -/
theorem sort_filter_commute (localeCompare : String → String → Int)
    (hlc : Consistent localeCompare) (sortBy fileType : String) (allFiles : List FileRecord) :
    filterFiles fileType (sortFiles localeCompare sortBy allFiles) =
      sortFiles localeCompare sortBy (filterFiles fileType allFiles) := by
  unfold sortFiles
  cases hc : comparefn localeCompare sortBy with
  | none => rfl
  | some cmp =>
    simp only
    unfold filterFiles
    split_ifs
    · exact filter_sort cmp (comparefn_consistent localeCompare hlc sortBy cmp hc) _ _
    · rfl

/-- The theorem of C29 at two text files and a picture sorted by size,
descending: the filter `document` drops the picture, which is the largest. -/
theorem sort_filter_commute_witness :
    sortFiles codePointCompare "size-desc" [sampleFile 1 "b.txt" 10 300,
        sampleFile 2 "photo.jpg" 30 100, sampleFile 3 "c.txt" 20 200] =
      [sampleFile 2 "photo.jpg" 30 100, sampleFile 3 "c.txt" 20 200,
        sampleFile 1 "b.txt" 10 300] ∧
    filterFiles "document" (sortFiles codePointCompare "size-desc"
        [sampleFile 1 "b.txt" 10 300, sampleFile 2 "photo.jpg" 30 100,
          sampleFile 3 "c.txt" 20 200]) =
      [sampleFile 3 "c.txt" 20 200, sampleFile 1 "b.txt" 10 300] ∧
    filterFiles "document" (sortFiles codePointCompare "size-desc"
        [sampleFile 1 "b.txt" 10 300, sampleFile 2 "photo.jpg" 30 100,
          sampleFile 3 "c.txt" 20 200]) =
      sortFiles codePointCompare "size-desc" (filterFiles "document"
        [sampleFile 1 "b.txt" 10 300, sampleFile 2 "photo.jpg" 30 100,
          sampleFile 3 "c.txt" 20 200]) :=
  ⟨by decide, by decide,
   sort_filter_commute codePointCompare codePointCompare_consistent "size-desc" "document"
     [sampleFile 1 "b.txt" 10 300, sampleFile 2 "photo.jpg" 30 100,
       sampleFile 3 "c.txt" 20 200]⟩

end DSS
